import Mathlib

/-!
# Mull driver: a shallow embedding

Definitions are transcribed from `lib/Driver.cpp`, the test runners under
`lib/GoogleTest`, `lib/CustomTestFramework`, `lib/CPPUnit`, and
`include/ExecutionResult.h`.  Pointers are natural numbers, `long long`
arithmetic is integer arithmetic wrapped to 64 bits, and collaborators whose
code lives in other translation units (sandbox, loader, compiler, object cache,
dynamic call tree, mutations finder) are fields of `Collaborators`.
-/

namespace mull

/-! ## include/ExecutionResult.h -/

/-- The enumeration `ExecutionStatus`, with the enumerators in source order. -/
inductive ExecutionStatus where
  | Invalid
  | Failed
  | Passed
  | Timedout
  | Crashed
  | AbnormalExit
  | DryRun
  deriving DecidableEq, Repr

/-- The struct `ExecutionResult`: `int exitStatus`, `long long runningTime`. -/
structure ExecutionResult where
  status : ExecutionStatus
  exitStatus : Int
  runningTime : Int
  stdoutOutput : String
  stderrOutput : String
  deriving DecidableEq, Repr

/-- The declaration `ExecutionResult result;`: the struct has no constructor, so
the three scalar members keep whatever the storage held (`garbage`), and the
two `std::string` members are default-constructed to the empty string. -/
def ExecutionResult.defaultInit (garbage : ExecutionResult) : ExecutionResult :=
  { garbage with stdoutOutput := "", stderrOutput := "" }

/-! ## Machine integers -/

/-- Value of a `long long` computation: the mathematical result reduced to the
signed 64-bit range. -/
def wrapInt64 (x : Int) : Int :=
  (x + 2 ^ 63) % 2 ^ 64 - 2 ^ 63

/-- Conversion of an `int` to `uint64_t`: reduction modulo `2 ^ 64`. -/
def toUInt64 (x : Int) : Int :=
  x % 2 ^ 64

/-! ## Test runners -/

/-- What a runner does that is visible from outside `runTest`. -/
inductive RunnerEvent where
  | addObjectSet (objectFiles : List Nat)
  | callCtor (name : String)
  | callInit (argc : Int) (argv : List String)
  | callGetInstance
  | callRun
  | callMain (argc : Int) (argv : List (Option String))
  | runDestructors
  | removeObjectSet
  deriving DecidableEq, Repr

/-- How a call of `runTest` ends: it returns a status, the process leaves through
`exit(code)`, or an `assert` fails. -/
inductive RunnerOutcome where
  | returned (status : ExecutionStatus)
  | exited (code : Nat)
  | assertionFailed
  deriving DecidableEq, Repr

/-- The events of one `runTest` call in program order, and how the call ended. -/
structure RunnerRun where
  events : List RunnerEvent
  outcome : RunnerOutcome
  deriving DecidableEq, Repr

/-- The JIT as a runner sees it: `findSymbol` gives the address the object layer
reports for a mangled name (0 is the null address), `manglePre` is what
`Mangler::getNameWithPrefix` puts before a name, and `returnValue` is the `int`
the framework entry point returns when it is called. -/
structure Jit where
  findSymbol : String → Nat
  manglePre : String
  returnValue : Int

/-- The call `mangler.getNameWithPrefix(name)`. -/
def Jit.getNameWithPrefix (jit : Jit) (name : String) : String :=
  jit.manglePre ++ name

/-- The methods `GoogleTestRunner::getFunctionPointer` and
`CustomTestRunner::getFunctionPointer`: `none` stands for the `exit(1)` taken
when the address is null. -/
def getFunctionPointer (jit : Jit) (functionName : String) : Option Nat :=
  let fpointer := jit.findSymbol functionName
  if fpointer = 0 then none else some fpointer

/-- The loop `for (auto &Ctor: ...) runStaticCtor(Ctor)` of the GoogleTest and
custom runners: the events so far, and `false` when a lookup left through
`exit(1)`. -/
def runStaticCtors (jit : Jit) : List String → List RunnerEvent → List RunnerEvent × Bool
  | [], events => (events, true)
  | ctor :: rest, events =>
    match getFunctionPointer jit (jit.getNameWithPrefix ctor) with
    | none => (events, false)
    | some _ => runStaticCtors jit rest (events ++ [RunnerEvent.callCtor ctor])

/-- A GoogleTest test as the runner uses it. -/
structure GoogleTest_Test where
  testName : String
  globalCtors : List String

/-- The method `GoogleTestRunner::runTest`. -/
def GoogleTestRunner.runTest (jit : Jit) (test : GoogleTest_Test) (objectFiles : List Nat) :
    RunnerRun :=
  let fGoogleTestInit := jit.getNameWithPrefix "_ZN7testing14InitGoogleTestEPiPPc"
  let fGoogleTestInstance := jit.getNameWithPrefix "_ZN7testing8UnitTest11GetInstanceEv"
  let fGoogleTestRun := jit.getNameWithPrefix "_ZN7testing8UnitTest3RunEv"
  let events := [RunnerEvent.addObjectSet objectFiles]
  match runStaticCtors jit test.globalCtors events with
  | (events, false) => ⟨events, RunnerOutcome.exited 1⟩
  | (events, true) =>
    let filter := "--gtest_filter=" ++ test.testName
    let argv := ["mull", filter]
    let argc : Int := 2
    match getFunctionPointer jit fGoogleTestInit with
    | none => ⟨events, RunnerOutcome.exited 1⟩
    | some _ =>
      let events := events ++ [RunnerEvent.callInit argc argv]
      match getFunctionPointer jit fGoogleTestInstance with
      | none => ⟨events, RunnerOutcome.exited 1⟩
      | some _ =>
        let events := events ++ [RunnerEvent.callGetInstance]
        match getFunctionPointer jit fGoogleTestRun with
        | none => ⟨events, RunnerOutcome.exited 1⟩
        | some _ =>
          let events := events ++ [RunnerEvent.callRun]
          let result := toUInt64 jit.returnValue
          let events := events ++ [RunnerEvent.runDestructors]
          let events := events ++ [RunnerEvent.removeObjectSet]
          if result = 0 then
            ⟨events, RunnerOutcome.returned ExecutionStatus.Passed⟩
          else
            ⟨events, RunnerOutcome.returned ExecutionStatus.Failed⟩

/-- A custom test as the runner uses it. -/
structure CustomTest_Test where
  programName : String
  arguments : List String
  constructors : List String

/-- The text of the C string that `strcpy(argv[i], argument.c_str())` writes into
the array allocated for it: `strcpy` copies up to the first null character, so
it is the text of the argument before its first null character. -/
def strcpy (argument : String) : String :=
  ⟨argument.toList.takeWhile (fun c => c ≠ Char.ofNat 0)⟩

/-- The method `CustomTestRunner::runTest`.  The `argv` array is the list of the
copied C strings followed by the null entry `none`; `argc` is the size of the
vector, taken to fit an `int`. -/
def CustomTestRunner.runTest (jit : Jit) (test : CustomTest_Test) (objectFiles : List Nat) :
    RunnerRun :=
  let events := [RunnerEvent.addObjectSet objectFiles]
  match runStaticCtors jit test.constructors events with
  | (events, false) => ⟨events, RunnerOutcome.exited 1⟩
  | (events, true) =>
    let arguments := test.programName :: test.arguments
    let argc : Int := arguments.length
    let argv : List (Option String) :=
      arguments.map (fun argument => some (strcpy argument)) ++ [none]
    match getFunctionPointer jit (jit.getNameWithPrefix "main") with
    | none => ⟨events, RunnerOutcome.exited 1⟩
    | some _ =>
      let events := events ++ [RunnerEvent.callMain argc argv]
      let exitStatus := jit.returnValue
      let events := events ++ [RunnerEvent.runDestructors]
      let events := events ++ [RunnerEvent.removeObjectSet]
      if exitStatus = 0 then
        ⟨events, RunnerOutcome.returned ExecutionStatus.Passed⟩
      else
        ⟨events, RunnerOutcome.returned ExecutionStatus.Failed⟩

/-- The method `CPPUnitRunner::FunctionPointer`: `none` stands for the failed
`assert(FPointer && "Can't find pointer to function")`. -/
def CPPUnitRunner.FunctionPointer (jit : Jit) (functionName : String) : Option Nat :=
  let fpointer := jit.findSymbol functionName
  if fpointer = 0 then none else some fpointer

/-- The constructor loop of `CPPUnitRunner::runTest`; it mangles with
`MangleName` and looks up with `FunctionPointer`. -/
def CPPUnitRunner.runStaticCtors (jit : Jit) :
    List String → List RunnerEvent → List RunnerEvent × Bool
  | [], events => (events, true)
  | ctor :: rest, events =>
    match CPPUnitRunner.FunctionPointer jit (jit.getNameWithPrefix ctor) with
    | none => (events, false)
    | some _ => CPPUnitRunner.runStaticCtors jit rest (events ++ [RunnerEvent.callCtor ctor])

/-- The method `CPPUnitRunner::runTest`, reduced to the `Status` member of the
result it builds (the other member is the measured wall-clock time). -/
def CPPUnitRunner.runTest (jit : Jit) (test : GoogleTest_Test) (objectFiles : List Nat) :
    RunnerRun :=
  let events := [RunnerEvent.addObjectSet objectFiles]
  match CPPUnitRunner.runStaticCtors jit test.globalCtors events with
  | (events, false) => ⟨events, RunnerOutcome.assertionFailed⟩
  | (events, true) =>
    let filter := "--gtest_filter=" ++ test.testName
    let argv := ["mull", filter]
    let argc : Int := 2
    match CPPUnitRunner.FunctionPointer jit "__ZN7testing14InitCPPUnitEPiPPc" with
    | none => ⟨events, RunnerOutcome.assertionFailed⟩
    | some _ =>
      let events := events ++ [RunnerEvent.callInit argc argv]
      match CPPUnitRunner.FunctionPointer jit "__ZN7testing8UnitTest11GetInstanceEv" with
      | none => ⟨events, RunnerOutcome.assertionFailed⟩
      | some _ =>
        let events := events ++ [RunnerEvent.callGetInstance]
        match CPPUnitRunner.FunctionPointer jit "__ZN7testing8UnitTest3RunEv" with
        | none => ⟨events, RunnerOutcome.assertionFailed⟩
        | some _ =>
          let events := events ++ [RunnerEvent.callRun]
          let result := toUInt64 jit.returnValue
          let events := events ++ [RunnerEvent.runDestructors]
          let events := events ++ [RunnerEvent.removeObjectSet]
          if result = 0 then
            ⟨events, RunnerOutcome.returned ExecutionStatus.Passed⟩
          else
            ⟨events, RunnerOutcome.returned ExecutionStatus.Failed⟩

/-! ## The intermediate representation seen by `Driver::injectCallbacks` -/

/-- The types of the intermediate representation that the driver and the
mutation operators look at. -/
inductive LType where
  | void
  | integer (width : Nat)
  | float
  | double
  | pointer (pointee : LType)
  | other (id : Nat)
  deriving DecidableEq, Repr

/-- Operands: integer and floating constants, the constant cast
`inttoptr`, and every other value, known by its type and an identifier.
Constants are unique in their context, so two constants are the same value
exactly when they are equal; an integer constant is written with its value
below `2 ^ width`. -/
inductive Value where
  | constantInt (width : Nat) (value : Nat)
  | constantFP (type : LType) (value : Int)
  | intToPtr (operand : Value) (type : LType)
  | other (type : LType) (id : Nat)
  deriving DecidableEq, Repr

/-- Instructions: calls (the callee is named), returns, stores, every other
terminator and every other instruction. -/
inductive Instruction where
  | call (callee : String) (arguments : List Value)
  | ret (operand : Option Value)
  | store (value : Value) (pointer : Value)
  | terminator (id : Nat)
  | other (id : Nat)
  deriving DecidableEq, Repr

/-- Whether the instruction is a `TerminatorInst`. -/
def Instruction.isTerminator : Instruction → Bool
  | Instruction.ret _ => true
  | Instruction.terminator _ => true
  | _ => false

/-- Whether the instruction is a `ReturnInst`. -/
def Instruction.isReturn : Instruction → Bool
  | Instruction.ret _ => true
  | _ => false

/-- A basic block is its instruction list. -/
structure BasicBlock where
  instructions : List Instruction
  deriving DecidableEq, Repr

/-- The method `BasicBlock::getTerminator`: the last instruction when it is a
terminator, null otherwise (also for an empty block). -/
def BasicBlock.getTerminator (block : BasicBlock) : Option Instruction :=
  match block.instructions.getLast? with
  | none => none
  | some last => if last.isTerminator then some last else none

/-- Linkage of a function, as far as the driver sets it. -/
inductive Linkage where
  | ExternalLinkage
  | otherLinkage (id : Nat)
  deriving DecidableEq, Repr

/-- A function of a module: a declaration has no basic block. -/
structure LFunction where
  name : String
  linkage : Linkage
  returnType : LType
  parameterTypes : List LType
  blocks : List BasicBlock
  deriving DecidableEq, Repr

/-- The method `Function::isDeclaration`. -/
def LFunction.isDeclaration (function : LFunction) : Bool :=
  function.blocks.isEmpty

/-- A module is its function list. -/
structure LModule where
  functions : List LFunction
  deriving DecidableEq, Repr

/-- The method `Module::getFunction`: the function of that name, or null. -/
def LModule.getFunction (module : LModule) (name : String) : Option LFunction :=
  module.functions.find? (fun function => function.name == name)

/-- The call `Function::Create(callbackType, Function::ExternalLinkage, name,
parent)` with `callbackType = void (void *, i64)`: the new declaration goes to
the end of the parent's function list. -/
def createCallback (module : LModule) (name : String) : LModule :=
  { functions := module.functions ++
      [{ name := name, linkage := Linkage.ExternalLinkage, returnType := LType.void,
         parameterTypes := [LType.pointer LType.void, LType.integer 64], blocks := [] }] }

/-- The vector `parameters` of `injectCallbacks`: the driver address as an
integer constant of pointer width cast to `i64 *`, and the 64-bit index. -/
def callbackParameters (driverAddress pointerWidth index : Nat) : List Value :=
  [Value.intToPtr
      (Value.constantInt (pointerWidth * 8) (driverAddress % 2 ^ (pointerWidth * 8)))
      (LType.pointer (LType.integer 64)),
   Value.constantInt 64 (index % 2 ^ 64)]

/-- One round of the loop over the blocks in `injectCallbacks`: a block whose
terminator is a return gets the leave call right before the return, another
terminator leaves the block as it is; `none` is the failed cast of a null
terminator. -/
def injectLeave (leaveFunctionCall : Instruction) (block : BasicBlock) : Option BasicBlock :=
  match block.getTerminator with
  | none => none
  | some returnStatement =>
    if returnStatement.isReturn then
      some { instructions := block.instructions.dropLast ++ [leaveFunctionCall, returnStatement] }
    else
      some block

/-- The loop `for (auto &block : function->getBasicBlockList())`. -/
def injectLeaves (leaveFunctionCall : Instruction) : List BasicBlock → Option (List BasicBlock)
  | [] => some []
  | block :: rest =>
    match injectLeave leaveFunctionCall block with
    | none => none
    | some block1 =>
      match injectLeaves leaveFunctionCall rest with
      | none => none
      | some rest1 => some (block1 :: rest1)

/-- The body of `injectCallbacks` once both callbacks are at hand: the enter
call goes before the first instruction of the entry block, then the blocks are
walked.  `none` when the function has no block or the entry block has no
instruction (the source dereferences `begin()` in both cases). -/
def injectIntoFunction (parameters : List Value) (function : LFunction) : Option LFunction :=
  match function.blocks with
  | [] => none
  | entryBlock :: rest =>
    match entryBlock.instructions with
    | [] => none
    | first :: others =>
      let enterFunctionCall := Instruction.call "mull_enterFunction" parameters
      let entryBlock1 : BasicBlock := { instructions := enterFunctionCall :: first :: others }
      let leaveFunctionCall := Instruction.call "mull_leaveFunction" parameters
      match injectLeaves leaveFunctionCall (entryBlock1 :: rest) with
      | none => none
      | some blocks => some { function with blocks := blocks }

/-- The method `Driver::injectCallbacks(function, index)`, where `function` is
the function at position `position` of `module` (its parent).  `driverAddress`
is `this`, `pointerWidth` the pointer size of the target in bytes.  `none`
stands for a failed `assert(enterFunction)` / `assert(leaveFunction)` and for
the undefined cases of `injectIntoFunction`. -/
def injectCallbacks (driverAddress pointerWidth : Nat) (module : LModule) (position : Nat)
    (index : Nat) : Option LModule :=
  let parameters := callbackParameters driverAddress pointerWidth index
  let enterFunction := module.getFunction "mull_enterFunction"
  let leaveFunction := module.getFunction "mull_leaveFunction"
  let module1 :=
    if enterFunction.isNone && leaveFunction.isNone then
      createCallback (createCallback module "mull_enterFunction") "mull_leaveFunction"
    else
      module
  if (module1.getFunction "mull_enterFunction").isNone then none
  else if (module1.getFunction "mull_leaveFunction").isNone then none
  else
    match module1.functions.get? position with
    | none => none
    | some function =>
      match injectIntoFunction parameters function with
      | none => none
      | some function1 => some { functions := module1.functions.set position function1 }

/-! ## lib/MutationOperators/ReplaceAssignmentMutationOperator.cpp -/

/-- The method `Value::getType` on the operands of the model. -/
def Value.getType : Value → LType
  | Value.constantInt width _ => LType.integer width
  | Value.constantFP type _ => type
  | Value.intToPtr _ type => type
  | Value.other type _ => type

/-- The method `Type::isIntegerTy`. -/
def LType.isIntegerTy : LType → Bool
  | LType.integer _ => true
  | _ => false

/-- The method `Type::isFloatTy`. -/
def LType.isFloatTy : LType → Bool
  | LType.float => true
  | _ => false

/-- The method `Type::isDoubleTy`. -/
def LType.isDoubleTy : LType → Bool
  | LType.double => true
  | _ => false

/-- The method `Type::getIntegerBitWidth`, which is only called on integer
types. -/
def LType.getIntegerBitWidth : LType → Nat
  | LType.integer width => width
  | _ => 0

/-- The static function `findPossibleApplication`: whether the operator applies
to `V`, and the text in `outDiagnostics` afterwards.  `V` is an instruction, so
the cast `dyn_cast<Instruction>(&V)` and the assertion on it succeed. -/
def findPossibleApplication (V : Instruction) (outDiagnostics : String) : Bool × String :=
  match V with
  | Instruction.store storedValue _ =>
    if storedValue.getType.isIntegerTy = false ∧ storedValue.getType.isFloatTy = false ∧
        storedValue.getType.isDoubleTy = false then
      (false, outDiagnostics)
    else
      (true, "Replace Assignment: replaced rvalue with 42")
  | _ => (false, outDiagnostics)

/-- The member `ReplaceAssignmentMutationOperator::ID`. -/
def ReplaceAssignmentMutationOperator.ID : String := "replace_assignment_mutation_operator"

/-- The method `ReplaceAssignmentMutationOperator::canBeApplied`. -/
def ReplaceAssignmentMutationOperator.canBeApplied (V : Instruction) : Bool :=
  (findPossibleApplication V "").1

/-- Modelled from the spec: the class `MutationPointAddress`, which is not under
src/.  The address "locates an instruction within the module at
function/block/instruction granularity", "expressible as indices, not raw
pointers". -/
structure MutationPointAddress where
  functionIndex : Nat
  blockIndex : Nat
  instructionIndex : Nat
  deriving DecidableEq, Repr

/-- Modelled from the spec: the class `MutationPoint`, which is not under src/,
as the arguments its constructor is given: the operator (by its identifier),
the address, the instruction, the module (by its address) and the diagnostics
text. -/
structure MutationPoint where
  mutationOperator : String
  address : MutationPointAddress
  instruction : Instruction
  module : Nat
  diagnostics : String
  deriving DecidableEq, Repr

/-- The method `ReplaceAssignmentMutationOperator::getMutationPoint`; `none` is
the null pointer. -/
def ReplaceAssignmentMutationOperator.getMutationPoint (module : Nat)
    (address : MutationPointAddress) (instruction : Instruction) : Option MutationPoint :=
  let diagnostics := ""
  match findPossibleApplication instruction diagnostics with
  | (false, _) => none
  | (true, diagnostics) =>
    some ⟨ReplaceAssignmentMutationOperator.ID, address, instruction, module, diagnostics⟩

/-- The constant `MagicValue` of `getReplacement`. -/
def MagicValue : Nat := 42

/-- The static function `getReplacement`: `APInt(width, MagicValue)` keeps the
low `width` bits of the value, and the floating constants have the value of
`(double)MagicValue` and `(float)MagicValue`, which is 42 exactly.  `none` is
`llvm_unreachable("Unsupported return type!")`. -/
def getReplacement (returnType : LType) : Option Value :=
  if returnType.isIntegerTy then
    some (Value.constantInt returnType.getIntegerBitWidth
      (MagicValue % 2 ^ returnType.getIntegerBitWidth))
  else if returnType.isDoubleTy then
    some (Value.constantFP LType.double MagicValue)
  else if returnType.isFloatTy then
    some (Value.constantFP LType.float MagicValue)
  else none

/-- Modelled from the spec: the method `MutationPointAddress::findInstruction`,
which is not under src/: the instruction at the three indices, null when there
is none. -/
def MutationPointAddress.findInstruction (address : MutationPointAddress) (M : LModule) :
    Option Instruction :=
  match M.functions.get? address.functionIndex with
  | none => none
  | some function =>
    match function.blocks.get? address.blockIndex with
    | none => none
    | some block => block.instructions.get? address.instructionIndex

/-- A value in which every use of `old` is a use of `new`. -/
def Value.replaceUsesWith (old new : Value) : Value → Value
  | Value.intToPtr operand type =>
    if Value.intToPtr operand type = old then new
    else Value.intToPtr (Value.replaceUsesWith old new operand) type
  | value => if value = old then new else value

/-- An instruction in which every operand that uses `old` uses `new`.  The
operands of the instructions the model does not look into are not shown. -/
def Instruction.replaceUsesWith (old new : Value) : Instruction → Instruction
  | Instruction.call callee arguments =>
    Instruction.call callee (arguments.map (Value.replaceUsesWith old new))
  | Instruction.ret operand => Instruction.ret (operand.map (Value.replaceUsesWith old new))
  | Instruction.store value pointer =>
    Instruction.store (Value.replaceUsesWith old new value)
      (Value.replaceUsesWith old new pointer)
  | instruction => instruction

/-- The call `old->replaceAllUsesWith(replacement)`, seen on a module. -/
def LModule.replaceAllUsesWith (M : LModule) (old new : Value) : LModule :=
  { functions := M.functions.map (fun function =>
      { function with blocks := function.blocks.map (fun block =>
          { instructions := block.instructions.map (Instruction.replaceUsesWith old new) }) }) }

/-- The module with the instruction at an address put in place of the one
there. -/
def LModule.setInstruction (M : LModule) (address : MutationPointAddress)
    (instruction : Instruction) : LModule :=
  match M.functions.get? address.functionIndex with
  | none => M
  | some function =>
    match function.blocks.get? address.blockIndex with
    | none => M
    | some block =>
      let block1 : BasicBlock :=
        { instructions := block.instructions.set address.instructionIndex instruction }
      let function1 : LFunction :=
        { function with blocks := function.blocks.set address.blockIndex block1 }
      { functions := M.functions.set address.functionIndex function1 }

/-- The method `ReplaceAssignmentMutationOperator::applyMutation` on the module
`M`: the first operand of the store at the address is set to the replacement,
then every other use of the old operand is redirected to the replacement.
`none` stands for the cases in which the method does not complete: no
instruction at the address, an instruction that is not a store (the null
`StoreInst *` is dereferenced), `llvm_unreachable`, and a stored operand that is
the replacement constant itself, for which `storeOperand->replaceAllUsesWith`
is called with the value it is called on (`Value::replaceAllUsesWith` asserts
that the new value is another one, and goes round its use list without end
when assertions are off). -/
def ReplaceAssignmentMutationOperator.applyMutation (M : LModule)
    (address : MutationPointAddress) : Option LModule :=
  match address.findInstruction M with
  | some (Instruction.store storeOperand pointer) =>
    let returnedType := storeOperand.getType
    match getReplacement returnedType with
    | none => none
    | some replacement =>
      let M1 := M.setInstruction address (Instruction.store replacement pointer)
      if storeOperand = replacement then none
      else some (M1.replaceAllUsesWith storeOperand replacement)
  | _ => none

/-! ## include/Config.h -/

/-- The struct `CustomTest` of `include/Config.h`. -/
structure CustomTest where
  name : String
  method : String
  deriving DecidableEq, Repr

/-- The data members of the class `Config` of `include/Config.h`, in
declaration order.  `Driver::Run` reads `timeout`, `maxDistance` and `dryRun`
through `getTimeout()`, `getMaxDistance()`, `isDryRun()`. -/
structure Config where
  bitcodeFileList : String
  projectName : String
  testFramework : String
  mutationOperators : List String
  dynamicLibraryFileList : String
  tests : List String
  excludeLocations : List String
  customTests : List CustomTest
  fork : Bool
  dryRun : Bool
  useCache : Bool
  emitDebugInfo : Bool
  timeout : Int
  maxDistance : Int
  cacheDirectory : String
  deriving DecidableEq, Repr

/-- The global `MullDefaultTimeoutMilliseconds`. -/
def MullDefaultTimeoutMilliseconds : Int := 3000

/-- The default constructor `Config::Config()`. -/
def Config.defaultConstructed : Config :=
  { bitcodeFileList := ""
    projectName := ""
    testFramework := "GoogleTest"
    mutationOperators := []
    dynamicLibraryFileList := ""
    tests := []
    excludeLocations := []
    customTests := []
    fork := true
    dryRun := false
    useCache := true
    emitDebugInfo := false
    timeout := MullDefaultTimeoutMilliseconds
    maxDistance := 128
    cacheDirectory := "/tmp/mull_cache" }

/-! ## include/Config.h: the file lists and `validate` -/

/-- The files a `std::ifstream` can be opened on: `read path` is the content of
the file named `path`, a sequence of characters, or `none` when the stream
would not be `good()`. -/
structure FileSystem where
  read : String → Option (List Char)

/-- The characters `std::getline` extracts from a non-empty rest of a stream, and
the rest after them: extraction stops at the first newline, which is consumed
and not stored, or at the end of the stream. -/
def getlineExtract : List Char → List Char × List Char
  | [] => ([], [])
  | c :: cs =>
    if c = '\n' then ([], cs)
    else ((c :: (getlineExtract cs).1), (getlineExtract cs).2)

/-- The call `getline(ifs, path)` as the loop condition reads it: `none` when no
character is left (the extraction fails and the loop ends), otherwise the line
and the rest of the stream. -/
def getline (stream : List Char) : Option (List Char × List Char) :=
  match stream with
  | [] => none
  | _ :: _ => some (getlineExtract stream)

/-- The loop of `Config::getBitcodePaths` on the rest of the stream; `fuel`
bounds the number of rounds. -/
def getBitcodePathsLoop : Nat → List Char → List (List Char) → List (List Char)
  | 0, _, bitcodePaths => bitcodePaths
  | fuel + 1, stream, bitcodePaths =>
    match getline stream with
    | none => bitcodePaths
    | some (path, rest) =>
      if path.length ≠ 0 ∧ path.head? = some '#' then
        getBitcodePathsLoop fuel rest bitcodePaths
      else
        getBitcodePathsLoop fuel rest (bitcodePaths ++ [path])

/-- The method `Config::getBitcodePaths` for a list file of the given content.
Every round of the loop consumes a character, so one round more than the
content has characters is enough. -/
def getBitcodePathsOf (content : List Char) : List (List Char) :=
  getBitcodePathsLoop (content.length + 1) content []

/-- The method `Config::getBitcodePaths`: a stream that cannot be opened yields
no line. -/
def Config.getBitcodePaths (config : Config) (files : FileSystem) : List (List Char) :=
  match files.read config.bitcodeFileList with
  | none => []
  | some content => getBitcodePathsOf content

/-- The loop of `Config::getDynamicLibrariesPaths`; `none` is the
`std::out_of_range` that `path.at(0)` throws on an empty line. -/
def getDynamicLibrariesPathsLoop :
    Nat → List Char → List (List Char) → Option (List (List Char))
  | 0, _, dynamicLibrariesPaths => some dynamicLibrariesPaths
  | fuel + 1, stream, dynamicLibrariesPaths =>
    match getline stream with
    | none => some dynamicLibrariesPaths
    | some (path, rest) =>
      match path with
      | [] => none
      | first :: others =>
        if first = '#' then
          getDynamicLibrariesPathsLoop fuel rest dynamicLibrariesPaths
        else
          getDynamicLibrariesPathsLoop fuel rest (dynamicLibrariesPaths ++ [first :: others])

/-- The method `Config::getDynamicLibrariesPaths` for a list file of the given
content. -/
def getDynamicLibrariesPathsOf (content : List Char) : Option (List (List Char)) :=
  getDynamicLibrariesPathsLoop (content.length + 1) content []

/-- The method `Config::getDynamicLibrariesPaths`. -/
def Config.getDynamicLibrariesPaths (config : Config) (files : FileSystem) :
    Option (List (List Char)) :=
  match files.read config.dynamicLibraryFileList with
  | none => some []
  | some content => getDynamicLibrariesPathsOf content

/-- The method `Config::validate`; `std::ifstream(path).good()` is
`(files.read path).isSome`. -/
def Config.validate (config : Config) (files : FileSystem) : List String :=
  if config.bitcodeFileList.length = 0 then
    ["bitcode_file_list parameter is not specified."]
  else
    let errors : List String := []
    let errors :=
      if (files.read config.bitcodeFileList).isSome = false then
        errors ++ ["bitcode_file_list parameter points to a non-existing file: " ++
          config.bitcodeFileList]
      else errors
    let errors :=
      if config.dynamicLibraryFileList.isEmpty = false then
        if (files.read config.dynamicLibraryFileList).isSome = false then
          errors ++ ["dynamic_library_file_list parameter points to a non-existing file: " ++
            config.dynamicLibraryFileList]
        else errors
      else errors
    errors

/-- The lines of a text: the pieces between newlines, where a newline at the very
end does not start a further, empty line. -/
def fileLines : List Char → List (List Char)
  | [] => []
  | c :: cs =>
    if c = '\n' then [] :: fileLines cs
    else
      match fileLines cs with
      | [] => [[c]]
      | line :: lines => (c :: line) :: lines

/-- Whether a line begins with the character `#`. -/
def beginsWithHash (line : List Char) : Bool :=
  line.head? == some '#'

/-! ## lib/Driver.cpp -/

/-- A loaded module: the address of its `llvm::Module` (the key of `InnerCache`)
and its contents. -/
structure MullModule where
  address : Nat
  module : LModule

/-- An entry of the table `functions`: the function it was built from, named by
the position of its module in the loader's vector and its position in that
module's function list. -/
structure CallTreeFunction where
  moduleIndex : Nat
  functionIndex : Nat
  deriving DecidableEq, Repr

/-- A testee: its function, the test it was derived for (a position in the
vector of found tests) and its distance from that test. -/
structure Testee where
  function : CallTreeFunction
  test : Nat
  distance : Int
  deriving DecidableEq, Repr

/-- The members of `Driver` that `Run` reads and writes.  `InnerCache` is the
`std::map` from module address to object file, kept as its entries in key
order; `callTreeMapping` is `none` while the pointer is null, and otherwise
holds the slots of the shared buffer. -/
structure Driver where
  functions : List CallTreeFunction
  InnerCache : List (Nat × Nat)
  precompiledObjectFiles : List Nat
  callTreeMapping : Option (List Nat)
  callstack : List Nat
  deriving DecidableEq, Repr

/-- What `Sandbox->run` is given, together with what the shared buffer and the
call stack hold at that moment.  `mutant` is `none` for the run of an original
test and the mutation point for a mutant run. -/
structure SandboxRequest where
  mutant : Option Nat
  test : Nat
  objectFiles : List Nat
  timeout : Int
  callTreeMapping : List Nat
  callstack : List Nat
  deriving DecidableEq, Repr

/-- What `Sandbox->run` leaves behind: the result it returns, and the contents of
the shared buffer and of the call stack once it has returned. -/
structure SandboxOutcome where
  result : ExecutionResult
  callTreeMapping : List Nat
  callstack : List Nat

/-- The calls `Driver::Run` makes, in program order. -/
inductive Event where
  | injectCallbacks (moduleIndex : Nat) (functionName : String) (index : Nat)
  | sandboxRun (request : SandboxRequest)
  | createTestees (test : Nat)
  | getMutationPoints (test : Nat) (testee : Testee)
  deriving DecidableEq, Repr

/-- The element type of the vector `mutationResults`. -/
structure MutationResult where
  result : ExecutionResult
  mutationPoint : Nat
  distance : Int
  test : Nat
  deriving DecidableEq, Repr

/-- The collaborators of the driver, none of which is defined in `Driver.cpp`.

* `modules`: what `Loader.loadModulesFromBitcodeFileList` returns.
* `getObject i`: what `toolchain.cache().getObject` answers for the module at
  position `i` when its turn comes.
* `compileModule i`: the object file compiled from the instrumented clone of
  the module at position `i`.
* `objectFiles`: for each path of `Cfg.getObjectFilesPaths()`, the object file
  read from it, or `none` when reading or parsing failed.
* `testsCount`: the length of the vector `Finder.findTests` returns; a test is
  named by its position in that vector.
* `initialResult`: the member `executionResult` of each test object before the
  driver stores into it.
* `sandbox n request`: the outcome of the sandboxed run number `n`.
* `createTestees test functions mapping maxDistance`: the testees obtained
  from `createCallTree`, `extractTestSubtrees` and `createTestees` for the
  given contents of the shared buffer.
* `getMutationPoints queries testee`: what `mutationsFinder.getMutationPoints`
  returns after the earlier queries `queries`.
* `getReachableTests queries point`: the reachable tests of a mutation point
  once the finder has answered `queries`.
* `getOriginalModule point`: the address of the point's original module.
* `compileMutant k point`: the object compiled in round `k` of the mutant loop.
* `garbage n`: what the storage of the `n`-th uninitialised local result holds.
* `files`: the files the list files of the configuration are read from. -/
structure Collaborators where
  files : FileSystem
  modules : List MullModule
  getObject : Nat → Option Nat
  compileModule : Nat → Nat
  objectFiles : List (Option Nat)
  testsCount : Nat
  initialResult : Nat → ExecutionResult
  sandbox : Nat → SandboxRequest → SandboxOutcome
  createTestees : Nat → List CallTreeFunction → List Nat → Int → List Testee
  getMutationPoints : List Testee → Testee → List Nat
  getReachableTests : List Testee → Nat → List (Nat × Int)
  getOriginalModule : Nat → Nat
  compileMutant : Nat → Nat → Nat
  garbage : Nat → ExecutionResult

/-- The state of one call of `Driver::Run`: the driver's members, the stored
result of every test, the calls made so far, the number of sandboxed runs so
far, the queries put to the mutations finder so far, the locals
`allMutationPoints` and `mutationResults`, the paths handed to
`LoadLibraryPermanently` so far, and whether `Run` has been left without
returning: a failed `assert` has ended the process, or an exception has been
thrown out of `Run`. -/
structure RunState where
  driver : Driver
  tests : Nat → ExecutionResult
  trace : List Event
  runs : Nat
  loadedLibraries : List (List Char)
  queries : List Testee
  allMutationPoints : List Nat
  mutationResults : List MutationResult
  aborted : Bool

/-- The call `InnerCache.insert(std::make_pair(key, value))` on a `std::map`:
entries stay in key order, and a key already present keeps its entry. -/
def InnerCacheInsert : List (Nat × Nat) → Nat × Nat → List (Nat × Nat)
  | [], entry => [entry]
  | head :: rest, entry =>
    if entry.1 < head.1 then entry :: head :: rest
    else if entry.1 = head.1 then head :: rest
    else head :: InnerCacheInsert rest entry

/-- The method `Driver::AllButOne`. -/
def Driver.AllButOne (driver : Driver) (One : Nat) : List Nat :=
  ((driver.InnerCache.filter (fun CachedEntry => One ≠ CachedEntry.1)).map
    (fun CachedEntry => CachedEntry.2)) ++ driver.precompiledObjectFiles

/-- The method `Driver::AllObjectFiles`. -/
def Driver.AllObjectFiles (driver : Driver) : List Nat :=
  (driver.InnerCache.map (fun CachedEntry => CachedEntry.2)) ++ driver.precompiledObjectFiles

/-- The vector `objectFilesWithMutant` after `push_back(mutant)`. -/
def Driver.objectFilesWithMutant (driver : Driver) (One mutant : Nat) : List Nat :=
  driver.AllButOne One ++ [mutant]

/-- The inner loop of the load phase over the function list of the module at
position `moduleIndex`; `position` is the position of the head of the list. -/
def recordFunctions (moduleIndex : Nat) : List LFunction → Nat → RunState → RunState
  | [], _, state => state
  | function :: rest, position, state =>
    if function.isDeclaration then
      recordFunctions moduleIndex rest (position + 1) state
    else
      let index := state.driver.functions.length
      let state1 : RunState :=
        { state with
          driver := { state.driver with
            functions := state.driver.functions ++ [⟨moduleIndex, position⟩] }
          trace := state.trace ++ [Event.injectCallbacks moduleIndex function.name index] }
      recordFunctions moduleIndex rest (position + 1) state1

/-- The loop `for (auto &ownedModule : modules)`; `moduleIndex` is the position
of the head of the list. -/
def loadModules (env : Collaborators) : List MullModule → Nat → RunState → RunState
  | [], _, state => state
  | module :: rest, moduleIndex, state =>
    match env.getObject moduleIndex with
    | some objectFile =>
      loadModules env rest (moduleIndex + 1)
        { state with driver := { state.driver with
            InnerCache := InnerCacheInsert state.driver.InnerCache (module.address, objectFile) } }
    | none =>
      let state1 := recordFunctions moduleIndex module.module.functions 0 state
      let objectFile := env.compileModule moduleIndex
      loadModules env rest (moduleIndex + 1)
        { state1 with driver := { state1.driver with
            InnerCache := InnerCacheInsert state1.driver.InnerCache (module.address, objectFile) } }

/-- The loop `for (std::string &objectFilePath: Cfg.getObjectFilesPaths())`: a
path that cannot be loaded is skipped. -/
def loadObjectFiles : List (Option Nat) → Driver → Driver
  | [], driver => driver
  | none :: rest, driver => loadObjectFiles rest driver
  | some objectFile :: rest, driver =>
    loadObjectFiles rest
      { driver with precompiledObjectFiles := driver.precompiledObjectFiles ++ [objectFile] }

/-- The method `Driver::prepareForExecution`: `none` when one of its two
assertions fails, otherwise the buffer is mapped with one zeroed slot per
entry of `functions`. -/
def Driver.prepareForExecution (driver : Driver) : Option Driver :=
  if driver.callTreeMapping.isSome then none
  else if driver.functions.length ≤ 1 then none
  else some { driver with callTreeMapping := some (List.replicate driver.functions.length 0) }

/-- The size `sizeof(uint64_t)` of an element of `_callTreeMapping`. -/
def sizeofUInt64 : Nat := 8

/-- The length `sizeof(uint64_t) * functions.size()` that `prepareForExecution`
passes to `mmap`, computed as a `size_t`. -/
def Driver.mmapLength (driver : Driver) : Nat :=
  (sizeofUInt64 * driver.functions.length) % 2 ^ 64

/-- The length `functions.size() * sizeof(_callTreeMapping[0])` that
`prepareForExecution` passes to `memset`. -/
def Driver.memsetLength (driver : Driver) : Nat :=
  (driver.functions.length * sizeofUInt64) % 2 ^ 64

/-- The length `functions.size()` that the destructor `Driver::~Driver` passes to
`munmap`. -/
def Driver.munmapLength (driver : Driver) : Nat :=
  driver.functions.length

/-- The loop over the testees of one passing test, from `std::next(begin())`
on: each testee is put to the mutations finder and the answer is appended to
`allMutationPoints`. -/
def collectMutationPoints (env : Collaborators) (test : Nat) : List Testee → RunState → RunState
  | [], state => state
  | testee :: rest, state =>
    let mutationPoints := env.getMutationPoints state.queries testee
    collectMutationPoints env test rest
      { state with
        trace := state.trace ++ [Event.getMutationPoints test testee]
        queries := state.queries ++ [testee]
        allMutationPoints := state.allMutationPoints ++ mutationPoints }

/-- One round of the loop `for (auto &test : foundTests)`. -/
def runOriginalTest (cfg : Config) (env : Collaborators) (objectFiles : List Nat) (test : Nat)
    (state : RunState) : RunState :=
  let callstack : List Nat := []
  let mapping := List.replicate state.driver.functions.length 0
  let request : SandboxRequest :=
    { mutant := none, test := test, objectFiles := objectFiles, timeout := cfg.timeout,
      callTreeMapping := mapping, callstack := callstack }
  let outcome := env.sandbox state.runs request
  let testExecutionResult := outcome.result
  let state1 : RunState :=
    { state with
      driver := { state.driver with
        callTreeMapping := some outcome.callTreeMapping, callstack := outcome.callstack }
      tests := Function.update state.tests test testExecutionResult
      trace := state.trace ++ [Event.sandboxRun request]
      runs := state.runs + 1 }
  if testExecutionResult.status ≠ ExecutionStatus.Passed then
    state1
  else
    let testees :=
      env.createTestees test state1.driver.functions outcome.callTreeMapping cfg.maxDistance
    let state2 : RunState := { state1 with trace := state1.trace ++ [Event.createTestees test] }
    match testees with
    | [] => state2
    | _ :: rest => collectMutationPoints env test rest state2

/-- The loop `for (auto &test : foundTests)`. -/
def runOriginalTests (cfg : Config) (env : Collaborators) (objectFiles : List Nat) :
    List Nat → RunState → RunState
  | [], state => state
  | test :: rest, state =>
    runOriginalTests cfg env objectFiles rest (runOriginalTest cfg env objectFiles test state)

/-- The timeout handed to the sandbox for a mutant run of a test whose stored
running time is `runningTime`: `std::max(30LL, runningTime * 10)`. -/
def sandboxTimeout (runningTime : Int) : Int :=
  max 30 (wrapInt64 (runningTime * 10))

/-- The loop `for (auto &reachableTest : mutationPoint->getReachableTests())`.
A sandbox result with status `Invalid` fails the assertion and ends the
process. -/
def runReachableTests (cfg : Config) (env : Collaborators) (mutationPoint : Nat)
    (objectFilesWithMutant : List Nat) : List (Nat × Int) → RunState → RunState
  | [], state => state
  | reachableTest :: rest, state =>
    let test := reachableTest.1
    let distance := reachableTest.2
    let timeout := wrapInt64 ((state.tests test).runningTime * 10)
    if cfg.dryRun then
      let result : ExecutionResult :=
        { ExecutionResult.defaultInit (env.garbage state.mutationResults.length) with
          status := ExecutionStatus.DryRun, runningTime := timeout }
      runReachableTests cfg env mutationPoint objectFilesWithMutant rest
        { state with
          mutationResults := state.mutationResults ++ [⟨result, mutationPoint, distance, test⟩] }
    else
      let sandboxTimeout := max 30 timeout
      let mapping := state.driver.callTreeMapping.getD []
      let request : SandboxRequest :=
        { mutant := some mutationPoint, test := test, objectFiles := objectFilesWithMutant,
          timeout := sandboxTimeout, callTreeMapping := mapping,
          callstack := state.driver.callstack }
      let outcome := env.sandbox state.runs request
      let result := outcome.result
      let state1 : RunState :=
        { state with
          driver := { state.driver with
            callTreeMapping := some outcome.callTreeMapping, callstack := outcome.callstack }
          trace := state.trace ++ [Event.sandboxRun request]
          runs := state.runs + 1 }
      if result.status = ExecutionStatus.Invalid then
        { state1 with aborted := true }
      else
        runReachableTests cfg env mutationPoint objectFilesWithMutant rest
          { state1 with
            mutationResults :=
              state1.mutationResults ++ [⟨result, mutationPoint, distance, test⟩] }

/-- The loop `for (auto mutationPoint : allMutationPoints)`; `round` counts the
rounds. -/
def runMutants (cfg : Config) (env : Collaborators) : List Nat → Nat → RunState → RunState
  | [], _, state => state
  | mutationPoint :: rest, round, state =>
    let objectFilesWithMutant :=
      state.driver.objectFilesWithMutant (env.getOriginalModule mutationPoint)
        (env.compileMutant round mutationPoint)
    let state1 :=
      runReachableTests cfg env mutationPoint objectFilesWithMutant
        (env.getReachableTests state.queries mutationPoint) state
    if state1.aborted then state1
    else runMutants cfg env rest (round + 1) state1

/-- The state of a freshly constructed driver at the start of `Run`. -/
def initialState (env : Collaborators) : RunState :=
  { driver :=
      { functions := [], InnerCache := [], precompiledObjectFiles := [],
        callTreeMapping := none, callstack := [] }
    tests := env.initialResult
    trace := []
    runs := 0
    loadedLibraries := []
    queries := []
    allMutationPoints := []
    mutationResults := []
    aborted := false }

/-- The load phase of `Driver::Run`: the two loops before
`prepareForExecution()`. -/
def loadPhase (env : Collaborators) : RunState :=
  let state := loadModules env env.modules 0 (initialState env)
  { state with driver := loadObjectFiles env.objectFiles state.driver }

/-- The loop `for (std::string &dylibPath: Cfg.getDynamicLibrariesPaths())`, which
hands every path to `LoadLibraryPermanently`. -/
def loadDynamicLibraries : List (List Char) → RunState → RunState
  | [], state => state
  | dylibPath :: rest, state =>
    loadDynamicLibraries rest
      { state with loadedLibraries := state.loadedLibraries ++ [dylibPath] }

/-- The state after the loop over the found tests.  `Run` is left before that
loop, and the state marked as aborted, when `prepareForExecution` fails an
assertion and when `Cfg.getDynamicLibrariesPaths()`, which is called after the
tests have been found, throws `std::out_of_range`. -/
def originalPhase (cfg : Config) (env : Collaborators) : RunState :=
  let state := loadPhase env
  match state.driver.prepareForExecution with
  | none => { state with aborted := true }
  | some driver =>
    let state1 : RunState := { state with driver := driver }
    match cfg.getDynamicLibrariesPaths env.files with
    | none => { state1 with aborted := true }
    | some dynamicLibrariesPaths =>
      let state2 := loadDynamicLibraries dynamicLibrariesPaths state1
      let objectFiles := driver.AllObjectFiles
      runOriginalTests cfg env objectFiles (List.range env.testsCount) state2

/-- The method `Driver::Run`, as the state in which it returns or aborts. -/
def Driver.Run (cfg : Config) (env : Collaborators) : RunState :=
  let state := originalPhase cfg env
  if state.aborted then state
  else runMutants cfg env state.allMutationPoints 0 state

/-- The value `Run` returns: the found tests with their stored results, the
mutation results and the mutation points; `none` when `Run` does not return. -/
structure Result where
  tests : List ExecutionResult
  mutationResults : List MutationResult
  allMutationPoints : List Nat
  deriving DecidableEq, Repr

/-- The `Result` built by the last statement of `Driver::Run`. -/
def RunState.result (env : Collaborators) (state : RunState) : Option Result :=
  if state.aborted then none
  else some
    { tests := (List.range env.testsCount).map state.tests
      mutationResults := state.mutationResults
      allMutationPoints := state.allMutationPoints }

/-- The sandboxed runs among the calls of a trace, in order. -/
def sandboxRuns : List Event → List SandboxRequest
  | [] => []
  | Event.sandboxRun request :: rest => request :: sandboxRuns rest
  | _ :: rest => sandboxRuns rest

/-! ## include/ConfigParser.h: the YAML mapping -/

/-- A value of a key of the YAML document, by the kind of field it is read into. -/
inductive YamlValue where
  | string (value : String)
  | strings (value : List String)
  | customTests (value : List CustomTest)
  | bool (value : Bool)
  | int (value : Int)
  deriving DecidableEq, Repr

/-- A YAML mapping as the reader sees it: its keys with their values. -/
structure YamlInput where
  entries : List (String × YamlValue)

/-- The value of a key in the document, if the key is there. -/
def YamlInput.lookup (io : YamlInput) (key : String) : Option YamlValue :=
  io.entries.lookup key

/-- The call `io.mapOptional(key, field)` for a `std::string` field when reading:
a key that is absent leaves the field as it is (and so does a value of another
kind, which the reader reports as an error). -/
def mapOptionalString (io : YamlInput) (key : String) (field : String) : String :=
  match io.lookup key with
  | some (YamlValue.string value) => value
  | _ => field

/-- The call `io.mapOptional(key, field)` for a `std::vector<std::string>` field. -/
def mapOptionalStrings (io : YamlInput) (key : String) (field : List String) : List String :=
  match io.lookup key with
  | some (YamlValue.strings value) => value
  | _ => field

/-- The call `io.mapOptional(key, field)` for the `std::vector<CustomTest>` field. -/
def mapOptionalCustomTests (io : YamlInput) (key : String) (field : List CustomTest) :
    List CustomTest :=
  match io.lookup key with
  | some (YamlValue.customTests value) => value
  | _ => field

/-- The call `io.mapOptional(key, field)` for a `bool` field. -/
def mapOptionalBool (io : YamlInput) (key : String) (field : Bool) : Bool :=
  match io.lookup key with
  | some (YamlValue.bool value) => value
  | _ => field

/-- The call `io.mapOptional(key, field)` for an `int` field. -/
def mapOptionalInt (io : YamlInput) (key : String) (field : Int) : Int :=
  match io.lookup key with
  | some (YamlValue.int value) => value
  | _ => field

/-- The function `MappingTraits<mull::Config>::mapping` when reading. -/
def mapping (io : YamlInput) (config : Config) : Config :=
  { bitcodeFileList := mapOptionalString io "bitcode_file_list" config.bitcodeFileList
    projectName := mapOptionalString io "project_name" config.projectName
    testFramework := mapOptionalString io "test_framework" config.testFramework
    dynamicLibraryFileList :=
      mapOptionalString io "dynamic_library_file_list" config.dynamicLibraryFileList
    mutationOperators := mapOptionalStrings io "mutation_operators" config.mutationOperators
    tests := mapOptionalStrings io "tests" config.tests
    excludeLocations := mapOptionalStrings io "exclude_locations" config.excludeLocations
    customTests := mapOptionalCustomTests io "custom_tests" config.customTests
    fork := mapOptionalBool io "fork" config.fork
    dryRun := mapOptionalBool io "dry_run" config.dryRun
    useCache := mapOptionalBool io "use_cache" config.useCache
    emitDebugInfo := mapOptionalBool io "emit_debug_info" config.emitDebugInfo
    timeout := mapOptionalInt io "timeout" config.timeout
    maxDistance := mapOptionalInt io "max_distance" config.maxDistance
    cacheDirectory := mapOptionalString io "cache_directory" config.cacheDirectory }

/-! ## The child process of a sandboxed run -/

/-- The numeric value of an enumerator of `ExecutionStatus`, as
`include/ExecutionResult.h` gives it. -/
def ExecutionStatus.toNat : ExecutionStatus → Nat
  | ExecutionStatus.Invalid => 0
  | ExecutionStatus.Failed => 1
  | ExecutionStatus.Passed => 2
  | ExecutionStatus.Timedout => 3
  | ExecutionStatus.Crashed => 4
  | ExecutionStatus.AbnormalExit => 5
  | ExecutionStatus.DryRun => 6

/-- How the child process of a sandboxed run ends: it exits with a code, a signal
ends it, or the parent kills it when the timeout expires. -/
inductive ChildTermination where
  | exitedWith (code : Nat)
  | signalled (signal : Nat)
  | killedOnTimeout
  deriving DecidableEq, Repr

/-- Modelled from the spec: the child side of `Sandbox::run`, which is not under
src/.  The child runs the work and "exits with a status byte encoding the inner
`ExecutionStatus`"; a call of `exit(code)` inside the work ends the child with
that code, and a failed `assert` aborts it with the signal 6. -/
def childTermination : RunnerOutcome → ChildTermination
  | RunnerOutcome.returned status => ChildTermination.exitedWith status.toNat
  | RunnerOutcome.exited code => ChildTermination.exitedWith code
  | RunnerOutcome.assertionFailed => ChildTermination.signalled 6

/-- Modelled from the spec: the parent side of `Sandbox::run`, which is not under
src/.  "Child exit status encodes `ExecutionStatus` in the low byte of the exit
code": a normal exit gives the status with that value; a signal gives
`Crashed`; expiry of the timeout gives `Timedout`; "any other abnormal
termination" gives `AbnormalExit`, which here covers a byte that is the value of
no status that may be surfaced (0, the value of `Invalid`, and 7 to 255). -/
def parentDecode : ChildTermination → ExecutionStatus
  | ChildTermination.exitedWith code =>
    match code % 256 with
    | 1 => ExecutionStatus.Failed
    | 2 => ExecutionStatus.Passed
    | 3 => ExecutionStatus.Timedout
    | 4 => ExecutionStatus.Crashed
    | 5 => ExecutionStatus.AbnormalExit
    | 6 => ExecutionStatus.DryRun
    | _ => ExecutionStatus.AbnormalExit
  | ChildTermination.signalled _ => ExecutionStatus.Crashed
  | ChildTermination.killedOnTimeout => ExecutionStatus.Timedout

/-- The mangled names `GoogleTestRunner::runTest` looks up, in order. -/
def GoogleTestRunner.lookups (jit : Jit) (test : GoogleTest_Test) : List String :=
  test.globalCtors.map jit.getNameWithPrefix ++
    [jit.getNameWithPrefix "_ZN7testing14InitGoogleTestEPiPPc",
     jit.getNameWithPrefix "_ZN7testing8UnitTest11GetInstanceEv",
     jit.getNameWithPrefix "_ZN7testing8UnitTest3RunEv"]

/-- The names `CPPUnitRunner::runTest` looks up, in order: the mangled names of
the constructors, then the three literal names. -/
def CPPUnitRunner.lookups (jit : Jit) (test : GoogleTest_Test) : List String :=
  test.globalCtors.map jit.getNameWithPrefix ++
    ["__ZN7testing14InitCPPUnitEPiPPc", "__ZN7testing8UnitTest11GetInstanceEv",
     "__ZN7testing8UnitTest3RunEv"]

/-- The mangled names `CustomTestRunner::runTest` looks up, in order. -/
def CustomTestRunner.lookups (jit : Jit) (test : CustomTest_Test) : List String :=
  test.constructors.map jit.getNameWithPrefix ++ [jit.getNameWithPrefix "main"]

/-! ## lib/CPPUnit/CPPUnitRunner.cpp: the destructor table -/

/-- The struct `atexit_entry`; the destructor and the two pointers are
addresses. -/
structure atexit_entry where
  destructor : Nat
  arg : Nat
  dso_handle : Nat
  deriving DecidableEq, Repr

/-- The constant `dtors_count`. -/
def dtors_count : Nat := 64

/-- The globals `current_dtor` and `dtors`.  The `int current_dtor` starts at 0,
is incremented only while below `dtors_count` and decremented only while
positive, so its values are natural numbers.  The array is kept as the list of
its elements. -/
structure DtorTable where
  current_dtor : Nat
  dtors : List atexit_entry
  deriving DecidableEq, Repr

/-- The globals after static initialisation: no entry, a zeroed array. -/
def DtorTable.initial : DtorTable :=
  { current_dtor := 0, dtors := List.replicate dtors_count ⟨0, 0, 0⟩ }

/-- The element `dtors[index]`. -/
def DtorTable.entry (table : DtorTable) (index : Nat) : atexit_entry :=
  table.dtors.getD index ⟨0, 0, 0⟩

/-- What the two functions do with the table, in program order: a read or a write
of `dtors[index]`, or the call `destructor(arg)`. -/
inductive TableEvent where
  | read (index : Nat)
  | write (index : Nat)
  | call (destructor arg : Nat)
  deriving DecidableEq, Repr

/-- The loop `for (int i = 0; i < current_dtor; i++)` of
`mull_cppunit_cxa_atexit` from the index `i` on, with `remaining` rounds to go:
`true` when it leaves through `return 0`. -/
def findArg (table : DtorTable) (arg : Nat) : Nat → Nat → List TableEvent →
    Bool × List TableEvent
  | 0, _, events => (false, events)
  | remaining + 1, i, events =>
    if arg = (table.entry i).arg then (true, events ++ [TableEvent.read i])
    else findArg table arg remaining (i + 1) (events ++ [TableEvent.read i])

/-- A call of `mull_cppunit_cxa_atexit` that returns: the globals afterwards, the
returned value and what was done with the table. -/
structure AtexitReturn where
  table : DtorTable
  value : Int
  events : List TableEvent
  deriving DecidableEq, Repr

/-- The function `mull_cppunit_cxa_atexit`: `none` stands for the failed
`assert(current_dtor < dtors_count)`. -/
def mull_cppunit_cxa_atexit (table : DtorTable) (destructor arg dso_handle : Nat) :
    Option AtexitReturn :=
  if ¬ table.current_dtor < dtors_count then none
  else
    match findArg table arg table.current_dtor 0 [] with
    | (true, events) => some ⟨table, 0, events⟩
    | (false, events) =>
      some
        ⟨{ current_dtor := table.current_dtor + 1
           dtors := table.dtors.set table.current_dtor ⟨destructor, arg, dso_handle⟩ },
          0,
          events ++ [TableEvent.write table.current_dtor, TableEvent.write table.current_dtor,
            TableEvent.write table.current_dtor]⟩

/-- The loop `while (current_dtor > 0)` of `runDestructors`, for at most `fuel`
rounds.  The called destructor is code of the test program; it is taken not to
touch the table. -/
def runDestructorsLoop : Nat → DtorTable → List TableEvent → DtorTable × List TableEvent
  | 0, table, events => (table, events)
  | fuel + 1, table, events =>
    if table.current_dtor > 0 then
      let table1 : DtorTable := { table with current_dtor := table.current_dtor - 1 }
      runDestructorsLoop fuel table1
        (events ++ [TableEvent.read table1.current_dtor, TableEvent.read table1.current_dtor,
          TableEvent.call (table1.entry table1.current_dtor).destructor
            (table1.entry table1.current_dtor).arg])
    else (table, events)

/-- The function `runDestructors`; the loop ends within `current_dtor` rounds. -/
def runDestructors (table : DtorTable) : DtorTable × List TableEvent :=
  runDestructorsLoop table.current_dtor table []

/-- The destructor calls among the events, in order, each as the pair of the
destructor and its argument. -/
def destructorCalls : List TableEvent → List (Nat × Nat)
  | [] => []
  | TableEvent.call destructor arg :: rest => (destructor, arg) :: destructorCalls rest
  | _ :: rest => destructorCalls rest

/-- The indices at which the events read or write the array. -/
def accessedIndices : List TableEvent → List Nat
  | [] => []
  | TableEvent.read index :: rest => index :: accessedIndices rest
  | TableEvent.write index :: rest => index :: accessedIndices rest
  | TableEvent.call _ _ :: rest => accessedIndices rest

/-- The registrations of a list of entries, one call of
`mull_cppunit_cxa_atexit` after the other; `none` when an assertion fails. -/
def registerAll : DtorTable → List atexit_entry → Option DtorTable
  | table, [] => some table
  | table, registration :: rest =>
    match mull_cppunit_cxa_atexit table registration.destructor registration.arg
        registration.dso_handle with
    | none => none
    | some returned => registerAll returned.table rest

/-- A call of one of the two functions of the table. -/
inductive TableCall where
  | register (destructor arg dso_handle : Nat)
  | drain
  deriving DecidableEq, Repr

/-- A sequence of calls, one after the other: the globals afterwards, the values
of `current_dtor` after each call, and all events; `none` when an assertion
fails. -/
def runTableCalls : DtorTable → List TableCall → Option (DtorTable × List Nat × List TableEvent)
  | table, [] => some (table, [], [])
  | table, TableCall.register destructor arg dso_handle :: rest =>
    match mull_cppunit_cxa_atexit table destructor arg dso_handle with
    | none => none
    | some returned =>
      match runTableCalls returned.table rest with
      | none => none
      | some (final, counts, events) =>
        some (final, returned.table.current_dtor :: counts, returned.events ++ events)
  | table, TableCall.drain :: rest =>
    match runTableCalls (runDestructors table).1 rest with
    | none => none
    | some (final, counts, events) =>
      some (final, (runDestructors table).1.current_dtor :: counts,
        (runDestructors table).2 ++ events)

/-! ## Descriptions of what `Driver::Run` does, used to state its properties -/

/-- The request of the sandboxed run of the original test `test`: unmutated
object files, the configured timeout, a zeroed buffer with one slot per table
entry and an empty call stack. -/
def originalRequest (cfg : Config) (functions : List CallTreeFunction) (objectFiles : List Nat)
    (test : Nat) : SandboxRequest :=
  { mutant := none, test := test, objectFiles := objectFiles, timeout := cfg.timeout,
    callTreeMapping := List.replicate functions.length 0, callstack := [] }

/-- The outcome of the original run of `test`, which is the sandboxed run
number `test`. -/
def originalOutcome (cfg : Config) (env : Collaborators) (functions : List CallTreeFunction)
    (objectFiles : List Nat) (test : Nat) : SandboxOutcome :=
  env.sandbox test (originalRequest cfg functions objectFiles test)

/-- The testee list `createTestees` returns for `test` after its original run. -/
def originalTestees (cfg : Config) (env : Collaborators) (functions : List CallTreeFunction)
    (objectFiles : List Nat) (test : Nat) : List Testee :=
  env.createTestees test functions
    (originalOutcome cfg env functions objectFiles test).callTreeMapping cfg.maxDistance

/-- The testees put to the mutations finder on behalf of `test`. -/
def originalQueries (cfg : Config) (env : Collaborators) (functions : List CallTreeFunction)
    (objectFiles : List Nat) (test : Nat) : List Testee :=
  if (originalOutcome cfg env functions objectFiles test).result.status = ExecutionStatus.Passed
  then (originalTestees cfg env functions objectFiles test).tail
  else []

/-- The calls made in the round of the test loop that handles `test`. -/
def originalEvents (cfg : Config) (env : Collaborators) (functions : List CallTreeFunction)
    (objectFiles : List Nat) (test : Nat) : List Event :=
  Event.sandboxRun (originalRequest cfg functions objectFiles test) ::
    (if (originalOutcome cfg env functions objectFiles test).result.status = ExecutionStatus.Passed
     then Event.createTestees test ::
        (originalTestees cfg env functions objectFiles test).tail.map (Event.getMutationPoints test)
     else [])

/-- The testees of the `getMutationPoints` calls made on behalf of `test`. -/
def queriesFor (test : Nat) : List Event → List Testee
  | [] => []
  | Event.getMutationPoints test1 testee :: rest =>
    if test1 = test then testee :: queriesFor test rest else queriesFor test rest
  | _ :: rest => queriesFor test rest

/-- Whether a call is made on behalf of `test` in the selection of mutations:
deriving its testees, or querying the mutations finder. -/
def Event.selectsFor (test : Nat) : Event → Bool
  | Event.createTestees test1 => test1 == test
  | Event.getMutationPoints test1 _ => test1 == test
  | _ => false

/-- The table entries the load phase adds for the function list of the module
at position `moduleIndex`: one per function that is not a declaration, in list
order; `position` is the position of the head of the list. -/
def definedFunctions (moduleIndex : Nat) : List LFunction → Nat → List CallTreeFunction
  | [], _ => []
  | function :: rest, position =>
    if function.isDeclaration then definedFunctions moduleIndex rest (position + 1)
    else ⟨moduleIndex, position⟩ :: definedFunctions moduleIndex rest (position + 1)

/-- The table entries the load phase adds for a list of modules: those of the
modules for which the object cache has no object file. -/
def recordedFunctions (env : Collaborators) : List MullModule → Nat → List CallTreeFunction
  | [], _ => []
  | module :: rest, moduleIndex =>
    (match env.getObject moduleIndex with
      | some _ => []
      | none => definedFunctions moduleIndex module.module.functions 0) ++
      recordedFunctions env rest (moduleIndex + 1)

/-- The mutant runs among the calls of a trace, in order, each as the pair of
its mutation point and its test. -/
def mutantRuns : List Event → List (Nat × Nat)
  | [] => []
  | Event.sandboxRun request :: rest =>
    match request.mutant with
    | some mutationPoint => (mutationPoint, request.test) :: mutantRuns rest
    | none => mutantRuns rest
  | _ :: rest => mutantRuns rest

/-- For every entry of a list of mutation points, in order, one pair per
reachable test of the point once the finder has answered `queries`. -/
def runsPerReachableTest (env : Collaborators) (queries : List Testee) (points : List Nat) :
    List (Nat × Nat) :=
  points.flatMap (fun point => (env.getReachableTests queries point).map (fun r => (point, r.1)))

/-- For every entry of a list of mutation points, in order, one triple per entry
of the point's reachable tests in that list's order: the point, the entry's
test and the entry's distance. -/
def recordsPerReachableTest (env : Collaborators) (queries : List Testee) (points : List Nat) :
    List (Nat × Nat × Int) :=
  points.flatMap (fun point =>
    (env.getReachableTests queries point).map (fun r => (point, r.1, r.2)))

/-- What a mutation result records besides the execution result: its mutation
point, its test and its distance. -/
def MutationResult.record (r : MutationResult) : Nat × Nat × Int :=
  (r.mutationPoint, r.test, r.distance)

/-! ## Measures on instrumented functions -/

/-- Whether the instruction is a call of the function named `callee`. -/
def Instruction.isCallTo (callee : String) : Instruction → Bool
  | Instruction.call name _ => name == callee
  | _ => false

/-- The number of calls of `callee` in a block. -/
def BasicBlock.countCalls (callee : String) (block : BasicBlock) : Nat :=
  block.instructions.countP (Instruction.isCallTo callee)

/-- Whether the terminator of the block is a return. -/
def BasicBlock.endsInReturn (block : BasicBlock) : Bool :=
  match block.getTerminator with
  | some terminator => terminator.isReturn
  | none => false

/-- The number of calls of `callee` in all blocks of a function. -/
def LFunction.countCalls (callee : String) (function : LFunction) : Nat :=
  (function.blocks.map (BasicBlock.countCalls callee)).sum

/-- The number of blocks of a function whose terminator is a return. -/
def LFunction.returnBlocks (function : LFunction) : Nat :=
  function.blocks.countP BasicBlock.endsInReturn

/-- A block with the call `leaveCall` put right before its terminator when the
terminator is a return; any other block as it is. -/
def withLeave (leaveCall : Instruction) (block : BasicBlock) : BasicBlock :=
  match block.getTerminator with
  | some terminator =>
    if terminator.isReturn then
      { instructions := block.instructions.dropLast ++ [leaveCall, terminator] }
    else block
  | none => block

/-- The call `mull_enterFunction(driver, index)` that `injectCallbacks` builds. -/
def enterCall (driverAddress pointerWidth index : Nat) : Instruction :=
  Instruction.call "mull_enterFunction" (callbackParameters driverAddress pointerWidth index)

/-- The call `mull_leaveFunction(driver, index)` that `injectCallbacks` builds. -/
def leaveCall (driverAddress pointerWidth index : Nat) : Instruction :=
  Instruction.call "mull_leaveFunction" (callbackParameters driverAddress pointerWidth index)

/-- A block with the instruction right before its terminator deleted when the
terminator is a return; any other block as it is. -/
def withoutLeave (block : BasicBlock) : BasicBlock :=
  match block.getTerminator with
  | some terminator =>
    if terminator.isReturn then
      { instructions := block.instructions.dropLast.dropLast ++ [terminator] }
    else block
  | none => block

/-- A function with the instructions at the places where `injectCallbacks`
inserts deleted: the one right before every return terminator, then the first
instruction of the entry block. -/
def withoutCallbacks (function : LFunction) : LFunction :=
  match function.blocks.map withoutLeave with
  | [] => { function with blocks := [] }
  | entryBlock :: rest =>
    { function with blocks := { instructions := entryBlock.instructions.tail } :: rest }

/-- The number of functions of a module that have the given name. -/
def LModule.countNamed (module : LModule) (name : String) : Nat :=
  module.functions.countP (fun function => function.name == name)

/-- The declaration `Function::Create(callbackType, Function::ExternalLinkage,
name, parent)` adds to the parent. -/
def callbackDeclaration (name : String) : LFunction :=
  { name := name, linkage := Linkage.ExternalLinkage, returnType := LType.void,
    parameterTypes := [LType.pointer LType.void, LType.integer 64], blocks := [] }

/-! ## Concrete inputs -/

/-- A JIT in which every symbol is found and the entry point returns `-1`. -/
def sampleJit : Jit :=
  { findSymbol := fun _ => 1, manglePre := "_", returnValue := -1 }

/-- A function with a single block that returns. -/
def sampleFunction (name : String) : LFunction :=
  { name := name, linkage := Linkage.otherLinkage 0, returnType := LType.void,
    parameterTypes := [], blocks := [{ instructions := [Instruction.ret none] }] }

/-- A module with two defined functions and one declaration. -/
def sampleModule : MullModule :=
  { address := 100
    module := { functions :=
      [sampleFunction "test_sum", { sampleFunction "puts" with blocks := [] },
       sampleFunction "sum"] } }

/-- The content of a list file with an empty line between two entries. -/
def sampleListFile : List Char :=
  "sqlite3.dylib\n\nlibz.dylib\n".toList

/-- The content of a list file with a comment line and no empty line. -/
def commentedListFile : List Char :=
  "# modules\ntester.bc\ntestee.bc".toList

/-- The content of a list file with a comment line and two libraries. -/
def librariesListFile : List Char :=
  "# libraries\nlibz.dylib\nlibm.dylib\n".toList

/-- A file system with the three list files above. -/
def sampleFiles : FileSystem :=
  { read := fun path =>
      if path = "/tmp/dynamic_library_file_list.txt" then some sampleListFile
      else if path = "/tmp/bitcode_file_list.txt" then some commentedListFile
      else if path = "/tmp/libraries.txt" then some librariesListFile
      else none }

/-- Collaborators for one module that is not in the object cache, one
precompiled object file and two tests: test 0 passes in 2 ms and reaches the
function `sum`, which holds the mutation point 42; test 1 fails. -/
def sampleEnv : Collaborators :=
  { files := sampleFiles
    modules := [sampleModule]
    getObject := fun _ => none
    compileModule := fun moduleIndex => 500 + moduleIndex
    objectFiles := [some 900, none]
    testsCount := 2
    initialResult := fun _ => ⟨ExecutionStatus.Invalid, 0, 0, "", ""⟩
    sandbox := fun _ request =>
      match request.mutant with
      | none =>
        if request.test = 0 then
          ⟨⟨ExecutionStatus.Passed, 0, 2, "", ""⟩, [1, 1], []⟩
        else
          ⟨⟨ExecutionStatus.Failed, 1, 5, "", ""⟩, [1, 0], []⟩
      | some _ => ⟨⟨ExecutionStatus.Failed, 1, 1, "", ""⟩, request.callTreeMapping, request.callstack⟩
    createTestees := fun test _ _ _ => [⟨⟨0, 0⟩, test, 0⟩, ⟨⟨0, 2⟩, test, 1⟩]
    getMutationPoints := fun _ _ => [42]
    getReachableTests := fun queries _ => queries.map (fun testee => (testee.test, testee.distance))
    getOriginalModule := fun _ => 100
    compileMutant := fun round _ => 700 + round
    garbage := fun _ => ⟨ExecutionStatus.Invalid, 12345, -1, "", ""⟩ }

/-- A configuration with the default timeout and distance, dry run off. -/
def sampleConfig : Config :=
  { Config.defaultConstructed with timeout := 3000, maxDistance := 128, dryRun := false }

/-- The same configuration with dry run on. -/
def dryRunConfig : Config :=
  { Config.defaultConstructed with timeout := 3000, maxDistance := 128, dryRun := true }

/-- The dry-run configuration with a dynamic-library list that has an empty
line. -/
def emptyLineConfig : Config :=
  { dryRunConfig with dynamicLibraryFileList := "/tmp/dynamic_library_file_list.txt" }

/-- The dry-run configuration with a dynamic-library list of two libraries. -/
def librariesConfig : Config :=
  { dryRunConfig with dynamicLibraryFileList := "/tmp/libraries.txt" }

/-- Collaborators for two modules: the object cache already holds an object
file for the first (the sample module), the second is compiled afresh. -/
def cachedEnv : Collaborators :=
  { sampleEnv with
    modules :=
      [sampleModule,
       { address := 200
         module := { functions := [sampleFunction "helper", sampleFunction "other"] } }]
    getObject := fun moduleIndex => if moduleIndex = 0 then some 400 else none }

/-- A module with the single function `sum`, one block that returns. -/
def sampleIR : LModule :=
  { functions := [sampleFunction "sum"] }

/-- A module that declares `mull_enterFunction` but not `mull_leaveFunction`,
and defines the function `sum`. -/
def enterOnlyIR : LModule :=
  { functions := [callbackDeclaration "mull_enterFunction", sampleFunction "sum"] }

/-- A module that declares both callbacks and defines the function `sum`. -/
def declaredIR : LModule :=
  { functions := [callbackDeclaration "mull_enterFunction", sampleFunction "sum",
      callbackDeclaration "mull_leaveFunction"] }

/-- The call `mull_enterFunction(driver, 7)` for a driver at address 4096 on a
target with 8-byte pointers. -/
def sampleEnter : Instruction :=
  Instruction.call "mull_enterFunction" (callbackParameters 4096 8 7)

/-- The call `mull_leaveFunction(driver, 7)` for the same driver. -/
def sampleLeave : Instruction :=
  Instruction.call "mull_leaveFunction" (callbackParameters 4096 8 7)

/-- A YAML document that gives the timeout and nothing else. -/
def timeoutOnlyYaml : YamlInput :=
  { entries := [("timeout", YamlValue.int 42)] }

/-- A JIT in which no symbol is found. -/
def emptyJit : Jit :=
  { findSymbol := fun _ => 0, manglePre := "_", returnValue := 0 }

/-- A JIT in which every symbol but `main` is found. -/
def missingMainJit : Jit :=
  { findSymbol := fun name => if name = "_main" then 0 else 1, manglePre := "_",
    returnValue := 0 }

/-- A JIT in which every symbol is found and the entry point returns 0. -/
def passingJit : Jit :=
  { findSymbol := fun _ => 1, manglePre := "_", returnValue := 0 }

/-- The sample collaborators with a sandbox in which both tests pass.  Both
tests reach the function `sum`; the mutations finder keeps the one mutation
point 42 of `sum`, answers it to every query, and records the test of every
query among the point's reachable tests. -/
def sharedEnv : Collaborators :=
  { sampleEnv with
    sandbox := fun _ request =>
      match request.mutant with
      | none => ⟨⟨ExecutionStatus.Passed, 0, 2, "", ""⟩, [1, 1], []⟩
      | some _ =>
        ⟨⟨ExecutionStatus.Failed, 1, 1, "", ""⟩, request.callTreeMapping, request.callstack⟩ }

/-- The collaborators `sharedEnv` with a mutations finder that hands the point
42 out once: a query for a function it was already asked about is answered with
no point (the test is still recorded among the point's reachable tests). -/
def dedupEnv : Collaborators :=
  { sharedEnv with
    getMutationPoints := fun history testee =>
      if history.any (fun earlier => earlier.function = testee.function) then [] else [42] }

/-- The destructor table after the registrations of the destructor 10 for the
object 1 and the destructor 20 for the object 2. -/
def twoEntries : DtorTable :=
  { current_dtor := 2
    dtors := ⟨10, 1, 0⟩ :: ⟨20, 2, 0⟩ :: List.replicate 62 ⟨0, 0, 0⟩ }

/-- A module whose function `f` stores the 32-bit value `%7` to the pointer `%1`,
adds it to a call, and returns it; the store is at the address (0, 0, 0). -/
def storeIR : LModule :=
  { functions :=
      [{ name := "f", linkage := Linkage.ExternalLinkage, returnType := LType.integer 32,
         parameterTypes := [],
         blocks := [{ instructions :=
           [Instruction.store (Value.other (LType.integer 32) 7)
              (Value.other (LType.pointer (LType.integer 32)) 1),
            Instruction.call "use" [Value.other (LType.integer 32) 7],
            Instruction.ret (some (Value.other (LType.integer 32) 7))] }] }] }

/-- A module whose function `f` stores the 32-bit constant 42 to the pointer
`%1` and returns; the store is at the address (0, 0, 0). -/
def magicStoreIR : LModule :=
  { functions :=
      [{ name := "f", linkage := Linkage.ExternalLinkage, returnType := LType.void,
         parameterTypes := [],
         blocks := [{ instructions :=
           [Instruction.store (Value.constantInt 32 42)
              (Value.other (LType.pointer (LType.integer 32)) 1),
            Instruction.ret none] }] }] }

/-- The same module with a store of the `double` constant 42.0. -/
def magicDoubleStoreIR : LModule :=
  { functions :=
      [{ name := "f", linkage := Linkage.ExternalLinkage, returnType := LType.void,
         parameterTypes := [],
         blocks := [{ instructions :=
           [Instruction.store (Value.constantFP LType.double 42)
              (Value.other (LType.pointer LType.double) 1),
            Instruction.ret none] }] }] }

/-- A sequence of calls: two registrations, a registration of an argument
already there, a drain and one more registration. -/
def sampleTableCalls : List TableCall :=
  [TableCall.register 10 1 0, TableCall.register 20 2 0, TableCall.register 30 1 0,
    TableCall.drain, TableCall.register 40 4 0]

/-- Sixty-four registrations with the distinct arguments 1 to 64. -/
def fullRegistrations : List atexit_entry :=
  (List.range 64).map (fun i => ⟨1000 + i, i + 1, 0⟩)

/-- The answers of the mutations finder to a sequence of queries put to it after
the earlier queries `history`, one after the other. -/
def answersFrom (env : Collaborators) : List Testee → List Testee → List Nat
  | _, [] => []
  | history, testee :: rest =>
    env.getMutationPoints history testee ++ answersFrom env (history ++ [testee]) rest

/-! ## Test runners: the reported status -/

theorem toUInt64_eq_zero_iff (v : Int) (hlo : -2 ^ 31 ≤ v) (hhi : v < 2 ^ 31) :
    toUInt64 v = 0 ↔ v = 0 := by
  unfold toUInt64
  constructor
  · intro h
    omega
  · intro h
    subst h
    rfl

theorem runStaticCtors_events (jit : Jit) (ctors : List String) :
    ∀ (events : List RunnerEvent) (e : RunnerEvent),
      e ∈ (runStaticCtors jit ctors events).1 → e ∈ events ∨ ∃ c, e = RunnerEvent.callCtor c := by
  induction ctors with
  | nil => intro events e h; exact Or.inl h
  | cons ctor rest ih =>
    intro events e h
    unfold runStaticCtors at h
    split at h
    · exact Or.inl h
    · rcases ih _ e h with h1 | h1
      · rcases List.mem_append.mp h1 with h2 | h2
        · exact Or.inl h2
        · exact Or.inr ⟨ctor, by simpa using h2⟩
      · exact Or.inr h1

theorem CPPUnit_runStaticCtors_events (jit : Jit) (ctors : List String) :
    ∀ (events : List RunnerEvent) (e : RunnerEvent),
      e ∈ (CPPUnitRunner.runStaticCtors jit ctors events).1 →
        e ∈ events ∨ ∃ c, e = RunnerEvent.callCtor c := by
  induction ctors with
  | nil => intro events e h; exact Or.inl h
  | cons ctor rest ih =>
    intro events e h
    unfold CPPUnitRunner.runStaticCtors at h
    split at h
    · exact Or.inl h
    · rcases ih _ e h with h1 | h1
      · rcases List.mem_append.mp h1 with h2 | h2
        · exact Or.inl h2
        · exact Or.inr ⟨ctor, by simpa using h2⟩
      · exact Or.inr h1

theorem GoogleTest_runTest_of_callRun (jit : Jit) (test : GoogleTest_Test)
    (objectFiles : List Nat)
    (hcall : RunnerEvent.callRun ∈ (GoogleTestRunner.runTest jit test objectFiles).events) :
    (GoogleTestRunner.runTest jit test objectFiles).outcome =
      RunnerOutcome.returned
        (if toUInt64 jit.returnValue = 0 then ExecutionStatus.Passed else ExecutionStatus.Failed) := by
  have hctor := runStaticCtors_events jit test.globalCtors
    [RunnerEvent.addObjectSet objectFiles] RunnerEvent.callRun
  simp only [GoogleTestRunner.runTest] at hcall ⊢
  generalize runStaticCtors jit test.globalCtors [RunnerEvent.addObjectSet objectFiles] = r
    at hcall hctor ⊢
  rcases r with ⟨events, ok⟩
  have hnot : RunnerEvent.callRun ∉ events := by
    intro h
    rcases hctor h with h1 | ⟨c, h1⟩
    · simp at h1
    · cases h1
  cases ok
  · exact absurd hcall hnot
  · simp only at hcall ⊢
    cases h1 : getFunctionPointer jit (jit.getNameWithPrefix "_ZN7testing14InitGoogleTestEPiPPc")
    · simp only [h1] at hcall
      exact absurd hcall hnot
    · cases h2 : getFunctionPointer jit
          (jit.getNameWithPrefix "_ZN7testing8UnitTest11GetInstanceEv")
      · simp [h1, h2, hnot] at hcall
      · cases h3 : getFunctionPointer jit (jit.getNameWithPrefix "_ZN7testing8UnitTest3RunEv")
        · simp [h1, h2, h3, hnot] at hcall
        · by_cases hz : toUInt64 jit.returnValue = 0 <;> simp [hz]

theorem CPPUnit_runTest_of_callRun (jit : Jit) (test : GoogleTest_Test)
    (objectFiles : List Nat)
    (hcall : RunnerEvent.callRun ∈ (CPPUnitRunner.runTest jit test objectFiles).events) :
    (CPPUnitRunner.runTest jit test objectFiles).outcome =
      RunnerOutcome.returned
        (if toUInt64 jit.returnValue = 0 then ExecutionStatus.Passed else ExecutionStatus.Failed) := by
  have hctor := CPPUnit_runStaticCtors_events jit test.globalCtors
    [RunnerEvent.addObjectSet objectFiles] RunnerEvent.callRun
  simp only [CPPUnitRunner.runTest] at hcall ⊢
  generalize CPPUnitRunner.runStaticCtors jit test.globalCtors
    [RunnerEvent.addObjectSet objectFiles] = r at hcall hctor ⊢
  rcases r with ⟨events, ok⟩
  have hnot : RunnerEvent.callRun ∉ events := by
    intro h
    rcases hctor h with h1 | ⟨c, h1⟩
    · simp at h1
    · cases h1
  cases ok
  · exact absurd hcall hnot
  · simp only at hcall ⊢
    cases h1 : CPPUnitRunner.FunctionPointer jit "__ZN7testing14InitCPPUnitEPiPPc"
    · simp only [h1] at hcall
      exact absurd hcall hnot
    · cases h2 : CPPUnitRunner.FunctionPointer jit "__ZN7testing8UnitTest11GetInstanceEv"
      · simp [h1, h2, hnot] at hcall
      · cases h3 : CPPUnitRunner.FunctionPointer jit "__ZN7testing8UnitTest3RunEv"
        · simp [h1, h2, h3, hnot] at hcall
        · by_cases hz : toUInt64 jit.returnValue = 0 <;> simp [hz]

theorem CustomTest_runTest_of_callMain (jit : Jit) (test : CustomTest_Test)
    (objectFiles : List Nat) (argc : Int) (argv : List (Option String))
    (hcall : RunnerEvent.callMain argc argv ∈
      (CustomTestRunner.runTest jit test objectFiles).events) :
    (CustomTestRunner.runTest jit test objectFiles).outcome =
      RunnerOutcome.returned
        (if jit.returnValue = 0 then ExecutionStatus.Passed else ExecutionStatus.Failed) := by
  have hctor := runStaticCtors_events jit test.constructors
    [RunnerEvent.addObjectSet objectFiles] (RunnerEvent.callMain argc argv)
  simp only [CustomTestRunner.runTest] at hcall ⊢
  generalize runStaticCtors jit test.constructors [RunnerEvent.addObjectSet objectFiles] = r
    at hcall hctor ⊢
  rcases r with ⟨events, ok⟩
  have hnot : RunnerEvent.callMain argc argv ∉ events := by
    intro h
    rcases hctor h with h1 | ⟨c, h1⟩
    · simp at h1
    · cases h1
  cases ok
  · exact absurd hcall hnot
  · simp only at hcall ⊢
    cases h1 : getFunctionPointer jit (jit.getNameWithPrefix "main")
    · simp only [h1] at hcall
      exact absurd hcall hnot
    · by_cases hz : jit.returnValue = 0 <;> simp [hz]

/-! ## The loop over the found tests -/

theorem collectMutationPoints_spec (env : Collaborators) (test : Nat) :
    ∀ (testees : List Testee) (state : RunState),
      (collectMutationPoints env test testees state).trace =
          state.trace ++ testees.map (Event.getMutationPoints test) ∧
        (collectMutationPoints env test testees state).queries = state.queries ++ testees ∧
        (collectMutationPoints env test testees state).driver = state.driver ∧
        (collectMutationPoints env test testees state).tests = state.tests ∧
        (collectMutationPoints env test testees state).runs = state.runs ∧
        (collectMutationPoints env test testees state).mutationResults =
          state.mutationResults ∧
        (collectMutationPoints env test testees state).aborted = state.aborted := by
  intro testees
  induction testees with
  | nil => intro state; simp [collectMutationPoints]
  | cons testee rest ih =>
    intro state
    unfold collectMutationPoints
    obtain ⟨h1, h2, h3, h4, h5, h6, h7⟩ := ih
      { state with
        trace := state.trace ++ [Event.getMutationPoints test testee]
        queries := state.queries ++ [testee]
        allMutationPoints :=
          state.allMutationPoints ++ env.getMutationPoints state.queries testee }
    simp only [h1, h2, h3, h4, h5, h6, h7]
    simp

theorem runOriginalTest_spec (cfg : Config) (env : Collaborators) (objectFiles : List Nat)
    (test : Nat) (state : RunState) (hruns : state.runs = test) :
    (runOriginalTest cfg env objectFiles test state).trace =
        state.trace ++ originalEvents cfg env state.driver.functions objectFiles test ∧
      (runOriginalTest cfg env objectFiles test state).queries =
        state.queries ++ originalQueries cfg env state.driver.functions objectFiles test ∧
      (runOriginalTest cfg env objectFiles test state).tests =
        Function.update state.tests test
          (originalOutcome cfg env state.driver.functions objectFiles test).result ∧
      (runOriginalTest cfg env objectFiles test state).runs = test + 1 ∧
      (runOriginalTest cfg env objectFiles test state).driver.functions =
        state.driver.functions ∧
      (runOriginalTest cfg env objectFiles test state).driver.InnerCache =
        state.driver.InnerCache ∧
      (runOriginalTest cfg env objectFiles test state).driver.precompiledObjectFiles =
        state.driver.precompiledObjectFiles ∧
      (runOriginalTest cfg env objectFiles test state).mutationResults =
        state.mutationResults ∧
      (runOriginalTest cfg env objectFiles test state).aborted = state.aborted := by
  subst hruns
  unfold runOriginalTest originalEvents originalQueries originalTestees originalOutcome
    originalRequest
  simp only []
  split
  · rename_i hstatus
    simp [hstatus]
  · rename_i hstatus
    have hpassed := not_not.mp hstatus
    split
    · rename_i heq
      simp [hpassed, heq]
    · rename_i head rest heq
      obtain ⟨h1, h2, h3, h4, h5, h6, h7⟩ := collectMutationPoints_spec env state.runs rest
        { driver := { state.driver with
            callTreeMapping := some (env.sandbox state.runs
              { mutant := none, test := state.runs, objectFiles := objectFiles,
                timeout := cfg.timeout,
                callTreeMapping := List.replicate state.driver.functions.length 0,
                callstack := [] }).callTreeMapping
            callstack := (env.sandbox state.runs
              { mutant := none, test := state.runs, objectFiles := objectFiles,
                timeout := cfg.timeout,
                callTreeMapping := List.replicate state.driver.functions.length 0,
                callstack := [] }).callstack }
          tests := Function.update state.tests state.runs (env.sandbox state.runs
              { mutant := none, test := state.runs, objectFiles := objectFiles,
                timeout := cfg.timeout,
                callTreeMapping := List.replicate state.driver.functions.length 0,
                callstack := [] }).result
          trace := state.trace ++ [Event.sandboxRun
              { mutant := none, test := state.runs, objectFiles := objectFiles,
                timeout := cfg.timeout,
                callTreeMapping := List.replicate state.driver.functions.length 0,
                callstack := [] }] ++ [Event.createTestees state.runs]
          runs := state.runs + 1
          loadedLibraries := state.loadedLibraries
          queries := state.queries
          allMutationPoints := state.allMutationPoints
          mutationResults := state.mutationResults
          aborted := state.aborted }
      simp only [h1, h2, h3, h4, h5, h6, h7]
      simp [hpassed, heq]

theorem runOriginalTests_spec (cfg : Config) (env : Collaborators) (objectFiles : List Nat) :
    ∀ (count first : Nat) (state : RunState), state.runs = first →
      (runOriginalTests cfg env objectFiles (List.range' first count) state).trace =
          state.trace ++ (List.range' first count).flatMap
            (originalEvents cfg env state.driver.functions objectFiles) ∧
        (runOriginalTests cfg env objectFiles (List.range' first count) state).queries =
          state.queries ++ (List.range' first count).flatMap
            (originalQueries cfg env state.driver.functions objectFiles) ∧
        (∀ test, (runOriginalTests cfg env objectFiles (List.range' first count) state).tests test =
          if first ≤ test ∧ test < first + count then
            (originalOutcome cfg env state.driver.functions objectFiles test).result
          else state.tests test) ∧
        (runOriginalTests cfg env objectFiles (List.range' first count) state).runs =
          first + count ∧
        (runOriginalTests cfg env objectFiles (List.range' first count) state).driver.functions =
          state.driver.functions ∧
        (runOriginalTests cfg env objectFiles (List.range' first count) state).driver.InnerCache =
          state.driver.InnerCache ∧
        (runOriginalTests cfg env objectFiles
            (List.range' first count) state).driver.precompiledObjectFiles =
          state.driver.precompiledObjectFiles ∧
        (runOriginalTests cfg env objectFiles (List.range' first count) state).mutationResults =
          state.mutationResults ∧
        (runOriginalTests cfg env objectFiles (List.range' first count) state).aborted =
          state.aborted := by
  intro count
  induction count with
  | zero =>
    intro first state hruns
    simp only [List.range', runOriginalTests, List.flatMap_nil, List.append_nil, Nat.add_zero,
      true_and, and_true]
    refine ⟨fun test => ?_, hruns⟩
    rw [if_neg]
    omega
  | succ count ih =>
    intro first state hruns
    obtain ⟨r1, r2, r3, r4, r5, r6, r7, r8, r9⟩ :=
      runOriginalTest_spec cfg env objectFiles first state hruns
    obtain ⟨h1, h2, h3, h4, h5, h6, h7, h8, h9⟩ :=
      ih (first + 1) (runOriginalTest cfg env objectFiles first state) r4
    rw [List.range'_succ]
    unfold runOriginalTests
    rw [h1, h2, h4, h5, h6, h7, h8, h9, r1, r2, r5, r6, r7, r8, r9]
    refine ⟨by simp, by simp, ?_, by omega, rfl, rfl, rfl, rfl, rfl⟩
    intro test
    rw [h3 test, r3, r5]
    by_cases heq : test = first
    · subst heq
      simp
    · have hne : first ≠ test := fun h => heq h.symm
      rw [Function.update_noteq heq]
      by_cases hlt : first + 1 ≤ test ∧ test < first + 1 + count
      · have hlt2 : first ≤ test ∧ test < first + (count + 1) := by omega
        rw [if_pos hlt, if_pos hlt2]
      · have hlt2 : ¬ (first ≤ test ∧ test < first + (count + 1)) := by omega
        rw [if_neg hlt, if_neg hlt2]

/-! ## The loop over the mutation points -/

theorem objectFilesWithMutant_congr (d1 d2 : Driver) (One mutant : Nat)
    (hcache : d1.InnerCache = d2.InnerCache)
    (hpre : d1.precompiledObjectFiles = d2.precompiledObjectFiles) :
    d1.objectFilesWithMutant One mutant = d2.objectFilesWithMutant One mutant := by
  unfold Driver.objectFilesWithMutant Driver.AllButOne
  rw [hcache, hpre]

theorem runReachableTests_spec (cfg : Config) (env : Collaborators) (mutationPoint : Nat)
    (objects : List Nat) :
    ∀ (reachable : List (Nat × Int)) (state : RunState),
      (runReachableTests cfg env mutationPoint objects reachable state).tests = state.tests ∧
        (runReachableTests cfg env mutationPoint objects reachable state).queries =
          state.queries ∧
        (runReachableTests cfg env mutationPoint objects reachable state).allMutationPoints =
          state.allMutationPoints ∧
        (runReachableTests cfg env mutationPoint objects reachable state).driver.functions =
          state.driver.functions ∧
        (runReachableTests cfg env mutationPoint objects reachable state).driver.InnerCache =
          state.driver.InnerCache ∧
        (runReachableTests cfg env mutationPoint objects
            reachable state).driver.precompiledObjectFiles =
          state.driver.precompiledObjectFiles ∧
        (∃ added, (runReachableTests cfg env mutationPoint objects reachable state).trace =
            state.trace ++ added ∧
          ∀ e ∈ added, ∃ request, e = Event.sandboxRun request ∧
            request.mutant = some mutationPoint ∧ request.objectFiles = objects ∧
            request.timeout = sandboxTimeout (state.tests request.test).runningTime ∧
            cfg.dryRun = false) ∧
        (∃ added, (runReachableTests cfg env mutationPoint objects reachable state).mutationResults =
            state.mutationResults ++ added ∧
          ∀ r ∈ added, r.mutationPoint = mutationPoint ∧
            (cfg.dryRun = true →
              r.result.status = ExecutionStatus.DryRun ∧
              r.result.runningTime = wrapInt64 ((state.tests r.test).runningTime * 10) ∧
              r.result.stdoutOutput = "" ∧ r.result.stderrOutput = "")) ∧
        (cfg.dryRun = true →
          (runReachableTests cfg env mutationPoint objects reachable state).aborted =
            state.aborted) := by
  intro reachable
  induction reachable with
  | nil =>
    intro state
    refine ⟨rfl, rfl, rfl, rfl, rfl, rfl, ⟨[], by simp [runReachableTests], by simp⟩,
      ⟨[], by simp [runReachableTests], by simp⟩, fun _ => rfl⟩
  | cons reachableTest rest ih =>
    intro state
    unfold runReachableTests
    simp only []
    by_cases hdry : cfg.dryRun = true
    · rw [if_pos hdry]
      let added : MutationResult :=
        ⟨{ ExecutionResult.defaultInit (env.garbage state.mutationResults.length) with
            status := ExecutionStatus.DryRun,
            runningTime := wrapInt64 ((state.tests reachableTest.1).runningTime * 10) },
          mutationPoint, reachableTest.2, reachableTest.1⟩
      obtain ⟨h1, h2, h3, h4, h5, h6, ⟨t, ht, htp⟩, ⟨m, hm, hmp⟩, h9⟩ := ih
        { state with mutationResults := state.mutationResults ++ [added] }
      refine ⟨h1, h2, h3, h4, h5, h6, ⟨t, ht, htp⟩, ⟨added :: m, ?_, ?_⟩, h9⟩
      · rw [hm]
        simp
      · intro r hr
        rcases List.mem_cons.mp hr with hr1 | hr1
        · subst hr1
          exact ⟨rfl, fun _ => ⟨rfl, rfl, rfl, rfl⟩⟩
        · exact hmp r hr1
    · rw [if_neg hdry]
      have hdry2 : cfg.dryRun = false := by simpa using hdry
      let request : SandboxRequest :=
        { mutant := some mutationPoint, test := reachableTest.1, objectFiles := objects,
          timeout := max 30 (wrapInt64 ((state.tests reachableTest.1).runningTime * 10)),
          callTreeMapping := state.driver.callTreeMapping.getD [],
          callstack := state.driver.callstack }
      let added : MutationResult :=
        ⟨(env.sandbox state.runs request).result, mutationPoint, reachableTest.2, reachableTest.1⟩
      split
      · refine ⟨rfl, rfl, rfl, rfl, rfl, rfl, ⟨[Event.sandboxRun request], rfl, ?_⟩,
          ⟨[], by simp, by simp⟩, fun h => absurd h hdry⟩
        intro e he
        rw [List.mem_singleton] at he
        exact ⟨request, he, rfl, rfl, rfl, hdry2⟩
      · obtain ⟨h1, h2, h3, h4, h5, h6, ⟨t, ht, htp⟩, ⟨m, hm, hmp⟩, _⟩ := ih
          { state with
            driver := { state.driver with
              callTreeMapping := some (env.sandbox state.runs request).callTreeMapping
              callstack := (env.sandbox state.runs request).callstack }
            trace := state.trace ++ [Event.sandboxRun request]
            runs := state.runs + 1
            mutationResults := state.mutationResults ++ [added] }
        refine ⟨h1, h2, h3, h4, h5, h6, ⟨Event.sandboxRun request :: t, ?_, ?_⟩,
          ⟨added :: m, ?_, ?_⟩, fun h => absurd h hdry⟩
        · rw [ht]
          simp
        · intro e he
          rcases List.mem_cons.mp he with he1 | he1
          · exact ⟨request, he1, rfl, rfl, rfl, hdry2⟩
          · exact htp e he1
        · rw [hm]
          simp
        · intro r hr
          rcases List.mem_cons.mp hr with hr1 | hr1
          · subst hr1
            exact ⟨rfl, fun h => absurd h hdry⟩
          · exact hmp r hr1

theorem runMutants_spec (cfg : Config) (env : Collaborators) :
    ∀ (points : List Nat) (round : Nat) (state : RunState),
      (runMutants cfg env points round state).tests = state.tests ∧
        (runMutants cfg env points round state).queries = state.queries ∧
        (runMutants cfg env points round state).allMutationPoints = state.allMutationPoints ∧
        (runMutants cfg env points round state).driver.functions = state.driver.functions ∧
        (runMutants cfg env points round state).driver.InnerCache = state.driver.InnerCache ∧
        (runMutants cfg env points round state).driver.precompiledObjectFiles =
          state.driver.precompiledObjectFiles ∧
        (∃ added, (runMutants cfg env points round state).trace = state.trace ++ added ∧
          ∀ e ∈ added, ∃ request point k, e = Event.sandboxRun request ∧ point ∈ points ∧
            request.mutant = some point ∧
            request.objectFiles =
              state.driver.objectFilesWithMutant (env.getOriginalModule point)
                (env.compileMutant k point) ∧
            request.timeout = sandboxTimeout (state.tests request.test).runningTime ∧
            cfg.dryRun = false) ∧
        (∃ added, (runMutants cfg env points round state).mutationResults =
            state.mutationResults ++ added ∧
          ∀ r ∈ added, r.mutationPoint ∈ points ∧
            (cfg.dryRun = true →
              r.result.status = ExecutionStatus.DryRun ∧
              r.result.runningTime = wrapInt64 ((state.tests r.test).runningTime * 10) ∧
              r.result.stdoutOutput = "" ∧ r.result.stderrOutput = "")) ∧
        (cfg.dryRun = true → (runMutants cfg env points round state).aborted = state.aborted) := by
  intro points
  induction points with
  | nil =>
    intro round state
    refine ⟨rfl, rfl, rfl, rfl, rfl, rfl, ⟨[], by simp [runMutants], by simp⟩,
      ⟨[], by simp [runMutants], by simp⟩, fun _ => rfl⟩
  | cons point rest ih =>
    intro round state
    obtain ⟨r1, r2, r3, r4, r5, r6, ⟨t1, ht1, htp1⟩, ⟨m1, hm1, hmp1⟩, r9⟩ :=
      runReachableTests_spec cfg env point
        (state.driver.objectFilesWithMutant (env.getOriginalModule point)
          (env.compileMutant round point))
        (env.getReachableTests state.queries point) state
    unfold runMutants
    simp only []
    split
    · refine ⟨r1, r2, r3, r4, r5, r6, ⟨t1, ht1, ?_⟩, ⟨m1, hm1, ?_⟩, r9⟩
      · intro e he
        obtain ⟨request, h1, h2, h3, h4, h5⟩ := htp1 e he
        exact ⟨request, point, round, h1, List.mem_cons_self _ _, h2, h3, h4, h5⟩
      · intro r hr
        exact ⟨by rw [(hmp1 r hr).1]; exact List.mem_cons_self _ _, (hmp1 r hr).2⟩
    · obtain ⟨h1, h2, h3, h4, h5, h6, ⟨t, ht, htp⟩, ⟨m, hm, hmp⟩, h9⟩ := ih (round + 1)
        (runReachableTests cfg env point
          (state.driver.objectFilesWithMutant (env.getOriginalModule point)
            (env.compileMutant round point))
          (env.getReachableTests state.queries point) state)
      refine ⟨h1.trans r1, h2.trans r2, h3.trans r3, h4.trans r4, h5.trans r5, h6.trans r6,
        ⟨t1 ++ t, ?_, ?_⟩, ⟨m1 ++ m, ?_, ?_⟩, fun h => (h9 h).trans (r9 h)⟩
      · rw [ht, ht1, List.append_assoc]
      · intro e he
        rcases List.mem_append.mp he with he1 | he1
        · obtain ⟨request, g1, g2, g3, g4, g5⟩ := htp1 e he1
          exact ⟨request, point, round, g1, List.mem_cons_self _ _, g2, g3, g4, g5⟩
        · obtain ⟨request, q, k, g1, g2, g3, g4, g5, g6⟩ := htp e he1
          refine ⟨request, q, k, g1, List.mem_cons_of_mem _ g2, g3, ?_, ?_, g6⟩
          · rw [g4]
            exact objectFilesWithMutant_congr _ _ _ _ r5 r6
          · rw [g5, r1]
      · rw [hm, hm1, List.append_assoc]
      · intro r hr
        rcases List.mem_append.mp hr with hr1 | hr1
        · exact ⟨by rw [(hmp1 r hr1).1]; exact List.mem_cons_self _ _, (hmp1 r hr1).2⟩
        · refine ⟨List.mem_cons_of_mem _ (hmp r hr1).1, fun h => ?_⟩
          have := (hmp r hr1).2 h
          rw [r1] at this
          exact this

/-! ## The load phase -/

theorem recordFunctions_spec (moduleIndex : Nat) :
    ∀ (functions : List LFunction) (position : Nat) (state : RunState),
      (recordFunctions moduleIndex functions position state).driver.functions =
          state.driver.functions ++ definedFunctions moduleIndex functions position ∧
        (recordFunctions moduleIndex functions position state).driver.InnerCache =
          state.driver.InnerCache ∧
        (recordFunctions moduleIndex functions position state).driver.precompiledObjectFiles =
          state.driver.precompiledObjectFiles ∧
        (recordFunctions moduleIndex functions position state).driver.callTreeMapping =
          state.driver.callTreeMapping ∧
        (recordFunctions moduleIndex functions position state).tests = state.tests ∧
        (recordFunctions moduleIndex functions position state).runs = state.runs ∧
        (recordFunctions moduleIndex functions position state).queries = state.queries ∧
        (recordFunctions moduleIndex functions position state).allMutationPoints =
          state.allMutationPoints ∧
        (recordFunctions moduleIndex functions position state).mutationResults =
          state.mutationResults ∧
        (recordFunctions moduleIndex functions position state).aborted = state.aborted ∧
        ((∀ e ∈ state.trace, ∃ m f i, e = Event.injectCallbacks m f i) →
          ∀ e ∈ (recordFunctions moduleIndex functions position state).trace,
            ∃ m f i, e = Event.injectCallbacks m f i) := by
  intro functions
  induction functions with
  | nil =>
    intro position state
    simp [recordFunctions, definedFunctions]
  | cons function rest ih =>
    intro position state
    unfold recordFunctions definedFunctions
    by_cases hdecl : function.isDeclaration = true
    · simp only [hdecl, if_true]
      exact ih (position + 1) state
    · simp only [hdecl]
      obtain ⟨h1, h2, h3, h4, h5, h6, h7, h8, h9, h10, h11⟩ := ih (position + 1)
        { state with
          driver := { state.driver with
            functions := state.driver.functions ++ [⟨moduleIndex, position⟩] }
          trace := state.trace ++
            [Event.injectCallbacks moduleIndex function.name state.driver.functions.length] }
      refine ⟨h1.trans ?_, h2, h3, h4, h5, h6, h7, h8, h9, h10, fun h => h11 ?_⟩
      · simp
      · intro e he
        rcases List.mem_append.mp he with he1 | he1
        · exact h e he1
        · exact ⟨_, _, _, List.mem_singleton.mp he1⟩

theorem loadModules_spec (env : Collaborators) :
    ∀ (modules : List MullModule) (moduleIndex : Nat) (state : RunState),
      (loadModules env modules moduleIndex state).driver.functions =
          state.driver.functions ++ recordedFunctions env modules moduleIndex ∧
        (loadModules env modules moduleIndex state).driver.precompiledObjectFiles =
          state.driver.precompiledObjectFiles ∧
        (loadModules env modules moduleIndex state).driver.callTreeMapping =
          state.driver.callTreeMapping ∧
        (loadModules env modules moduleIndex state).tests = state.tests ∧
        (loadModules env modules moduleIndex state).runs = state.runs ∧
        (loadModules env modules moduleIndex state).queries = state.queries ∧
        (loadModules env modules moduleIndex state).allMutationPoints =
          state.allMutationPoints ∧
        (loadModules env modules moduleIndex state).mutationResults = state.mutationResults ∧
        (loadModules env modules moduleIndex state).aborted = state.aborted ∧
        ((∀ e ∈ state.trace, ∃ m f i, e = Event.injectCallbacks m f i) →
          ∀ e ∈ (loadModules env modules moduleIndex state).trace,
            ∃ m f i, e = Event.injectCallbacks m f i) := by
  intro modules
  induction modules with
  | nil =>
    intro moduleIndex state
    simp [loadModules, recordedFunctions]
  | cons module rest ih =>
    intro moduleIndex state
    unfold loadModules recordedFunctions
    cases hobj : env.getObject moduleIndex with
    | some objectFile =>
      simp only []
      obtain ⟨h1, h2, h3, h4, h5, h6, h7, h8, h9, h10⟩ := ih (moduleIndex + 1)
        { state with driver := { state.driver with
            InnerCache := InnerCacheInsert state.driver.InnerCache (module.address, objectFile) } }
      exact ⟨h1.trans (by simp), h2, h3, h4, h5, h6, h7, h8, h9, h10⟩
    | none =>
      simp only []
      obtain ⟨r1, _, r3, r4, r5, r6, r7, r8, r9, r10, r11⟩ :=
        recordFunctions_spec moduleIndex module.module.functions 0 state
      obtain ⟨h1, h2, h3, h4, h5, h6, h7, h8, h9, h10⟩ := ih (moduleIndex + 1)
        { recordFunctions moduleIndex module.module.functions 0 state with
          driver := { (recordFunctions moduleIndex module.module.functions 0 state).driver with
            InnerCache := InnerCacheInsert
              (recordFunctions moduleIndex module.module.functions 0 state).driver.InnerCache
              (module.address, env.compileModule moduleIndex) } }
      refine ⟨h1.trans ?_, h2.trans r3, h3.trans r4, h4.trans r5, h5.trans r6, h6.trans r7,
        h7.trans r8, h8.trans r9, h9.trans r10, fun h => h10 (r11 h)⟩
      show (recordFunctions moduleIndex module.module.functions 0 state).driver.functions ++ _ = _
      rw [r1, List.append_assoc]

theorem loadObjectFiles_spec :
    ∀ (objectFiles : List (Option Nat)) (driver : Driver),
      (loadObjectFiles objectFiles driver).functions = driver.functions ∧
        (loadObjectFiles objectFiles driver).InnerCache = driver.InnerCache ∧
        (loadObjectFiles objectFiles driver).callTreeMapping = driver.callTreeMapping := by
  intro objectFiles
  induction objectFiles with
  | nil => intro driver; exact ⟨rfl, rfl, rfl⟩
  | cons head rest ih =>
    intro driver
    cases head with
    | none => exact ih driver
    | some objectFile =>
      unfold loadObjectFiles
      exact ih _

theorem loadPhase_spec (env : Collaborators) :
    (loadPhase env).driver.functions = recordedFunctions env env.modules 0 ∧
      (loadPhase env).driver.callTreeMapping = none ∧
      (loadPhase env).tests = env.initialResult ∧
      (loadPhase env).runs = 0 ∧
      (loadPhase env).queries = [] ∧
      (loadPhase env).allMutationPoints = [] ∧
      (loadPhase env).mutationResults = [] ∧
      (loadPhase env).aborted = false ∧
      (∀ e ∈ (loadPhase env).trace, ∃ m f i, e = Event.injectCallbacks m f i) := by
  obtain ⟨h1, _, h3, h4, h5, h6, h7, h8, h9, h10⟩ :=
    loadModules_spec env env.modules 0 (initialState env)
  obtain ⟨g1, _, g3⟩ :=
    loadObjectFiles_spec env.objectFiles (loadModules env env.modules 0 (initialState env)).driver
  unfold loadPhase
  simp only []
  refine ⟨?_, ?_, h4, h5, h6, h7, h8, h9, h10 ?_⟩
  · rw [g1, h1]
    simp [initialState]
  · rw [g3, h3]
    rfl
  · intro e he
    simp [initialState] at he

/-! ## The whole of `Driver::Run` -/

theorem prepareForExecution_loadPhase (env : Collaborators) :
    (loadPhase env).driver.prepareForExecution =
      if (loadPhase env).driver.functions.length ≤ 1 then none
      else some { (loadPhase env).driver with
        callTreeMapping := some (List.replicate (loadPhase env).driver.functions.length 0) } := by
  unfold Driver.prepareForExecution
  rw [(loadPhase_spec env).2.1]
  simp

theorem Run_of_few_functions (cfg : Config) (env : Collaborators)
    (hfew : (loadPhase env).driver.functions.length ≤ 1) :
    Driver.Run cfg env = { loadPhase env with aborted := true } := by
  unfold Driver.Run originalPhase
  simp only []
  rw [prepareForExecution_loadPhase, if_pos hfew]
  simp

theorem loadDynamicLibraries_eq :
    ∀ (paths : List (List Char)) (state : RunState),
      loadDynamicLibraries paths state =
        { state with loadedLibraries := state.loadedLibraries ++ paths } := by
  intro paths
  induction paths with
  | nil => intro state; simp [loadDynamicLibraries]
  | cons dylibPath rest ih =>
    intro state
    unfold loadDynamicLibraries
    rw [ih]
    simp

theorem Run_of_throwing_library_list (cfg : Config) (env : Collaborators)
    (hmany : 2 ≤ (loadPhase env).driver.functions.length)
    (hlibs : cfg.getDynamicLibrariesPaths env.files = none) :
    Driver.Run cfg env =
      { loadPhase env with
        driver := { (loadPhase env).driver with
          callTreeMapping :=
            some (List.replicate (loadPhase env).driver.functions.length 0) }
        aborted := true } := by
  have hnot : ¬ (loadPhase env).driver.functions.length ≤ 1 := by omega
  unfold Driver.Run originalPhase
  simp only []
  rw [prepareForExecution_loadPhase, if_neg hnot]
  simp only [hlibs]
  simp

/-- When `prepareForExecution` fails its assertion or the list of dynamic
libraries cannot be read, `Run` is left with what the load phase has done. -/
theorem Run_early (cfg : Config) (env : Collaborators)
    (hearly : ¬ (2 ≤ (loadPhase env).driver.functions.length ∧
      cfg.getDynamicLibrariesPaths env.files ≠ none)) :
    (Driver.Run cfg env).trace = (loadPhase env).trace ∧
      (Driver.Run cfg env).aborted = true ∧
      (Driver.Run cfg env).tests = env.initialResult ∧
      (Driver.Run cfg env).queries = [] ∧
      (Driver.Run cfg env).allMutationPoints = [] ∧
      (Driver.Run cfg env).mutationResults = [] ∧
      (Driver.Run cfg env).driver.functions = (loadPhase env).driver.functions := by
  obtain ⟨_, _, l3, _, l5, l6, l7, _, _⟩ := loadPhase_spec env
  by_cases hfew : (loadPhase env).driver.functions.length ≤ 1
  · rw [Run_of_few_functions cfg env hfew]
    exact ⟨rfl, rfl, l3, l5, l6, l7, rfl⟩
  · have hmany : 2 ≤ (loadPhase env).driver.functions.length := by omega
    have hlibs : cfg.getDynamicLibrariesPaths env.files = none := by
      by_contra hsome
      exact hearly ⟨hmany, hsome⟩
    rw [Run_of_throwing_library_list cfg env hmany hlibs]
    exact ⟨rfl, rfl, l3, l5, l6, l7, rfl⟩

theorem originalPhase_spec (cfg : Config) (env : Collaborators)
    (hmany : 2 ≤ (loadPhase env).driver.functions.length)
    (hlibs : cfg.getDynamicLibrariesPaths env.files ≠ none) :
    (originalPhase cfg env).trace =
        (loadPhase env).trace ++ (List.range env.testsCount).flatMap
          (originalEvents cfg env (loadPhase env).driver.functions
            (loadPhase env).driver.AllObjectFiles) ∧
      (originalPhase cfg env).queries =
        (List.range env.testsCount).flatMap
          (originalQueries cfg env (loadPhase env).driver.functions
            (loadPhase env).driver.AllObjectFiles) ∧
      (∀ test, (originalPhase cfg env).tests test =
        if test < env.testsCount then
          (originalOutcome cfg env (loadPhase env).driver.functions
            (loadPhase env).driver.AllObjectFiles test).result
        else env.initialResult test) ∧
      (originalPhase cfg env).driver.functions = (loadPhase env).driver.functions ∧
      (originalPhase cfg env).driver.InnerCache = (loadPhase env).driver.InnerCache ∧
      (originalPhase cfg env).driver.precompiledObjectFiles =
        (loadPhase env).driver.precompiledObjectFiles ∧
      (originalPhase cfg env).mutationResults = [] ∧
      (originalPhase cfg env).aborted = false := by
  obtain ⟨_, _, l3, l4, l5, _, l7, l8, _⟩ := loadPhase_spec env
  have hnot : ¬ (loadPhase env).driver.functions.length ≤ 1 := by omega
  unfold originalPhase
  simp only []
  rw [prepareForExecution_loadPhase, if_neg hnot]
  simp only []
  cases hpaths : cfg.getDynamicLibrariesPaths env.files with
  | none => exact absurd hpaths hlibs
  | some dynamicLibrariesPaths =>
  simp only []
  rw [List.range_eq_range', loadDynamicLibraries_eq]
  obtain ⟨h1, h2, h3, h4, h5, h6, h7, h8, h9⟩ :=
    runOriginalTests_spec cfg env (loadPhase env).driver.AllObjectFiles env.testsCount 0
      { loadPhase env with
        driver := { (loadPhase env).driver with
          callTreeMapping :=
            some (List.replicate (loadPhase env).driver.functions.length 0) }
        loadedLibraries := (loadPhase env).loadedLibraries ++ dynamicLibrariesPaths } l4
  refine ⟨h1, h2.trans ?_, ?_, h5, h6, h7, h8.trans l7, h9.trans l8⟩
  · simp only [l5, List.nil_append]
  · intro test
    refine (h3 test).trans ?_
    simp [l3]

theorem Run_spec (cfg : Config) (env : Collaborators)
    (hmany : 2 ≤ (loadPhase env).driver.functions.length)
    (hlibs : cfg.getDynamicLibrariesPaths env.files ≠ none) :
    (∀ test, (Driver.Run cfg env).tests test =
        if test < env.testsCount then
          (originalOutcome cfg env (loadPhase env).driver.functions
            (loadPhase env).driver.AllObjectFiles test).result
        else env.initialResult test) ∧
      (Driver.Run cfg env).queries =
        (List.range env.testsCount).flatMap
          (originalQueries cfg env (loadPhase env).driver.functions
            (loadPhase env).driver.AllObjectFiles) ∧
      (Driver.Run cfg env).driver.functions = (loadPhase env).driver.functions ∧
      (∃ added, (Driver.Run cfg env).trace =
          ((loadPhase env).trace ++ (List.range env.testsCount).flatMap
            (originalEvents cfg env (loadPhase env).driver.functions
              (loadPhase env).driver.AllObjectFiles)) ++ added ∧
        ∀ e ∈ added, ∃ request point k, e = Event.sandboxRun request ∧
          point ∈ (Driver.Run cfg env).allMutationPoints ∧
          request.mutant = some point ∧
          request.objectFiles =
            (loadPhase env).driver.objectFilesWithMutant (env.getOriginalModule point)
              (env.compileMutant k point) ∧
          request.timeout = sandboxTimeout ((Driver.Run cfg env).tests request.test).runningTime ∧
          cfg.dryRun = false) ∧
      (∀ r ∈ (Driver.Run cfg env).mutationResults,
        r.mutationPoint ∈ (Driver.Run cfg env).allMutationPoints ∧
        (cfg.dryRun = true →
          r.result.status = ExecutionStatus.DryRun ∧
          r.result.runningTime =
            wrapInt64 (((Driver.Run cfg env).tests r.test).runningTime * 10) ∧
          r.result.stdoutOutput = "" ∧ r.result.stderrOutput = "")) ∧
      (cfg.dryRun = true → (Driver.Run cfg env).aborted = false) := by
  obtain ⟨o1, o2, o3, o4, o5, o6, o7, o8⟩ := originalPhase_spec cfg env hmany hlibs
  obtain ⟨h1, h2, h3, h4, h5, h6, ⟨t, ht, htp⟩, ⟨m, hm, hmp⟩, h9⟩ :=
    runMutants_spec cfg env (originalPhase cfg env).allMutationPoints 0 (originalPhase cfg env)
  have hrun : Driver.Run cfg env =
      runMutants cfg env (originalPhase cfg env).allMutationPoints 0 (originalPhase cfg env) := by
    unfold Driver.Run
    simp [o8]
  rw [hrun]
  refine ⟨fun test => ?_, h2.trans o2, h4.trans o4, ⟨t, ?_, ?_⟩, ?_, fun h => (h9 h).trans o8⟩
  · rw [h1]
    exact o3 test
  · rw [ht, o1]
  · intro e he
    obtain ⟨request, point, k, g1, g2, g3, g4, g5, g6⟩ := htp e he
    refine ⟨request, point, k, g1, by rw [h3]; exact g2, g3, ?_, ?_, g6⟩
    · rw [g4]
      exact objectFilesWithMutant_congr _ _ _ _ o5 o6
    · rw [g5, h1]
  · intro r hr
    rw [hm, o7, List.nil_append] at hr
    refine ⟨by rw [h3]; exact (hmp r hr).1, fun h => ?_⟩
    have := (hmp r hr).2 h
    rw [h1]
    exact this

/-! ## Facts about traces -/

theorem sandboxRuns_append (xs ys : List Event) :
    sandboxRuns (xs ++ ys) = sandboxRuns xs ++ sandboxRuns ys := by
  induction xs with
  | nil => rfl
  | cons e rest ih =>
    cases e <;> simp [sandboxRuns, ih]

theorem mem_sandboxRuns (request : SandboxRequest) (xs : List Event) :
    request ∈ sandboxRuns xs ↔ Event.sandboxRun request ∈ xs := by
  induction xs with
  | nil => simp [sandboxRuns]
  | cons e rest ih =>
    cases e <;> simp [sandboxRuns, ih]

theorem sandboxRuns_eq_nil (xs : List Event)
    (h : ∀ request, Event.sandboxRun request ∉ xs) : sandboxRuns xs = [] := by
  cases hruns : sandboxRuns xs with
  | nil => rfl
  | cons request rest =>
    have : request ∈ sandboxRuns xs := by rw [hruns]; exact List.mem_cons_self _ _
    exact absurd ((mem_sandboxRuns request xs).mp this) (h request)

theorem sandboxRuns_originalEvents (cfg : Config) (env : Collaborators)
    (functions : List CallTreeFunction) (objectFiles : List Nat) (test : Nat) :
    sandboxRuns (originalEvents cfg env functions objectFiles test) =
      [originalRequest cfg functions objectFiles test] := by
  unfold originalEvents
  simp only [sandboxRuns]
  congr 1
  apply sandboxRuns_eq_nil
  intro request hmem
  split at hmem
  · rcases List.mem_cons.mp hmem with h1 | h1
    · cases h1
    · obtain ⟨testee, _, h2⟩ := List.mem_map.mp h1
      cases h2
  · simp at hmem

theorem sandboxRuns_flatMap_originalEvents (cfg : Config) (env : Collaborators)
    (functions : List CallTreeFunction) (objectFiles : List Nat) (tests : List Nat) :
    sandboxRuns (tests.flatMap (originalEvents cfg env functions objectFiles)) =
      tests.map (originalRequest cfg functions objectFiles) := by
  induction tests with
  | nil => rfl
  | cons test rest ih =>
    rw [List.flatMap_cons, sandboxRuns_append, ih, sandboxRuns_originalEvents]
    rfl

theorem no_sandboxRun_in_loadPhase (env : Collaborators) (request : SandboxRequest) :
    Event.sandboxRun request ∉ (loadPhase env).trace := by
  intro h
  obtain ⟨m, f, i, he⟩ := (loadPhase_spec env).2.2.2.2.2.2.2.2 _ h
  cases he

/-- A sandboxed run in the trace of `Driver::Run` is either the original run of
a found test, or a mutant run with the properties `Run_spec` lists. -/
theorem sandboxRun_cases (cfg : Config) (env : Collaborators) (request : SandboxRequest)
    (hrun : Event.sandboxRun request ∈ (Driver.Run cfg env).trace) :
    (2 ≤ (loadPhase env).driver.functions.length ∧
        cfg.getDynamicLibrariesPaths env.files ≠ none) ∧
      ((∃ test, test < env.testsCount ∧
          request = originalRequest cfg (loadPhase env).driver.functions
            (loadPhase env).driver.AllObjectFiles test) ∨
        (∃ point k, point ∈ (Driver.Run cfg env).allMutationPoints ∧
          request.mutant = some point ∧
          request.objectFiles =
            (loadPhase env).driver.objectFilesWithMutant (env.getOriginalModule point)
              (env.compileMutant k point) ∧
          request.timeout =
            sandboxTimeout ((Driver.Run cfg env).tests request.test).runningTime ∧
          cfg.dryRun = false)) := by
  by_cases hready : 2 ≤ (loadPhase env).driver.functions.length ∧
      cfg.getDynamicLibrariesPaths env.files ≠ none
  swap
  · rw [(Run_early cfg env hready).1] at hrun
    exact absurd hrun (no_sandboxRun_in_loadPhase env request)
  · obtain ⟨hmany, hlibs⟩ := hready
    refine ⟨⟨hmany, hlibs⟩, ?_⟩
    obtain ⟨_, _, _, ⟨added, htrace, hadded⟩, _, _⟩ := Run_spec cfg env hmany hlibs
    rw [htrace] at hrun
    rcases List.mem_append.mp hrun with h1 | h1
    · rcases List.mem_append.mp h1 with h2 | h2
      · exact absurd h2 (no_sandboxRun_in_loadPhase env request)
      · left
        have h3 := (mem_sandboxRuns request _).mpr h2
        rw [sandboxRuns_flatMap_originalEvents] at h3
        obtain ⟨test, htest, heq⟩ := List.mem_map.mp h3
        exact ⟨test, List.mem_range.mp htest, heq.symm⟩
    · right
      obtain ⟨request1, point, k, g1, g2, g3, g4, g5, g6⟩ := hadded _ h1
      cases g1
      exact ⟨point, k, g2, g3, g4, g5, g6⟩

theorem sandboxTimeout_eq (r : Int) (h0 : 0 ≤ r) (hrep : 10 * r < 2 ^ 63) :
    sandboxTimeout r = max 30 (10 * r) := by
  unfold sandboxTimeout wrapInt64
  have : (r * 10 + 2 ^ 63) % 2 ^ 64 - 2 ^ 63 = 10 * r := by omega
  rw [this]

theorem mem_originalEvents (cfg : Config) (env : Collaborators)
    (functions : List CallTreeFunction) (objectFiles : List Nat) (test : Nat) (e : Event)
    (he : e ∈ originalEvents cfg env functions objectFiles test) :
    e = Event.sandboxRun (originalRequest cfg functions objectFiles test) ∨
      ((originalOutcome cfg env functions objectFiles test).result.status =
          ExecutionStatus.Passed ∧
        (e = Event.createTestees test ∨
          ∃ testee ∈ (originalTestees cfg env functions objectFiles test).tail,
            e = Event.getMutationPoints test testee)) := by
  unfold originalEvents at he
  rcases List.mem_cons.mp he with h1 | h1
  · exact Or.inl h1
  · right
    split at h1
    · rename_i hpassed
      refine ⟨hpassed, ?_⟩
      rcases List.mem_cons.mp h1 with h2 | h2
      · exact Or.inl h2
      · obtain ⟨testee, hmem, heq⟩ := List.mem_map.mp h2
        exact Or.inr ⟨testee, hmem, heq.symm⟩
    · cases h1

/-- A call made on behalf of `test` in the selection of mutations occurs in the
trace of `Driver::Run` only when `test` is a found test whose original run
passed. -/
theorem selectsFor_in_trace (cfg : Config) (env : Collaborators) (test : Nat) (e : Event)
    (he : e ∈ (Driver.Run cfg env).trace) (hsel : e.selectsFor test = true) :
    (2 ≤ (loadPhase env).driver.functions.length ∧
        cfg.getDynamicLibrariesPaths env.files ≠ none) ∧ test < env.testsCount ∧
      (originalOutcome cfg env (loadPhase env).driver.functions
        (loadPhase env).driver.AllObjectFiles test).result.status = ExecutionStatus.Passed := by
  have hload : ∀ e1 ∈ (loadPhase env).trace, e1.selectsFor test = false := by
    intro e1 h1
    obtain ⟨m, f, i, heq⟩ := (loadPhase_spec env).2.2.2.2.2.2.2.2 e1 h1
    rw [heq]
    rfl
  by_cases hready : 2 ≤ (loadPhase env).driver.functions.length ∧
      cfg.getDynamicLibrariesPaths env.files ≠ none
  swap
  · rw [(Run_early cfg env hready).1] at he
    rw [hload e he] at hsel
    cases hsel
  · obtain ⟨hmany, hlibs⟩ := hready
    refine ⟨⟨hmany, hlibs⟩, ?_⟩
    obtain ⟨_, _, _, ⟨added, htrace, hadded⟩, _, _⟩ := Run_spec cfg env hmany hlibs
    rw [htrace] at he
    rcases List.mem_append.mp he with h1 | h1
    · rcases List.mem_append.mp h1 with h2 | h2
      · rw [hload e h2] at hsel
        cases hsel
      · obtain ⟨test1, htest1, hmem⟩ := List.mem_flatMap.mp h2
        rcases mem_originalEvents cfg env _ _ test1 e hmem with h3 | ⟨hpassed, h3 | ⟨q, _, h3⟩⟩
        · rw [h3] at hsel
          cases hsel
        · rw [h3] at hsel
          have : test1 = test := by simpa [Event.selectsFor] using hsel
          subst this
          exact ⟨List.mem_range.mp htest1, hpassed⟩
        · rw [h3] at hsel
          have : test1 = test := by simpa [Event.selectsFor] using hsel
          subst this
          exact ⟨List.mem_range.mp htest1, hpassed⟩
    · obtain ⟨request, _, _, heq, _⟩ := hadded e h1
      rw [heq] at hsel
      cases hsel

theorem queriesFor_append (test : Nat) (xs ys : List Event) :
    queriesFor test (xs ++ ys) = queriesFor test xs ++ queriesFor test ys := by
  induction xs with
  | nil => rfl
  | cons e rest ih =>
    cases e with
    | getMutationPoints test1 testee =>
      by_cases h : test1 = test <;> simp [queriesFor, h, ih]
    | _ => simp [queriesFor, ih]

theorem queriesFor_eq_nil (test : Nat) (xs : List Event)
    (h : ∀ e ∈ xs, e.selectsFor test = false) : queriesFor test xs = [] := by
  induction xs with
  | nil => rfl
  | cons e rest ih =>
    have hrest := ih (fun e1 h1 => h e1 (List.mem_cons_of_mem _ h1))
    have hhead := h e (List.mem_cons_self _ _)
    cases e with
    | getMutationPoints test1 testee =>
      have hne : ¬ test1 = test := by simpa [Event.selectsFor] using hhead
      simp [queriesFor, hne, hrest]
    | _ => simp [queriesFor, hrest]

theorem queriesFor_map (test : Nat) (testees : List Testee) :
    queriesFor test (testees.map (Event.getMutationPoints test)) = testees := by
  induction testees with
  | nil => rfl
  | cons testee rest ih => simp [queriesFor, ih]

theorem queriesFor_originalEvents_self (cfg : Config) (env : Collaborators)
    (functions : List CallTreeFunction) (objectFiles : List Nat) (test : Nat) :
    queriesFor test (originalEvents cfg env functions objectFiles test) =
      originalQueries cfg env functions objectFiles test := by
  unfold originalEvents originalQueries
  split
  · simp only [queriesFor]
    exact queriesFor_map test _
  · rfl

theorem queriesFor_originalEvents_other (cfg : Config) (env : Collaborators)
    (functions : List CallTreeFunction) (objectFiles : List Nat) (test other : Nat)
    (hne : other ≠ test) :
    queriesFor test (originalEvents cfg env functions objectFiles other) = [] := by
  apply queriesFor_eq_nil
  intro e he
  rcases mem_originalEvents cfg env _ _ other e he with h | ⟨_, h | ⟨q, _, h⟩⟩
  · rw [h]; rfl
  · rw [h]; simpa [Event.selectsFor] using hne
  · rw [h]; simpa [Event.selectsFor] using hne

theorem queriesFor_flatMap_originalEvents (cfg : Config) (env : Collaborators)
    (functions : List CallTreeFunction) (objectFiles : List Nat) (test : Nat) :
    ∀ (tests : List Nat), tests.Nodup →
      queriesFor test (tests.flatMap (originalEvents cfg env functions objectFiles)) =
        if test ∈ tests then originalQueries cfg env functions objectFiles test else [] := by
  intro tests
  induction tests with
  | nil => intro _; rfl
  | cons head rest ih =>
    intro hnodup
    have hrest := ih (List.nodup_cons.mp hnodup).2
    have hnotin := (List.nodup_cons.mp hnodup).1
    rw [List.flatMap_cons, queriesFor_append, hrest]
    by_cases heq : head = test
    · subst heq
      rw [queriesFor_originalEvents_self, if_neg hnotin, if_pos (List.mem_cons_self _ _)]
      simp
    · rw [queriesFor_originalEvents_other cfg env functions objectFiles test head heq]
      by_cases hmem : test ∈ rest
      · rw [if_pos hmem, if_pos (List.mem_cons_of_mem _ hmem)]
        rfl
      · have : test ∉ head :: rest := by
          intro h
          rcases List.mem_cons.mp h with h1 | h1
          · exact heq h1.symm
          · exact hmem h1
        rw [if_neg hmem, if_neg this]
        rfl

/-! ## The object-file lists -/

theorem InnerCacheInsert_keys (cache : List (Nat × Nat)) (entry : Nat × Nat) (key : Nat)
    (h : key ∈ (InnerCacheInsert cache entry).map Prod.fst) :
    key = entry.1 ∨ key ∈ cache.map Prod.fst := by
  induction cache with
  | nil =>
    simp only [InnerCacheInsert, List.map_cons, List.map_nil, List.mem_singleton] at h
    exact Or.inl h
  | cons head rest ih =>
    unfold InnerCacheInsert at h
    split at h
    · simp only [List.map_cons, List.mem_cons] at h ⊢
      exact h
    · split at h
      · exact Or.inr h
      · simp only [List.map_cons, List.mem_cons] at h ⊢
        rcases h with h | h
        · exact Or.inr (Or.inl h)
        · rcases ih h with h1 | h1
          · exact Or.inl h1
          · exact Or.inr (Or.inr h1)

theorem InnerCacheInsert_sorted (cache : List (Nat × Nat)) (entry : Nat × Nat)
    (h : (cache.map Prod.fst).Pairwise (· < ·)) :
    ((InnerCacheInsert cache entry).map Prod.fst).Pairwise (· < ·) := by
  induction cache with
  | nil => simp [InnerCacheInsert]
  | cons head rest ih =>
    rw [List.map_cons, List.pairwise_cons] at h
    unfold InnerCacheInsert
    split
    · rename_i hlt
      rw [List.map_cons, List.pairwise_cons]
      refine ⟨?_, by rw [List.map_cons, List.pairwise_cons]; exact h⟩
      intro key hkey
      rcases List.mem_cons.mp hkey with h1 | h1
      · rw [h1]; exact hlt
      · exact lt_trans hlt (h.1 key h1)
    · split
      · rw [List.map_cons, List.pairwise_cons]
        exact h
      · rename_i hnlt hne
        rw [List.map_cons, List.pairwise_cons]
        refine ⟨?_, ih h.2⟩
        intro key hkey
        rcases InnerCacheInsert_keys rest entry key hkey with h1 | h1
        · rw [h1]; omega
        · exact h.1 key h1

theorem recordFunctions_InnerCache (moduleIndex : Nat) (functions : List LFunction)
    (position : Nat) (state : RunState) :
    (recordFunctions moduleIndex functions position state).driver.InnerCache =
      state.driver.InnerCache :=
  (recordFunctions_spec moduleIndex functions position state).2.1

theorem loadModules_sorted (env : Collaborators) :
    ∀ (modules : List MullModule) (moduleIndex : Nat) (state : RunState),
      (state.driver.InnerCache.map Prod.fst).Pairwise (· < ·) →
        ((loadModules env modules moduleIndex state).driver.InnerCache.map
          Prod.fst).Pairwise (· < ·) := by
  intro modules
  induction modules with
  | nil => intro moduleIndex state h; exact h
  | cons module rest ih =>
    intro moduleIndex state h
    unfold loadModules
    cases env.getObject moduleIndex with
    | some objectFile =>
      exact ih _ _ (InnerCacheInsert_sorted _ _ h)
    | none =>
      refine ih _ _ (InnerCacheInsert_sorted _ _ ?_)
      rw [recordFunctions_InnerCache]
      exact h

/-- After the load phase the keys of `InnerCache` are pairwise distinct. -/
theorem loadPhase_keys_nodup (env : Collaborators) :
    ((loadPhase env).driver.InnerCache.map Prod.fst).Nodup := by
  have hsorted := loadModules_sorted env env.modules 0 (initialState env)
    (by simp [initialState])
  have hkeep := (loadObjectFiles_spec env.objectFiles
    (loadModules env env.modules 0 (initialState env)).driver).2.1
  unfold loadPhase
  simp only []
  rw [hkeep]
  exact hsorted.imp (fun h => Nat.ne_of_lt h)

theorem filter_key_of_nodup (One object : Nat) :
    ∀ (cache : List (Nat × Nat)), (cache.map Prod.fst).Nodup → (One, object) ∈ cache →
      ∃ before after, cache = before ++ (One, object) :: after ∧
        cache.filter (fun CachedEntry => One ≠ CachedEntry.1) = before ++ after := by
  intro cache
  induction cache with
  | nil => intro _ h; cases h
  | cons head rest ih =>
    intro hnodup hmem
    rw [List.map_cons, List.nodup_cons] at hnodup
    by_cases hhead : head = (One, object)
    · subst hhead
      refine ⟨[], rest, rfl, ?_⟩
      have hrest : rest.filter (fun CachedEntry => One ≠ CachedEntry.1) = rest := by
        rw [List.filter_eq_self]
        intro entry hentry
        have : entry.1 ≠ One := by
          intro heq
          apply hnodup.1
          show One ∈ List.map Prod.fst rest
          rw [← heq]
          exact List.mem_map_of_mem Prod.fst hentry
        simpa using fun h => this h.symm
      rw [List.filter_cons_of_neg (by simp), hrest]
      rfl
    · have hin : (One, object) ∈ rest := by
        rcases List.mem_cons.mp hmem with h | h
        · exact absurd h.symm hhead
        · exact h
      obtain ⟨before, after, hsplit, hfilter⟩ := ih hnodup.2 hin
      have hkey : One ≠ head.1 := by
        intro heq
        apply hnodup.1
        rw [← heq]
        exact List.mem_map_of_mem Prod.fst hin
      refine ⟨head :: before, after, by rw [hsplit]; rfl, ?_⟩
      rw [List.filter_cons_of_pos (by simpa using hkey), hfilter]
      rfl

theorem filter_key_of_absent (One : Nat) (cache : List (Nat × Nat))
    (habsent : One ∉ cache.map Prod.fst) :
    cache.filter (fun CachedEntry => One ≠ CachedEntry.1) = cache := by
  rw [List.filter_eq_self]
  intro entry hentry
  have : One ≠ entry.1 := by
    intro heq
    apply habsent
    rw [heq]
    exact List.mem_map_of_mem Prod.fst hentry
  simpa using this

/-! ## Instrumentation -/

theorem injectLeave_spec (leaveCall : Instruction) (block block1 : BasicBlock)
    (h : injectLeave leaveCall block = some block1) :
    ∃ init terminator, block.instructions = init ++ [terminator] ∧
      terminator.isTerminator = true ∧
      block.getTerminator = some terminator ∧
      block1.instructions =
        if terminator.isReturn then init ++ [leaveCall, terminator] else init ++ [terminator] := by
  unfold injectLeave at h
  cases hterm : block.getTerminator with
  | none => rw [hterm] at h; cases h
  | some terminator =>
    rw [hterm] at h
    have hterm2 := hterm
    unfold BasicBlock.getTerminator at hterm2
    cases hlast : block.instructions.getLast? with
    | none => rw [hlast] at hterm2; cases hterm2
    | some last =>
      rw [hlast] at hterm2
      simp only [] at hterm2
      split at hterm2
      · rename_i histerm
        cases hterm2
        obtain ⟨init, hinit⟩ := List.getLast?_eq_some_iff.mp hlast
        refine ⟨init, terminator, hinit, histerm, rfl, ?_⟩
        simp only [] at h
        split at h
        · rename_i hret
          cases h
          simp [hret, hinit]
        · rename_i hret
          cases h
          simp [hret, hinit]
      · cases hterm2

theorem getTerminator_append_singleton (init : List Instruction) (terminator : Instruction)
    (h : terminator.isTerminator = true) :
    (BasicBlock.mk (init ++ [terminator])).getTerminator = some terminator := by
  unfold BasicBlock.getTerminator
  simp [h]

theorem isCallTo_of_isTerminator (callee : String) (terminator : Instruction)
    (h : terminator.isTerminator = true) : terminator.isCallTo callee = false := by
  cases terminator <;> simp_all [Instruction.isTerminator, Instruction.isCallTo]

/-- What `injectLeave` does to a block on which it succeeds: the terminator
stays, the number of calls of `callee` grows by one exactly when the block
ends in a return and the inserted call is a call of `callee`, and the block
stays non-empty. -/
theorem injectLeave_effect (leaveCall : Instruction) (callee : String)
    (block block1 : BasicBlock) (h : injectLeave leaveCall block = some block1) :
    block1.getTerminator = block.getTerminator ∧
      block1.endsInReturn = block.endsInReturn ∧
      block1.countCalls callee = block.countCalls callee +
        (if block.endsInReturn && leaveCall.isCallTo callee then 1 else 0) ∧
      block1.instructions ≠ [] ∧
      block.instructions ≠ [] := by
  obtain ⟨init, terminator, hblock, histerm, hterm, hblock1⟩ :=
    injectLeave_spec leaveCall block block1 h
  have hcall := isCallTo_of_isTerminator callee terminator histerm
  have hterm1 : block1.getTerminator = some terminator := by
    by_cases hret : terminator.isReturn = true
    · rw [if_pos hret] at hblock1
      have : block1 = BasicBlock.mk ((init ++ [leaveCall]) ++ [terminator]) := by
        cases block1
        simp only [BasicBlock.mk.injEq]
        simpa using hblock1
      rw [this]
      exact getTerminator_append_singleton _ _ histerm
    · rw [if_neg hret] at hblock1
      have : block1 = BasicBlock.mk (init ++ [terminator]) := by
        cases block1
        simp only [BasicBlock.mk.injEq]
        exact hblock1
      rw [this]
      exact getTerminator_append_singleton _ _ histerm
  refine ⟨hterm1.trans hterm.symm, ?_, ?_, ?_, ?_⟩
  · unfold BasicBlock.endsInReturn
    rw [hterm1, hterm]
  · unfold BasicBlock.countCalls BasicBlock.endsInReturn
    rw [hterm, hblock, hblock1]
    by_cases hret : terminator.isReturn = true
    · by_cases hleave : leaveCall.isCallTo callee = true
      · simp [hret, hleave, hcall, List.countP_cons]
      · simp [hret, hleave, hcall, List.countP_cons]
    · simp [hret]
  · rw [hblock1]
    split <;> simp
  · rw [hblock]
    simp

/-- What `injectLeaves` does to a list of blocks on which it succeeds, and that
it succeeds again on its own output. -/
theorem injectLeaves_effect (leaveCall : Instruction) (callee : String) :
    ∀ (blocks blocks1 : List BasicBlock), injectLeaves leaveCall blocks = some blocks1 →
      (blocks1.map (BasicBlock.countCalls callee)).sum =
          (blocks.map (BasicBlock.countCalls callee)).sum +
            (if leaveCall.isCallTo callee then blocks.countP BasicBlock.endsInReturn else 0) ∧
        blocks1.countP BasicBlock.endsInReturn = blocks.countP BasicBlock.endsInReturn ∧
        blocks1.length = blocks.length ∧
        (∀ block ∈ blocks1, block.getTerminator ≠ none) := by
  intro blocks
  induction blocks with
  | nil =>
    intro blocks1 h
    simp only [injectLeaves, Option.some.injEq] at h
    subst h
    simp
  | cons block rest ih =>
    intro blocks1 h
    unfold injectLeaves at h
    cases hb : injectLeave leaveCall block with
    | none => rw [hb] at h; cases h
    | some block1 =>
      rw [hb] at h
      simp only [] at h
      cases hr : injectLeaves leaveCall rest with
      | none => rw [hr] at h; cases h
      | some rest1 =>
        rw [hr] at h
        simp only [Option.some.injEq] at h
        subst h
        obtain ⟨i1, i2, i3, i4⟩ := ih rest1 hr
        obtain ⟨e1, e2, e3, _, _⟩ := injectLeave_effect leaveCall callee block block1 hb
        obtain ⟨_, terminator, _, _, hterm, _⟩ := injectLeave_spec leaveCall block block1 hb
        refine ⟨?_, ?_, by simp [i3], ?_⟩
        · simp only [List.map_cons, List.sum_cons, i1, e3, List.countP_cons]
          by_cases hleave : leaveCall.isCallTo callee = true
          · by_cases hret : block.endsInReturn = true
            · simp [hleave, hret]; omega
            · simp [hleave, hret]; omega
          · simp [hleave]
        · simp only [List.countP_cons, i2, e2]
        · intro b hbmem
          rcases List.mem_cons.mp hbmem with h1 | h1
          · rw [h1, e1, hterm]
            simp
          · exact i4 b h1

theorem injectLeave_of_terminator (leaveCall : Instruction) (block : BasicBlock)
    (h : block.getTerminator ≠ none) : ∃ block1, injectLeave leaveCall block = some block1 := by
  unfold injectLeave
  cases hterm : block.getTerminator with
  | none => exact absurd hterm h
  | some terminator =>
    simp only []
    split
    · exact ⟨_, rfl⟩
    · exact ⟨_, rfl⟩

theorem injectLeaves_of_terminators (leaveCall : Instruction) :
    ∀ (blocks : List BasicBlock), (∀ block ∈ blocks, block.getTerminator ≠ none) →
      ∃ blocks1, injectLeaves leaveCall blocks = some blocks1 := by
  intro blocks
  induction blocks with
  | nil => intro _; exact ⟨[], rfl⟩
  | cons block rest ih =>
    intro h
    obtain ⟨block1, hb⟩ := injectLeave_of_terminator leaveCall block (h block (List.mem_cons_self _ _))
    obtain ⟨rest1, hr⟩ := ih (fun b hbmem => h b (List.mem_cons_of_mem _ hbmem))
    exact ⟨block1 :: rest1, by simp [injectLeaves, hb, hr]⟩

theorem getTerminator_cons (first : Instruction) (block : BasicBlock)
    (h : block.instructions ≠ []) :
    (BasicBlock.mk (first :: block.instructions)).getTerminator = block.getTerminator := by
  unfold BasicBlock.getTerminator
  cases hinstructions : block.instructions with
  | nil => exact absurd hinstructions h
  | cons second others => rw [List.getLast?_cons_cons]

theorem getTerminator_ne_none_instructions (block : BasicBlock)
    (h : block.getTerminator ≠ none) : block.instructions ≠ [] := by
  intro hnil
  apply h
  unfold BasicBlock.getTerminator
  rw [hnil]
  rfl

/-- What `injectIntoFunction` does to a function on which it succeeds: one more
call of `mull_enterFunction`, one more call of `mull_leaveFunction` per block
that ends in a return, the same name and the same number of returning blocks;
and it succeeds again on its own output. -/
theorem injectIntoFunction_effect (parameters : List Value) (function function1 : LFunction)
    (h : injectIntoFunction parameters function = some function1) :
    function1.countCalls "mull_enterFunction" =
        function.countCalls "mull_enterFunction" + 1 ∧
      function1.countCalls "mull_leaveFunction" =
        function.countCalls "mull_leaveFunction" + function.returnBlocks ∧
      function1.returnBlocks = function.returnBlocks ∧
      function1.name = function.name ∧
      ∃ function2, injectIntoFunction parameters function1 = some function2 := by
  unfold injectIntoFunction at h
  cases hblocks : function.blocks with
  | nil => rw [hblocks] at h; cases h
  | cons entryBlock rest =>
    rw [hblocks] at h
    simp only [] at h
    cases hentry : entryBlock.instructions with
    | nil => rw [hentry] at h; cases h
    | cons first others =>
      rw [hentry] at h
      simp only [] at h
      cases hleaves : injectLeaves (Instruction.call "mull_leaveFunction" parameters)
          ({ instructions :=
              Instruction.call "mull_enterFunction" parameters :: first :: others } :: rest) with
      | none => rw [hleaves] at h; cases h
      | some blocks =>
        rw [hleaves] at h
        simp only [Option.some.injEq] at h
        subst h
        have hne : entryBlock.instructions ≠ [] := by rw [hentry]; simp
        have hsame : (BasicBlock.mk
            (Instruction.call "mull_enterFunction" parameters :: first :: others)).endsInReturn =
            entryBlock.endsInReturn := by
          unfold BasicBlock.endsInReturn
          rw [← hentry, getTerminator_cons _ _ hne]
        have henterCount : (BasicBlock.mk
            (Instruction.call "mull_enterFunction" parameters :: first :: others)).countCalls
              "mull_enterFunction" = entryBlock.countCalls "mull_enterFunction" + 1 := by
          unfold BasicBlock.countCalls
          rw [hentry]
          simp [List.countP_cons, Instruction.isCallTo]
        have hleaveCount : (BasicBlock.mk
            (Instruction.call "mull_enterFunction" parameters :: first :: others)).countCalls
              "mull_leaveFunction" = entryBlock.countCalls "mull_leaveFunction" := by
          unfold BasicBlock.countCalls
          rw [hentry]
          simp [List.countP_cons, Instruction.isCallTo]
        obtain ⟨a1, a2, a3, a4⟩ := injectLeaves_effect
          (Instruction.call "mull_leaveFunction" parameters) "mull_enterFunction" _ _ hleaves
        obtain ⟨b1, _, _, _⟩ := injectLeaves_effect
          (Instruction.call "mull_leaveFunction" parameters) "mull_leaveFunction" _ _ hleaves
        refine ⟨?_, ?_, ?_, rfl, ?_⟩
        · unfold LFunction.countCalls
          rw [hblocks]
          simp only [] at a1 ⊢
          rw [a1]
          simp only [List.map_cons, List.sum_cons, henterCount, Instruction.isCallTo]
          simp
          omega
        · unfold LFunction.countCalls LFunction.returnBlocks
          rw [hblocks]
          simp only [] at b1 ⊢
          rw [b1]
          simp only [List.map_cons, List.sum_cons, hleaveCount, Instruction.isCallTo,
            List.countP_cons, hsame]
          simp
        · unfold LFunction.returnBlocks
          rw [hblocks]
          simp only [] at a2 ⊢
          rw [a2]
          simp only [List.countP_cons, hsame]
        · unfold injectIntoFunction
          simp only []
          cases hblocks1 : blocks with
          | nil => rw [hblocks1] at a3; simp at a3
          | cons entryBlock1 rest1 =>
            simp only []
            have hterm1 : entryBlock1.getTerminator ≠ none :=
              a4 entryBlock1 (by rw [hblocks1]; exact List.mem_cons_self _ _)
            have hne1 := getTerminator_ne_none_instructions entryBlock1 hterm1
            cases hentry1 : entryBlock1.instructions with
            | nil => exact absurd hentry1 hne1
            | cons first1 others1 =>
              simp only []
              have hall : ∀ block ∈ (BasicBlock.mk
                  (Instruction.call "mull_enterFunction" parameters :: first1 :: others1)) :: rest1,
                  block.getTerminator ≠ none := by
                intro block hmem
                rcases List.mem_cons.mp hmem with h1 | h1
                · rw [h1, ← hentry1, getTerminator_cons _ _ hne1]
                  exact hterm1
                · exact a4 block (by rw [hblocks1]; exact List.mem_cons_of_mem _ h1)
              obtain ⟨blocks2, hblocks2⟩ := injectLeaves_of_terminators
                (Instruction.call "mull_leaveFunction" parameters) _ hall
              rw [hblocks2]
              exact ⟨_, rfl⟩

theorem getFunction_set_isSome (name : String) (function function1 : LFunction)
    (hname : function1.name = function.name) :
    ∀ (functions : List LFunction) (position : Nat),
      functions.get? position = some function →
      ((LModule.mk (functions.set position function1)).getFunction name).isSome =
        ((LModule.mk functions).getFunction name).isSome := by
  intro functions
  induction functions with
  | nil => intro position h; cases position <;> cases h
  | cons head rest ih =>
    intro position h
    cases position with
    | zero =>
      simp only [List.get?, Option.some.injEq] at h
      subst h
      simp only [LModule.getFunction, List.set, List.find?, hname]
      cases (head.name == name) <;> rfl
    | succ position =>
      simp only [List.get?] at h
      have hrest := ih position h
      simp only [LModule.getFunction, List.set, List.find?] at hrest ⊢
      cases hhead : (head.name == name) with
      | true => rfl
      | false => exact hrest

theorem get?_set_self (function function1 : LFunction) :
    ∀ (functions : List LFunction) (position : Nat),
      functions.get? position = some function →
      (functions.set position function1).get? position = some function1 := by
  intro functions
  induction functions with
  | nil => intro position h; cases position <;> cases h
  | cons head rest ih =>
    intro position h
    cases position with
    | zero => rfl
    | succ position => exact ih position h

/-- A successful `injectCallbacks` rewrote the function at `position` of a module
that declares both callbacks, and changed nothing else of that module. -/
theorem injectCallbacks_spec (driverAddress pointerWidth : Nat) (module module1 : LModule)
    (position index : Nat)
    (h : injectCallbacks driverAddress pointerWidth module position index = some module1) :
    ∃ (base : LModule) (function function1 : LFunction),
      (base.getFunction "mull_enterFunction").isSome = true ∧
      (base.getFunction "mull_leaveFunction").isSome = true ∧
      base.functions.get? position = some function ∧
      injectIntoFunction (callbackParameters driverAddress pointerWidth index) function =
        some function1 ∧
      module1 = { functions := base.functions.set position function1 } := by
  unfold injectCallbacks at h
  simp only [] at h
  generalize (if ((module.getFunction "mull_enterFunction").isNone &&
      (module.getFunction "mull_leaveFunction").isNone) = true then
        createCallback (createCallback module "mull_enterFunction") "mull_leaveFunction"
      else module) = base at h
  by_cases henter : (base.getFunction "mull_enterFunction").isNone = true
  · rw [if_pos henter] at h
    cases h
  · rw [if_neg henter] at h
    by_cases hleave : (base.getFunction "mull_leaveFunction").isNone = true
    · rw [if_pos hleave] at h
      cases h
    · rw [if_neg hleave] at h
      cases hget : base.functions.get? position with
      | none => rw [hget] at h; cases h
      | some function =>
        rw [hget] at h
        simp only [] at h
        cases hinject : injectIntoFunction
            (callbackParameters driverAddress pointerWidth index) function with
        | none => rw [hinject] at h; cases h
        | some function1 =>
          rw [hinject] at h
          simp only [Option.some.injEq] at h
          have hsome : ∀ o : Option LFunction, ¬ o.isNone = true → o.isSome = true := by
            intro o
            cases o <;> simp
          exact ⟨base, function, function1, hsome _ henter, hsome _ hleave, hget, hinject,
            h.symm⟩

/-! ## The function table after the load phase -/

theorem mem_definedFunctions (moduleIndex : Nat) :
    ∀ (functions : List LFunction) (position : Nat) (entry : CallTreeFunction),
      entry ∈ definedFunctions moduleIndex functions position ↔
        entry.moduleIndex = moduleIndex ∧ position ≤ entry.functionIndex ∧
          ∃ function, functions.get? (entry.functionIndex - position) = some function ∧
            function.isDeclaration = false := by
  intro functions
  induction functions with
  | nil =>
    intro position entry
    simp [definedFunctions]
  | cons head rest ih =>
    intro position entry
    unfold definedFunctions
    have hrest := ih (position + 1) entry
    constructor
    · intro h
      have hcase : (entry = ⟨moduleIndex, position⟩ ∧ head.isDeclaration = false) ∨
          entry ∈ definedFunctions moduleIndex rest (position + 1) := by
        by_cases hdecl : head.isDeclaration = true
        · rw [if_pos hdecl] at h
          exact Or.inr h
        · rw [if_neg hdecl] at h
          rcases List.mem_cons.mp h with h1 | h1
          · exact Or.inl ⟨h1, by simpa using hdecl⟩
          · exact Or.inr h1
      rcases hcase with ⟨h1, h2⟩ | h1
      · subst h1
        exact ⟨rfl, Nat.le_refl _, head, by simp, h2⟩
      · obtain ⟨g1, g2, function, g3, g4⟩ := hrest.mp h1
        refine ⟨g1, by omega, function, ?_, g4⟩
        have : entry.functionIndex - position = (entry.functionIndex - (position + 1)) + 1 := by
          omega
        rw [this]
        exact g3
    · rintro ⟨g1, g2, function, g3, g4⟩
      by_cases hhere : entry.functionIndex = position
      · have hzero : entry.functionIndex - position = 0 := by omega
        rw [hzero] at g3
        simp only [List.get?, Option.some.injEq] at g3
        subst g3
        have hentry : entry = ⟨moduleIndex, position⟩ := by
          cases entry
          simp only [CallTreeFunction.mk.injEq]
          exact ⟨g1, hhere⟩
        rw [if_neg (by simp [g4]), hentry]
        exact List.mem_cons_self _ _
      · have hstep : entry.functionIndex - position =
            (entry.functionIndex - (position + 1)) + 1 := by omega
        rw [hstep] at g3
        have hin : entry ∈ definedFunctions moduleIndex rest (position + 1) :=
          hrest.mpr ⟨g1, by omega, function, g3, g4⟩
        by_cases hdecl : head.isDeclaration = true
        · rw [if_pos hdecl]
          exact hin
        · rw [if_neg hdecl]
          exact List.mem_cons_of_mem _ hin

theorem definedFunctions_nodup (moduleIndex : Nat) :
    ∀ (functions : List LFunction) (position : Nat),
      (definedFunctions moduleIndex functions position).Nodup := by
  intro functions
  induction functions with
  | nil => intro position; simp [definedFunctions]
  | cons head rest ih =>
    intro position
    unfold definedFunctions
    by_cases hdecl : head.isDeclaration = true
    · rw [if_pos hdecl]
      exact ih (position + 1)
    · rw [if_neg hdecl]
      refine List.nodup_cons.mpr ⟨?_, ih (position + 1)⟩
      intro hmem
      have := ((mem_definedFunctions moduleIndex rest (position + 1) _).mp hmem).2.1
      simp only at this
      omega

theorem mem_recordedFunctions (env : Collaborators) :
    ∀ (modules : List MullModule) (start : Nat) (entry : CallTreeFunction),
      entry ∈ recordedFunctions env modules start ↔
        start ≤ entry.moduleIndex ∧
          ∃ module function, modules.get? (entry.moduleIndex - start) = some module ∧
            env.getObject entry.moduleIndex = none ∧
            module.module.functions.get? entry.functionIndex = some function ∧
            function.isDeclaration = false := by
  intro modules
  induction modules with
  | nil =>
    intro start entry
    simp [recordedFunctions]
  | cons head rest ih =>
    intro start entry
    unfold recordedFunctions
    rw [List.mem_append, ih (start + 1) entry]
    constructor
    · rintro (h | ⟨g1, module, function, g2, g3, g4, g5⟩)
      · cases hobj : env.getObject start with
        | some objectFile => rw [hobj] at h; cases h
        | none =>
          rw [hobj] at h
          obtain ⟨e1, _, function, e3, e4⟩ :=
            (mem_definedFunctions start head.module.functions 0 entry).mp h
          refine ⟨by omega, head, function, ?_, by rw [e1]; exact hobj, by simpa using e3, e4⟩
          have : entry.moduleIndex - start = 0 := by omega
          rw [this]
          rfl
      · refine ⟨by omega, module, function, ?_, g3, g4, g5⟩
        have : entry.moduleIndex - start = (entry.moduleIndex - (start + 1)) + 1 := by omega
        rw [this]
        exact g2
    · rintro ⟨g1, module, function, g2, g3, g4, g5⟩
      by_cases hhere : entry.moduleIndex = start
      · left
        have hzero : entry.moduleIndex - start = 0 := by omega
        rw [hzero] at g2
        simp only [List.get?, Option.some.injEq] at g2
        subst g2
        rw [hhere] at g3
        rw [g3]
        exact (mem_definedFunctions start head.module.functions 0 entry).mpr
          ⟨hhere, Nat.zero_le _, function, by simpa using g4, g5⟩
      · right
        have hstep : entry.moduleIndex - start = (entry.moduleIndex - (start + 1)) + 1 := by
          omega
        rw [hstep] at g2
        exact ⟨by omega, module, function, g2, g3, g4, g5⟩

theorem recordedFunctions_nodup (env : Collaborators) :
    ∀ (modules : List MullModule) (start : Nat), (recordedFunctions env modules start).Nodup := by
  intro modules
  induction modules with
  | nil => intro start; simp [recordedFunctions]
  | cons head rest ih =>
    intro start
    unfold recordedFunctions
    refine List.nodup_append.mpr ⟨?_, ih (start + 1), ?_⟩
    · cases env.getObject start with
      | some objectFile => exact List.nodup_nil
      | none => exact definedFunctions_nodup start head.module.functions 0
    · intro entry h1 h2
      have hge := ((mem_recordedFunctions env rest (start + 1) entry).mp h2).1
      cases hobj : env.getObject start with
      | some objectFile => rw [hobj] at h1; cases h1
      | none =>
        rw [hobj] at h1
        have heq := ((mem_definedFunctions start head.module.functions 0 entry).mp h1).1
        omega

/-- The function table after the load phase has no entry twice, and it holds
exactly the functions that are not declarations of the modules for which the
object cache had no object file; the ID of an entry is its position. -/
theorem loadPhase_function_ids (env : Collaborators) :
    (loadPhase env).driver.functions.Nodup ∧
      ∀ entry : CallTreeFunction, entry ∈ (loadPhase env).driver.functions ↔
        ∃ module function, env.modules.get? entry.moduleIndex = some module ∧
          env.getObject entry.moduleIndex = none ∧
          module.module.functions.get? entry.functionIndex = some function ∧
          function.isDeclaration = false := by
  rw [(loadPhase_spec env).1]
  refine ⟨recordedFunctions_nodup env env.modules 0, fun entry => ?_⟩
  rw [mem_recordedFunctions env env.modules 0 entry]
  simp

/-! ## The file lists -/

theorem fileLines_cons_newline (cs : List Char) :
    fileLines ('\n' :: cs) = [] :: fileLines cs := by
  simp [fileLines]

theorem fileLines_cons_other (c : Char) (cs : List Char) (h : c ≠ '\n') :
    fileLines (c :: cs) =
      match fileLines cs with
      | [] => [[c]]
      | line :: lines => (c :: line) :: lines := by
  simp [fileLines, h]

theorem getlineExtract_cons_newline (cs : List Char) :
    getlineExtract ('\n' :: cs) = ([], cs) := by
  simp [getlineExtract]

theorem getlineExtract_cons_other (c : Char) (cs : List Char) (h : c ≠ '\n') :
    getlineExtract (c :: cs) = (c :: (getlineExtract cs).1, (getlineExtract cs).2) := by
  simp [getlineExtract, h]

theorem getlineExtract_fileLines (c : Char) (cs : List Char) :
    fileLines (c :: cs) =
      (getlineExtract (c :: cs)).1 :: fileLines (getlineExtract (c :: cs)).2 := by
  induction cs generalizing c with
  | nil =>
    by_cases hc : c = '\n'
    · subst hc
      rw [fileLines_cons_newline, getlineExtract_cons_newline]
    · rw [fileLines_cons_other c _ hc, getlineExtract_cons_other c _ hc]
      simp [fileLines, getlineExtract]
  | cons d ds ih =>
    by_cases hc : c = '\n'
    · subst hc
      rw [fileLines_cons_newline, getlineExtract_cons_newline]
    · rw [fileLines_cons_other c _ hc, getlineExtract_cons_other c _ hc, ih d]

theorem getlineExtract_length (c : Char) (cs : List Char) :
    (getlineExtract (c :: cs)).2.length ≤ cs.length := by
  induction cs generalizing c with
  | nil =>
    by_cases hc : c = '\n'
    · subst hc
      rw [getlineExtract_cons_newline]
    · rw [getlineExtract_cons_other c _ hc]
      simp [getlineExtract]
  | cons d ds ih =>
    by_cases hc : c = '\n'
    · subst hc
      rw [getlineExtract_cons_newline]
    · rw [getlineExtract_cons_other c _ hc]
      have := ih d
      simp only [List.length_cons]
      omega

theorem keeps_iff_not_beginsWithHash (path : List Char) :
    (path.length ≠ 0 ∧ path.head? = some '#') ↔ beginsWithHash path = true := by
  unfold beginsWithHash
  cases path with
  | nil => simp
  | cons first others => simp

/-- With enough fuel the loop of `getBitcodePaths` appends to the paths read so
far the lines of the rest of the stream that do not begin with `#`. -/
theorem getBitcodePathsLoop_eq :
    ∀ (fuel : Nat) (stream : List Char) (paths : List (List Char)), stream.length < fuel →
      getBitcodePathsLoop fuel stream paths =
        paths ++ (fileLines stream).filter (fun line => !beginsWithHash line) := by
  intro fuel
  induction fuel with
  | zero => intro stream paths h; omega
  | succ fuel ih =>
    intro stream paths h
    cases stream with
    | nil => simp [getBitcodePathsLoop, getline, fileLines]
    | cons c cs =>
      have hlen := getlineExtract_length c cs
      have hfuel : (getlineExtract (c :: cs)).2.length < fuel := by
        simp only [List.length_cons] at h
        omega
      unfold getBitcodePathsLoop
      simp only [getline]
      rw [getlineExtract_fileLines c cs]
      by_cases hhash : beginsWithHash (getlineExtract (c :: cs)).1 = true
      · rw [if_pos ((keeps_iff_not_beginsWithHash _).mpr hhash), ih _ _ hfuel]
        simp [hhash]
      · rw [if_neg (fun h => hhash ((keeps_iff_not_beginsWithHash _).mp h)), ih _ _ hfuel]
        simp [hhash]

/-- With enough fuel the loop of `getDynamicLibrariesPaths` throws when the rest
of the stream has an empty line, and otherwise does what the loop of
`getBitcodePaths` does. -/
theorem getDynamicLibrariesPathsLoop_eq :
    ∀ (fuel : Nat) (stream : List Char) (paths : List (List Char)), stream.length < fuel →
      getDynamicLibrariesPathsLoop fuel stream paths =
        if [] ∈ fileLines stream then none
        else some (paths ++ (fileLines stream).filter (fun line => !beginsWithHash line)) := by
  intro fuel
  induction fuel with
  | zero => intro stream paths h; omega
  | succ fuel ih =>
    intro stream paths h
    cases stream with
    | nil => simp [getDynamicLibrariesPathsLoop, getline, fileLines]
    | cons c cs =>
      have hlen := getlineExtract_length c cs
      have hfuel : (getlineExtract (c :: cs)).2.length < fuel := by
        simp only [List.length_cons] at h
        omega
      unfold getDynamicLibrariesPathsLoop
      simp only [getline]
      rw [getlineExtract_fileLines c cs]
      cases hpath : (getlineExtract (c :: cs)).1 with
      | nil => simp
      | cons first others =>
        simp only []
        by_cases hfirst : first = '#'
        · rw [if_pos hfirst, ih _ _ hfuel]
          simp [hfirst, beginsWithHash]
        · rw [if_neg hfirst, ih _ _ hfuel]
          simp [hfirst, beginsWithHash]

theorem fileLines_eq_nil (stream : List Char) : fileLines stream = [] ↔ stream = [] := by
  cases stream with
  | nil => simp [fileLines]
  | cons c cs =>
    rw [getlineExtract_fileLines]
    simp

/-- No line of a text holds a newline. -/
theorem fileLines_no_newline (stream : List Char) :
    ∀ line ∈ fileLines stream, '\n' ∉ line := by
  induction stream with
  | nil => intro line h; simp [fileLines] at h
  | cons c cs ih =>
    intro line h
    by_cases hc : c = '\n'
    · subst hc
      rw [fileLines_cons_newline] at h
      rcases List.mem_cons.mp h with h1 | h1
      · rw [h1]; simp
      · exact ih line h1
    · rw [fileLines_cons_other c cs hc] at h
      cases hrest : fileLines cs with
      | nil =>
        rw [hrest] at h
        simp only [List.mem_singleton] at h
        rw [h]
        simpa using fun h2 : '\n' = c => hc h2.symm
      | cons first others =>
        rw [hrest] at h
        simp only [List.mem_cons] at h
        rcases h with h1 | h1
        · rw [h1]
          intro hmem
          rcases List.mem_cons.mp hmem with h2 | h2
          · exact hc h2.symm
          · exact ih first (by rw [hrest]; exact List.mem_cons_self _ _) h2
        · exact ih line (by rw [hrest]; exact List.mem_cons_of_mem _ h1)

/-- Putting a newline after every line of a text gives the text back, with a
final newline added when the text does not end in one. -/
theorem fileLines_unlines (stream : List Char) :
    (fileLines stream).flatMap (fun line => line ++ ['\n']) =
      if stream = [] ∨ stream.getLast? = some '\n' then stream else stream ++ ['\n'] := by
  induction stream with
  | nil => simp [fileLines]
  | cons c cs ih =>
    by_cases hc : c = '\n'
    · subst hc
      rw [fileLines_cons_newline, List.flatMap_cons, ih]
      cases cs with
      | nil => simp
      | cons d ds =>
        simp only [List.nil_append, List.singleton_append, List.getLast?_cons_cons]
        by_cases hlast : (d :: ds).getLast? = some '\n'
        · simp [hlast]
        · simp [hlast]
    · rw [fileLines_cons_other c cs hc]
      cases hrest : fileLines cs with
      | nil =>
        have hcs := (fileLines_eq_nil cs).mp hrest
        subst hcs
        simp [hc]
      | cons first others =>
        have hne : cs ≠ [] := by
          intro h
          rw [h] at hrest
          simp [fileLines] at hrest
        rw [hrest] at ih
        simp only [List.flatMap_cons] at ih ⊢
        simp only [List.cons_append]
        rw [ih]
        cases cs with
        | nil => exact absurd rfl hne
        | cons d ds =>
          simp only [List.getLast?_cons_cons]
          by_cases hlast : (d :: ds).getLast? = some '\n'
          · simp [hlast]
          · simp [hlast]

/-! ## Instrumentation: the shape of the result -/

theorem injectLeave_eq_withLeave (leave : Instruction) (block block1 : BasicBlock)
    (h : injectLeave leave block = some block1) : block1 = withLeave leave block := by
  unfold injectLeave at h
  unfold withLeave
  cases hterm : block.getTerminator with
  | none => rw [hterm] at h; cases h
  | some terminator =>
    rw [hterm] at h
    simp only [] at h ⊢
    split at h
    · rename_i hret
      rw [if_pos hret]
      exact (Option.some.inj h).symm
    · rename_i hret
      rw [if_neg hret]
      exact (Option.some.inj h).symm

theorem injectLeaves_eq_map (leave : Instruction) :
    ∀ (blocks blocks1 : List BasicBlock), injectLeaves leave blocks = some blocks1 →
      blocks1 = blocks.map (withLeave leave) ∧
        ∀ block ∈ blocks, block.getTerminator ≠ none := by
  intro blocks
  induction blocks with
  | nil =>
    intro blocks1 h
    simp only [injectLeaves, Option.some.injEq] at h
    subst h
    simp
  | cons block rest ih =>
    intro blocks1 h
    unfold injectLeaves at h
    cases hb : injectLeave leave block with
    | none => rw [hb] at h; cases h
    | some block1 =>
      rw [hb] at h
      simp only [] at h
      cases hr : injectLeaves leave rest with
      | none => rw [hr] at h; cases h
      | some rest1 =>
        rw [hr] at h
        simp only [Option.some.injEq] at h
        subst h
        obtain ⟨i1, i2⟩ := ih rest1 hr
        obtain ⟨_, terminator, _, _, hterm, _⟩ := injectLeave_spec leave block block1 hb
        refine ⟨?_, ?_⟩
        · rw [List.map_cons, ← i1, ← injectLeave_eq_withLeave leave block block1 hb]
        · intro b hbmem
          rcases List.mem_cons.mp hbmem with h1 | h1
          · rw [h1, hterm]
            simp
          · exact i2 b h1

/-- The blocks of a function `injectIntoFunction` succeeded on. -/
theorem injectIntoFunction_blocks (parameters : List Value) (function function1 : LFunction)
    (h : injectIntoFunction parameters function = some function1) :
    ∃ entryBlock rest, function.blocks = entryBlock :: rest ∧
      entryBlock.instructions ≠ [] ∧
      (∀ block ∈ function.blocks, block.getTerminator ≠ none) ∧
      function1.blocks =
        ((BasicBlock.mk (Instruction.call "mull_enterFunction" parameters ::
            entryBlock.instructions)) :: rest).map
          (withLeave (Instruction.call "mull_leaveFunction" parameters)) := by
  unfold injectIntoFunction at h
  cases hblocks : function.blocks with
  | nil => rw [hblocks] at h; cases h
  | cons entryBlock rest =>
    rw [hblocks] at h
    simp only [] at h
    cases hentry : entryBlock.instructions with
    | nil => rw [hentry] at h; cases h
    | cons first others =>
      rw [hentry] at h
      simp only [] at h
      cases hleaves : injectLeaves (Instruction.call "mull_leaveFunction" parameters)
          ({ instructions :=
              Instruction.call "mull_enterFunction" parameters :: first :: others } :: rest) with
      | none => rw [hleaves] at h; cases h
      | some blocks =>
        rw [hleaves] at h
        simp only [Option.some.injEq] at h
        obtain ⟨hmap, hterm⟩ := injectLeaves_eq_map _ _ _ hleaves
        have hne : entryBlock.instructions ≠ [] := by rw [hentry]; simp
        refine ⟨entryBlock, rest, rfl, hne, ?_, ?_⟩
        · intro block hmem
          rcases List.mem_cons.mp hmem with h1 | h1
          · have := hterm _ (List.mem_cons_self _ _)
            rw [← hentry, getTerminator_cons _ _ hne] at this
            rw [h1]
            exact this
          · exact hterm block (List.mem_cons_of_mem _ h1)
        · rw [← h, hmap, hentry]

theorem withLeave_of_return (leave : Instruction) (block : BasicBlock) (r : Instruction)
    (hterm : block.getTerminator = some r) (hret : r.isReturn = true) :
    (withLeave leave block).instructions = block.instructions.dropLast ++ [leave, r] := by
  unfold withLeave
  rw [hterm]
  simp [hret]

theorem withLeave_of_not_return (leave : Instruction) (block : BasicBlock)
    (h : block.endsInReturn = false) : withLeave leave block = block := by
  unfold withLeave
  unfold BasicBlock.endsInReturn at h
  cases hterm : block.getTerminator with
  | none => rfl
  | some terminator =>
    rw [hterm] at h
    simp only [] at h ⊢
    rw [if_neg (by simp [h])]

theorem getTerminator_eq_some (block : BasicBlock) (terminator : Instruction)
    (h : block.getTerminator = some terminator) :
    terminator.isTerminator = true ∧
      block.instructions = block.instructions.dropLast ++ [terminator] := by
  unfold BasicBlock.getTerminator at h
  cases hlast : block.instructions.getLast? with
  | none => rw [hlast] at h; cases h
  | some last =>
    rw [hlast] at h
    simp only [] at h
    split at h
    · rename_i histerm
      cases h
      obtain ⟨init, hinit⟩ := List.getLast?_eq_some_iff.mp hlast
      refine ⟨histerm, ?_⟩
      rw [hinit]
      simp
    · cases h

theorem getTerminator_withLeave (leave : Instruction) (block : BasicBlock) :
    (withLeave leave block).getTerminator = block.getTerminator := by
  cases hterm : block.getTerminator with
  | none =>
    unfold withLeave
    rw [hterm]
    exact hterm
  | some terminator =>
    obtain ⟨histerm, _⟩ := getTerminator_eq_some block terminator hterm
    by_cases hret : terminator.isReturn = true
    · have hshape := withLeave_of_return leave block terminator hterm hret
      have : withLeave leave block =
          BasicBlock.mk ((block.instructions.dropLast ++ [leave]) ++ [terminator]) := by
        cases hw : withLeave leave block
        rw [hw] at hshape
        simp only [BasicBlock.mk.injEq]
        simpa using hshape
      rw [this]
      exact getTerminator_append_singleton _ _ histerm
    · have hends : block.endsInReturn = false := by
        unfold BasicBlock.endsInReturn
        rw [hterm]
        simpa using hret
      rw [withLeave_of_not_return leave block hends]
      exact hterm

theorem isReturn_isTerminator (instruction : Instruction) (h : instruction.isReturn = true) :
    instruction.isTerminator = true := by
  cases instruction <;> simp_all [Instruction.isReturn, Instruction.isTerminator]

/-- In a list that ends in `last` and has no return before it, a return can only
be `last`. -/
theorem return_is_last (init pre post : List Instruction) (last r : Instruction)
    (hinit : ∀ i ∈ init, i.isReturn = false) (hret : r.isReturn = true)
    (h : pre ++ r :: post = init ++ [last]) : post = [] ∧ pre = init ∧ r = last := by
  cases post with
  | nil =>
    have h1 : pre ++ [r] = init ++ [last] := h
    have h2 := List.append_inj' h1 rfl
    exact ⟨rfl, h2.1, by simpa using h2.2⟩
  | cons p ps =>
    exfalso
    have hdrop := congrArg List.dropLast h
    rw [List.dropLast_concat] at hdrop
    have hmem : r ∈ init := by
      rw [← hdrop]
      have : (pre ++ r :: p :: ps).dropLast = pre ++ (r :: p :: ps).dropLast := by
        rw [List.dropLast_append_of_ne_nil]
        simp
      rw [this]
      simp [List.dropLast]
    have := hinit r hmem
    rw [hret] at this
    cases this

theorem get?_append_cases (a : LFunction) :
    ∀ (xs ys : List LFunction) (n : Nat), (xs ++ ys).get? n = some a →
      xs.get? n = some a ∨ a ∈ ys := by
  intro xs
  induction xs with
  | nil =>
    intro ys n h
    exact Or.inr (List.get?_mem h)
  | cons x rest ih =>
    intro ys n h
    cases n with
    | zero => exact Or.inl h
    | succ n => exact ih ys n h

theorem get?_append_of_get? (a : LFunction) :
    ∀ (xs ys : List LFunction) (n : Nat), xs.get? n = some a →
      (xs ++ ys).get? n = some a := by
  intro xs
  induction xs with
  | nil => intro ys n h; cases n <;> cases h
  | cons x rest ih =>
    intro ys n h
    cases n with
    | zero => exact h
    | succ n => exact ih ys n h

/-- A successful `injectCallbacks` rewrote the function that the module had at
`position`, with `injectIntoFunction`. -/
theorem injectCallbacks_original (driverAddress pointerWidth : Nat) (module module1 : LModule)
    (position index : Nat)
    (h : injectCallbacks driverAddress pointerWidth module position index = some module1) :
    ∃ (function function1 : LFunction),
      module.functions.get? position = some function ∧
      module1.functions.get? position = some function1 ∧
      injectIntoFunction (callbackParameters driverAddress pointerWidth index) function =
        some function1 := by
  unfold injectCallbacks at h
  simp only [] at h
  have hbase : (if ((module.getFunction "mull_enterFunction").isNone &&
      (module.getFunction "mull_leaveFunction").isNone) = true then
        createCallback (createCallback module "mull_enterFunction") "mull_leaveFunction"
      else module) = module ∨
      (if ((module.getFunction "mull_enterFunction").isNone &&
      (module.getFunction "mull_leaveFunction").isNone) = true then
        createCallback (createCallback module "mull_enterFunction") "mull_leaveFunction"
      else module) =
        createCallback (createCallback module "mull_enterFunction") "mull_leaveFunction" := by
    split
    · exact Or.inr rfl
    · exact Or.inl rfl
  generalize (if ((module.getFunction "mull_enterFunction").isNone &&
      (module.getFunction "mull_leaveFunction").isNone) = true then
        createCallback (createCallback module "mull_enterFunction") "mull_leaveFunction"
      else module) = base at h hbase
  by_cases henter : (base.getFunction "mull_enterFunction").isNone = true
  · rw [if_pos henter] at h
    cases h
  · rw [if_neg henter] at h
    by_cases hleave : (base.getFunction "mull_leaveFunction").isNone = true
    · rw [if_pos hleave] at h
      cases h
    · rw [if_neg hleave] at h
      cases hget : base.functions.get? position with
      | none => rw [hget] at h; cases h
      | some function =>
        rw [hget] at h
        simp only [] at h
        cases hinject : injectIntoFunction
            (callbackParameters driverAddress pointerWidth index) function with
        | none => rw [hinject] at h; cases h
        | some function1 =>
          rw [hinject] at h
          simp only [Option.some.injEq] at h
          have hget1 : module1.functions.get? position = some function1 := by
            rw [← h]
            exact get?_set_self function function1 base.functions position hget
          refine ⟨function, function1, ?_, hget1, hinject⟩
          rcases hbase with hb | hb
          · rw [← hb]
            exact hget
          · rw [hb] at hget
            simp only [createCallback, List.append_assoc] at hget
            rcases get?_append_cases function _ _ position hget with h1 | h1
            · exact h1
            · exfalso
              obtain ⟨entryBlock, rest, hblocks, _⟩ := injectIntoFunction_blocks _ _ _ hinject
              simp only [List.cons_append, List.nil_append, List.mem_cons, List.mem_singleton,
                List.not_mem_nil, or_false] at h1
              rcases h1 with h2 | h2 <;> rw [h2] at hblocks <;> cases hblocks

theorem injectIntoFunction_of_terminators (parameters : List Value) (function : LFunction)
    (hblocks : function.blocks ≠ [])
    (hterm : ∀ block ∈ function.blocks, block.getTerminator ≠ none) :
    ∃ function1, injectIntoFunction parameters function = some function1 := by
  unfold injectIntoFunction
  cases hb : function.blocks with
  | nil => exact absurd hb hblocks
  | cons entryBlock rest =>
    simp only []
    rw [hb] at hterm
    have hterm0 := hterm entryBlock (List.mem_cons_self _ _)
    have hne := getTerminator_ne_none_instructions entryBlock hterm0
    cases hentry : entryBlock.instructions with
    | nil => exact absurd hentry hne
    | cons first others =>
      simp only []
      have hall : ∀ block ∈ (BasicBlock.mk
          (Instruction.call "mull_enterFunction" parameters :: first :: others)) :: rest,
          block.getTerminator ≠ none := by
        intro block hmem
        rcases List.mem_cons.mp hmem with h1 | h1
        · rw [h1, ← hentry, getTerminator_cons _ _ hne]
          exact hterm0
        · exact hterm block (List.mem_cons_of_mem _ h1)
      obtain ⟨blocks1, hblocks1⟩ := injectLeaves_of_terminators
        (Instruction.call "mull_leaveFunction" parameters) _ hall
      rw [hblocks1]
      exact ⟨_, rfl⟩

/-- `injectCallbacks` succeeds on a module that declares both callbacks or
neither, for a function with at least one block all of whose blocks have a
terminator. -/
theorem injectCallbacks_succeeds (driverAddress pointerWidth : Nat) (module : LModule)
    (position index : Nat) (function : LFunction)
    (hstubs : (module.getFunction "mull_enterFunction").isSome =
      (module.getFunction "mull_leaveFunction").isSome)
    (hget : module.functions.get? position = some function)
    (hblocks : function.blocks ≠ [])
    (hterm : ∀ block ∈ function.blocks, block.getTerminator ≠ none) :
    ∃ module1, injectCallbacks driverAddress pointerWidth module position index =
      some module1 := by
  obtain ⟨function1, hinject⟩ := injectIntoFunction_of_terminators
    (callbackParameters driverAddress pointerWidth index) function hblocks hterm
  unfold injectCallbacks
  simp only []
  cases henter : module.getFunction "mull_enterFunction" with
  | none =>
    rw [henter] at hstubs
    have hleave : module.getFunction "mull_leaveFunction" = none := by
      cases hl : module.getFunction "mull_leaveFunction" with
      | none => rfl
      | some x => rw [hl] at hstubs; cases hstubs
    have hfindE : List.find? (fun f : LFunction => f.name == "mull_enterFunction")
        module.functions = none := henter
    have hfindL : List.find? (fun f : LFunction => f.name == "mull_leaveFunction")
        module.functions = none := hleave
    have hgetbase : (createCallback (createCallback module "mull_enterFunction")
        "mull_leaveFunction").functions.get? position = some function := by
      simp only [createCallback, List.append_assoc]
      exact get?_append_of_get? function _ _ position hget
    simp only [hleave, Option.isNone_none, Bool.and_self, if_true, hgetbase, hinject]
    have h1 : ((createCallback (createCallback module "mull_enterFunction")
        "mull_leaveFunction").getFunction "mull_enterFunction").isNone = false := by
      simp only [LModule.getFunction, createCallback, List.find?_append, hfindE]
      rfl
    have h2 : ((createCallback (createCallback module "mull_enterFunction")
        "mull_leaveFunction").getFunction "mull_leaveFunction").isNone = false := by
      simp only [LModule.getFunction, createCallback, List.find?_append, hfindL]
      rfl
    simp only [h1, h2, Bool.false_eq_true, if_false]
    exact ⟨_, rfl⟩
  | some enterFunction =>
    rw [henter] at hstubs
    cases hleave : module.getFunction "mull_leaveFunction" with
    | none => rw [hleave] at hstubs; cases hstubs
    | some leaveFunction =>
      simp only [Option.isNone_some, Bool.and_self, Bool.false_eq_true, if_false, henter,
        hleave, hget, hinject]
      exact ⟨_, rfl⟩

theorem withLeave_head (leave first : Instruction) (others : List Instruction)
    (hne : others ≠ []) :
    (withLeave leave (BasicBlock.mk (first :: others))).instructions.head? = some first := by
  unfold withLeave
  cases hterm : (BasicBlock.mk (first :: others)).getTerminator with
  | none => rfl
  | some terminator =>
    simp only []
    split
    · cases others with
      | nil => exact absurd rfl hne
      | cons second more => simp [List.dropLast]
    · rfl

/-- Every block of the instrumented function is a block of the function with the
enter call put first in the entry block, with the leave call put before its
terminator when that is a return. -/
theorem mem_instrumented_blocks (parameters : List Value) (function function1 : LFunction)
    (h : injectIntoFunction parameters function = some function1) (block1 : BasicBlock)
    (hmem : block1 ∈ function1.blocks) :
    ∃ block prepended, block ∈ function.blocks ∧
      (prepended = block.instructions ∨
        prepended = Instruction.call "mull_enterFunction" parameters :: block.instructions) ∧
      block.instructions ≠ [] ∧
      (BasicBlock.mk prepended).getTerminator = block.getTerminator ∧
      block.getTerminator ≠ none ∧
      block1 = withLeave (Instruction.call "mull_leaveFunction" parameters)
        (BasicBlock.mk prepended) := by
  obtain ⟨entryBlock, rest, hblocks, hne, hterm, hshape⟩ :=
    injectIntoFunction_blocks parameters function function1 h
  rw [hshape, List.map_cons] at hmem
  rcases List.mem_cons.mp hmem with h1 | h1
  · refine ⟨entryBlock, _, by rw [hblocks]; exact List.mem_cons_self _ _, Or.inr rfl, hne,
      getTerminator_cons _ _ hne, hterm entryBlock (by rw [hblocks]; exact List.mem_cons_self _ _),
      h1⟩
  · obtain ⟨block, hblock, heq⟩ := List.mem_map.mp h1
    have hin : block ∈ function.blocks := by
      rw [hblocks]
      exact List.mem_cons_of_mem _ hblock
    exact ⟨block, block.instructions, hin, Or.inl rfl,
      getTerminator_ne_none_instructions block (hterm block hin), rfl, hterm block hin,
      heq.symm⟩

/-! ## Test runners: the calls they make -/

theorem runStaticCtors_spec (jit : Jit) (ctors : List String) :
    ∀ (events : List RunnerEvent),
      (∃ called : List String, (runStaticCtors jit ctors events).1 =
          events ++ called.map RunnerEvent.callCtor) ∧
        ((runStaticCtors jit ctors events).2 = true ↔
          ∀ ctor ∈ ctors, jit.findSymbol (jit.getNameWithPrefix ctor) ≠ 0) := by
  induction ctors with
  | nil =>
    intro events
    exact ⟨⟨[], by simp [runStaticCtors]⟩, by simp [runStaticCtors]⟩
  | cons ctor rest ih =>
    intro events
    unfold runStaticCtors
    by_cases hnull : jit.findSymbol (jit.getNameWithPrefix ctor) = 0
    · simp only [getFunctionPointer, hnull, if_true]
      refine ⟨⟨[], by simp⟩, ?_⟩
      constructor
      · intro h
        cases h
      · intro h
        exact absurd hnull (h ctor (List.mem_cons_self _ _))
    · simp only [getFunctionPointer, hnull, if_false]
      obtain ⟨⟨called, hcalled⟩, hok⟩ := ih (events ++ [RunnerEvent.callCtor ctor])
      refine ⟨⟨ctor :: called, by rw [hcalled]; simp⟩, ?_⟩
      rw [hok]
      constructor
      · intro h c hc
        rcases List.mem_cons.mp hc with h1 | h1
        · rw [h1]
          exact hnull
        · exact h c h1
      · intro h c hc
        exact h c (List.mem_cons_of_mem _ hc)

/-- The two ways `GoogleTestRunner::runTest` can go: a name it looks up is not
found and it leaves through `exit(1)` without draining the destructors or
removing the object set; or every name is found and it returns after the calls
of init, of the instance getter and of run, the drain and the removal. -/
theorem GoogleTest_runTest_shape (jit : Jit) (test : GoogleTest_Test) (objectFiles : List Nat) :
    ((∃ name ∈ GoogleTestRunner.lookups jit test, jit.findSymbol name = 0) →
        (GoogleTestRunner.runTest jit test objectFiles).outcome = RunnerOutcome.exited 1 ∧
        RunnerEvent.runDestructors ∉ (GoogleTestRunner.runTest jit test objectFiles).events ∧
        RunnerEvent.removeObjectSet ∉ (GoogleTestRunner.runTest jit test objectFiles).events ∧
        (GoogleTestRunner.runTest jit test objectFiles).events.head? =
          some (RunnerEvent.addObjectSet objectFiles)) ∧
      ((∀ name ∈ GoogleTestRunner.lookups jit test, jit.findSymbol name ≠ 0) →
        ∃ called : List String,
          (GoogleTestRunner.runTest jit test objectFiles).events =
            RunnerEvent.addObjectSet objectFiles :: (called.map RunnerEvent.callCtor ++
              [RunnerEvent.callInit 2 ["mull", "--gtest_filter=" ++ test.testName],
               RunnerEvent.callGetInstance, RunnerEvent.callRun,
               RunnerEvent.runDestructors, RunnerEvent.removeObjectSet]) ∧
          (GoogleTestRunner.runTest jit test objectFiles).outcome =
            RunnerOutcome.returned
              (if toUInt64 jit.returnValue = 0 then ExecutionStatus.Passed
               else ExecutionStatus.Failed)) := by
  obtain ⟨⟨called, hcalled⟩, hok⟩ :=
    runStaticCtors_spec jit test.globalCtors [RunnerEvent.addObjectSet objectFiles]
  simp only [GoogleTestRunner.runTest]
  generalize runStaticCtors jit test.globalCtors [RunnerEvent.addObjectSet objectFiles] = r
    at hcalled hok ⊢
  rcases r with ⟨events, ok⟩
  simp only at hcalled hok
  subst hcalled
  have hno1 : RunnerEvent.runDestructors ∉
      [RunnerEvent.addObjectSet objectFiles] ++ called.map RunnerEvent.callCtor := by simp
  have hno2 : RunnerEvent.removeObjectSet ∉
      [RunnerEvent.addObjectSet objectFiles] ++ called.map RunnerEvent.callCtor := by simp
  refine ⟨?_, ?_⟩
  · rintro ⟨name, hname, hzero⟩
    cases ok with
    | false => exact ⟨rfl, hno1, hno2, by simp⟩
    | true =>
      have hctors := hok.mp rfl
      simp only []
      by_cases h1 : jit.findSymbol
          (jit.getNameWithPrefix "_ZN7testing14InitGoogleTestEPiPPc") = 0
      · simp [getFunctionPointer, h1]
      · by_cases h2 : jit.findSymbol
            (jit.getNameWithPrefix "_ZN7testing8UnitTest11GetInstanceEv") = 0
        · simp [getFunctionPointer, h1, h2]
        · by_cases h3 : jit.findSymbol
              (jit.getNameWithPrefix "_ZN7testing8UnitTest3RunEv") = 0
          · simp [getFunctionPointer, h1, h2, h3]
          · exfalso
            simp only [GoogleTestRunner.lookups, List.mem_append, List.mem_map, List.mem_cons,
              List.mem_singleton, List.not_mem_nil, or_false] at hname
            rcases hname with ⟨ctor, hctor, heq⟩ | heq | heq | heq
            · rw [← heq] at hzero
              exact hctors ctor hctor hzero
            · rw [heq] at hzero
              exact h1 hzero
            · rw [heq] at hzero
              exact h2 hzero
            · rw [heq] at hzero
              exact h3 hzero
  · intro hall
    have hctors : ok = true := by
      apply hok.mpr
      intro ctor hctor
      apply hall
      simp only [GoogleTestRunner.lookups, List.mem_append, List.mem_map]
      exact Or.inl ⟨ctor, hctor, rfl⟩
    have h1 : jit.findSymbol
        (jit.getNameWithPrefix "_ZN7testing14InitGoogleTestEPiPPc") ≠ 0 :=
      hall _ (by simp [GoogleTestRunner.lookups])
    have h2 : jit.findSymbol
        (jit.getNameWithPrefix "_ZN7testing8UnitTest11GetInstanceEv") ≠ 0 :=
      hall _ (by simp [GoogleTestRunner.lookups])
    have h3 : jit.findSymbol (jit.getNameWithPrefix "_ZN7testing8UnitTest3RunEv") ≠ 0 :=
      hall _ (by simp [GoogleTestRunner.lookups])
    subst hctors
    refine ⟨called, ?_, ?_⟩
    · by_cases hz : toUInt64 jit.returnValue = 0 <;> simp [getFunctionPointer, h1, h2, h3, hz]
    · by_cases hz : toUInt64 jit.returnValue = 0 <;> simp [getFunctionPointer, h1, h2, h3, hz]

/-- The two ways `CustomTestRunner::runTest` can go: a name it looks up is not
found and it leaves through `exit(1)` without draining the destructors or
removing the object set; or every name is found and it returns after the call
of `main`, the drain and the removal. -/
theorem CustomTest_runTest_shape (jit : Jit) (test : CustomTest_Test) (objectFiles : List Nat) :
    ((∃ name ∈ CustomTestRunner.lookups jit test, jit.findSymbol name = 0) →
        (CustomTestRunner.runTest jit test objectFiles).outcome = RunnerOutcome.exited 1 ∧
        RunnerEvent.runDestructors ∉ (CustomTestRunner.runTest jit test objectFiles).events ∧
        RunnerEvent.removeObjectSet ∉ (CustomTestRunner.runTest jit test objectFiles).events ∧
        (CustomTestRunner.runTest jit test objectFiles).events.head? =
          some (RunnerEvent.addObjectSet objectFiles)) ∧
      ((∀ name ∈ CustomTestRunner.lookups jit test, jit.findSymbol name ≠ 0) →
        ∃ called : List String,
          (CustomTestRunner.runTest jit test objectFiles).events =
            RunnerEvent.addObjectSet objectFiles :: (called.map RunnerEvent.callCtor ++
              [RunnerEvent.callMain ((test.programName :: test.arguments).length : Nat)
                ((test.programName :: test.arguments).map (fun argument => some (strcpy argument)) ++
                  [none]),
               RunnerEvent.runDestructors, RunnerEvent.removeObjectSet]) ∧
          (CustomTestRunner.runTest jit test objectFiles).outcome =
            RunnerOutcome.returned
              (if jit.returnValue = 0 then ExecutionStatus.Passed
               else ExecutionStatus.Failed)) := by
  obtain ⟨⟨called, hcalled⟩, hok⟩ :=
    runStaticCtors_spec jit test.constructors [RunnerEvent.addObjectSet objectFiles]
  simp only [CustomTestRunner.runTest]
  generalize runStaticCtors jit test.constructors [RunnerEvent.addObjectSet objectFiles] = r
    at hcalled hok ⊢
  rcases r with ⟨events, ok⟩
  simp only at hcalled hok
  subst hcalled
  have hno1 : RunnerEvent.runDestructors ∉
      [RunnerEvent.addObjectSet objectFiles] ++ called.map RunnerEvent.callCtor := by simp
  have hno2 : RunnerEvent.removeObjectSet ∉
      [RunnerEvent.addObjectSet objectFiles] ++ called.map RunnerEvent.callCtor := by simp
  refine ⟨?_, ?_⟩
  · rintro ⟨name, hname, hzero⟩
    cases ok with
    | false => exact ⟨rfl, hno1, hno2, by simp⟩
    | true =>
      have hctors := hok.mp rfl
      simp only []
      by_cases h1 : jit.findSymbol (jit.getNameWithPrefix "main") = 0
      · simp [getFunctionPointer, h1]
      · exfalso
        simp only [CustomTestRunner.lookups, List.mem_append, List.mem_map,
          List.mem_singleton] at hname
        rcases hname with ⟨ctor, hctor, heq⟩ | heq
        · rw [← heq] at hzero
          exact hctors ctor hctor hzero
        · rw [heq] at hzero
          exact h1 hzero
  · intro hall
    have hctors : ok = true := by
      apply hok.mpr
      intro ctor hctor
      apply hall
      simp only [CustomTestRunner.lookups, List.mem_append, List.mem_map]
      exact Or.inl ⟨ctor, hctor, rfl⟩
    have h1 : jit.findSymbol (jit.getNameWithPrefix "main") ≠ 0 :=
      hall _ (by simp [CustomTestRunner.lookups])
    subst hctors
    refine ⟨called, ?_, ?_⟩
    · by_cases hz : jit.returnValue = 0 <;> simp [getFunctionPointer, h1, hz]
    · by_cases hz : jit.returnValue = 0 <;> simp [getFunctionPointer, h1, hz]

theorem CPPUnit_runStaticCtors_eq (jit : Jit) (ctors : List String) :
    ∀ (events : List RunnerEvent),
      CPPUnitRunner.runStaticCtors jit ctors events = runStaticCtors jit ctors events := by
  induction ctors with
  | nil => intro events; rfl
  | cons ctor rest ih =>
    intro events
    unfold CPPUnitRunner.runStaticCtors runStaticCtors
    by_cases hnull : jit.findSymbol (jit.getNameWithPrefix ctor) = 0
    · simp [CPPUnitRunner.FunctionPointer, getFunctionPointer, hnull]
    · simp only [CPPUnitRunner.FunctionPointer, getFunctionPointer, hnull, if_false]
      exact ih _

/-- The two ways `CPPUnitRunner::runTest` can go: a name it looks up is not found
and the assertion of `FunctionPointer` fails before `UnitTest::Run` is called;
or every name is found and it returns after the calls of init, of the instance
getter and of run, the drain and the removal. -/
theorem CPPUnit_runTest_shape (jit : Jit) (test : GoogleTest_Test) (objectFiles : List Nat) :
    ((∃ name ∈ CPPUnitRunner.lookups jit test, jit.findSymbol name = 0) →
        (CPPUnitRunner.runTest jit test objectFiles).outcome = RunnerOutcome.assertionFailed) ∧
      ((∀ name ∈ CPPUnitRunner.lookups jit test, jit.findSymbol name ≠ 0) →
        ∃ called : List String,
          (CPPUnitRunner.runTest jit test objectFiles).events =
            RunnerEvent.addObjectSet objectFiles :: (called.map RunnerEvent.callCtor ++
              [RunnerEvent.callInit 2 ["mull", "--gtest_filter=" ++ test.testName],
               RunnerEvent.callGetInstance, RunnerEvent.callRun,
               RunnerEvent.runDestructors, RunnerEvent.removeObjectSet]) ∧
          (CPPUnitRunner.runTest jit test objectFiles).outcome =
            RunnerOutcome.returned
              (if toUInt64 jit.returnValue = 0 then ExecutionStatus.Passed
               else ExecutionStatus.Failed)) := by
  obtain ⟨⟨called, hcalled⟩, hok⟩ :=
    runStaticCtors_spec jit test.globalCtors [RunnerEvent.addObjectSet objectFiles]
  simp only [CPPUnitRunner.runTest, CPPUnit_runStaticCtors_eq]
  generalize runStaticCtors jit test.globalCtors [RunnerEvent.addObjectSet objectFiles] = r
    at hcalled hok ⊢
  rcases r with ⟨events, ok⟩
  simp only at hcalled hok
  subst hcalled
  refine ⟨?_, ?_⟩
  · rintro ⟨name, hname, hzero⟩
    cases ok with
    | false => rfl
    | true =>
      have hctors := hok.mp rfl
      simp only []
      by_cases h1 : jit.findSymbol "__ZN7testing14InitCPPUnitEPiPPc" = 0
      · simp [CPPUnitRunner.FunctionPointer, h1]
      · by_cases h2 : jit.findSymbol "__ZN7testing8UnitTest11GetInstanceEv" = 0
        · simp [CPPUnitRunner.FunctionPointer, h1, h2]
        · by_cases h3 : jit.findSymbol "__ZN7testing8UnitTest3RunEv" = 0
          · simp [CPPUnitRunner.FunctionPointer, h1, h2, h3]
          · exfalso
            simp only [CPPUnitRunner.lookups, List.mem_append, List.mem_map, List.mem_cons,
              List.mem_singleton, List.not_mem_nil, or_false] at hname
            rcases hname with ⟨ctor, hctor, heq⟩ | heq | heq | heq
            · rw [← heq] at hzero
              exact hctors ctor hctor hzero
            · rw [heq] at hzero
              exact h1 hzero
            · rw [heq] at hzero
              exact h2 hzero
            · rw [heq] at hzero
              exact h3 hzero
  · intro hall
    have hctors : ok = true := by
      apply hok.mpr
      intro ctor hctor
      apply hall
      simp only [CPPUnitRunner.lookups, List.mem_append, List.mem_map]
      exact Or.inl ⟨ctor, hctor, rfl⟩
    have h1 : jit.findSymbol "__ZN7testing14InitCPPUnitEPiPPc" ≠ 0 :=
      hall _ (by simp [CPPUnitRunner.lookups])
    have h2 : jit.findSymbol "__ZN7testing8UnitTest11GetInstanceEv" ≠ 0 :=
      hall _ (by simp [CPPUnitRunner.lookups])
    have h3 : jit.findSymbol "__ZN7testing8UnitTest3RunEv" ≠ 0 :=
      hall _ (by simp [CPPUnitRunner.lookups])
    subst hctors
    refine ⟨called, ?_, ?_⟩
    · by_cases hz : toUInt64 jit.returnValue = 0 <;>
        simp [CPPUnitRunner.FunctionPointer, h1, h2, h3, hz]
    · by_cases hz : toUInt64 jit.returnValue = 0 <;>
        simp [CPPUnitRunner.FunctionPointer, h1, h2, h3, hz]

/-! ## The list of mutation points -/

theorem answersFrom_append (env : Collaborators) :
    ∀ (first second history : List Testee),
      answersFrom env history (first ++ second) =
        answersFrom env history first ++ answersFrom env (history ++ first) second := by
  intro first
  induction first with
  | nil => intro second history; simp [answersFrom]
  | cons testee rest ih =>
    intro second history
    rw [List.cons_append]
    simp only [answersFrom]
    rw [ih, List.append_assoc, List.append_assoc, List.singleton_append]

theorem collectMutationPoints_points (env : Collaborators) (test : Nat) :
    ∀ (testees : List Testee) (state : RunState),
      (collectMutationPoints env test testees state).allMutationPoints =
        state.allMutationPoints ++ answersFrom env state.queries testees := by
  intro testees
  induction testees with
  | nil => intro state; simp [collectMutationPoints, answersFrom]
  | cons testee rest ih =>
    intro state
    unfold collectMutationPoints
    simp only []
    rw [ih]
    simp only [answersFrom, List.append_assoc]

/-- The list `allMutationPoints` holds the finder's answers to the queries put so
far, in order: the loop over the found tests keeps it so. -/
theorem runOriginalTest_points (cfg : Config) (env : Collaborators) (objectFiles : List Nat)
    (test : Nat) (state : RunState)
    (hstate : state.allMutationPoints = answersFrom env [] state.queries) :
    (runOriginalTest cfg env objectFiles test state).allMutationPoints =
      answersFrom env [] (runOriginalTest cfg env objectFiles test state).queries := by
  unfold runOriginalTest
  simp only []
  split
  · exact hstate
  · split
    · exact hstate
    · rename_i first rest _
      rw [collectMutationPoints_points, (collectMutationPoints_spec env test rest _).2.1]
      simp only []
      rw [answersFrom_append, hstate, List.nil_append]

theorem runOriginalTests_points (cfg : Config) (env : Collaborators) (objectFiles : List Nat) :
    ∀ (tests : List Nat) (state : RunState),
      state.allMutationPoints = answersFrom env [] state.queries →
      (runOriginalTests cfg env objectFiles tests state).allMutationPoints =
        answersFrom env [] (runOriginalTests cfg env objectFiles tests state).queries := by
  intro tests
  induction tests with
  | nil => intro state hstate; exact hstate
  | cons test rest ih =>
    intro state hstate
    unfold runOriginalTests
    exact ih _ (runOriginalTest_points cfg env objectFiles test state hstate)

theorem originalPhase_points (cfg : Config) (env : Collaborators) :
    (originalPhase cfg env).allMutationPoints =
      answersFrom env [] (originalPhase cfg env).queries := by
  obtain ⟨_, _, _, _, hqueries, hpoints, _⟩ := loadPhase_spec env
  unfold originalPhase
  simp only []
  split
  · simp only [hqueries, hpoints, answersFrom]
  · split
    · simp only [hqueries, hpoints, answersFrom]
    · apply runOriginalTests_points
      rw [loadDynamicLibraries_eq]
      simp only [hqueries, hpoints, answersFrom]

theorem Run_points (cfg : Config) (env : Collaborators) :
    (Driver.Run cfg env).allMutationPoints =
      answersFrom env [] (Driver.Run cfg env).queries := by
  unfold Driver.Run
  simp only []
  split
  · exact originalPhase_points cfg env
  · obtain ⟨_, hqueries, hpoints, _⟩ :=
      runMutants_spec cfg env (originalPhase cfg env).allMutationPoints 0 (originalPhase cfg env)
    rw [hqueries, hpoints]
    exact originalPhase_points cfg env

/-! ## The mutant loop, run by run -/

theorem mutantRuns_append (xs ys : List Event) :
    mutantRuns (xs ++ ys) = mutantRuns xs ++ mutantRuns ys := by
  induction xs with
  | nil => rfl
  | cons e rest ih =>
    cases e with
    | sandboxRun request =>
      cases hmutant : request.mutant <;> simp [mutantRuns, hmutant, ih]
    | injectCallbacks m f i => simp [mutantRuns, ih]
    | createTestees test => simp [mutantRuns, ih]
    | getMutationPoints test testee => simp [mutantRuns, ih]

/-- When the loop over the reachable tests of a mutation point ends without a
failed assertion, it has appended exactly one result per reachable test, in
order, none of them `Invalid`, and (outside dry-run mode) made exactly one
mutant run per reachable test. -/
theorem runReachableTests_exact (cfg : Config) (env : Collaborators) (mutationPoint : Nat)
    (objects : List Nat) :
    ∀ (reachable : List (Nat × Int)) (state : RunState),
      (runReachableTests cfg env mutationPoint objects reachable state).aborted = false →
      (∃ added, (runReachableTests cfg env mutationPoint objects reachable state).mutationResults =
          state.mutationResults ++ added ∧
        added.map (fun r => (r.mutationPoint, r.test)) =
          reachable.map (fun r => (mutationPoint, r.1)) ∧
        ∀ r ∈ added, r.result.status ≠ ExecutionStatus.Invalid) ∧
      mutantRuns (runReachableTests cfg env mutationPoint objects reachable state).trace =
        mutantRuns state.trace ++
          (if cfg.dryRun = true then [] else reachable.map (fun r => (mutationPoint, r.1))) := by
  intro reachable
  induction reachable with
  | nil =>
    intro state _
    exact ⟨⟨[], by simp [runReachableTests], rfl, by simp⟩, by simp [runReachableTests]⟩
  | cons reachableTest rest ih =>
    intro state
    unfold runReachableTests
    simp only []
    by_cases hdry : cfg.dryRun = true
    · rw [if_pos hdry]
      intro haborted
      let first : MutationResult :=
        ⟨{ ExecutionResult.defaultInit (env.garbage state.mutationResults.length) with
            status := ExecutionStatus.DryRun,
            runningTime := wrapInt64 ((state.tests reachableTest.1).runningTime * 10) },
          mutationPoint, reachableTest.2, reachableTest.1⟩
      obtain ⟨⟨added, hadded, hkeys, hvalid⟩, hruns⟩ := ih _ haborted
      refine ⟨⟨first :: added, ?_, ?_, ?_⟩, ?_⟩
      · rw [hadded, List.append_assoc, List.singleton_append]
      · rw [List.map_cons, List.map_cons, hkeys]
      · intro r hr
        rcases List.mem_cons.mp hr with hr1 | hr1
        · subst hr1
          simp [first]
        · exact hvalid r hr1
      · rw [hruns, if_pos hdry, if_pos hdry]
    · rw [if_neg hdry]
      by_cases hinvalid : (env.sandbox state.runs
          { mutant := some mutationPoint, test := reachableTest.1, objectFiles := objects,
            timeout := max 30 (wrapInt64 ((state.tests reachableTest.1).runningTime * 10)),
            callTreeMapping := state.driver.callTreeMapping.getD [],
            callstack := state.driver.callstack }).result.status = ExecutionStatus.Invalid
      · rw [if_pos hinvalid]
        intro haborted
        cases haborted
      · rw [if_neg hinvalid]
        intro haborted
        let first : MutationResult :=
          ⟨(env.sandbox state.runs
            { mutant := some mutationPoint, test := reachableTest.1, objectFiles := objects,
              timeout := max 30 (wrapInt64 ((state.tests reachableTest.1).runningTime * 10)),
              callTreeMapping := state.driver.callTreeMapping.getD [],
              callstack := state.driver.callstack }).result,
            mutationPoint, reachableTest.2, reachableTest.1⟩
        obtain ⟨⟨added, hadded, hkeys, hvalid⟩, hruns⟩ := ih _ haborted
        refine ⟨⟨first :: added, ?_, ?_, ?_⟩, ?_⟩
        · rw [hadded, List.append_assoc, List.singleton_append]
        · rw [List.map_cons, List.map_cons, hkeys]
        · intro r hr
          rcases List.mem_cons.mp hr with hr1 | hr1
          · subst hr1
            exact hinvalid
          · exact hvalid r hr1
        · rw [hruns, if_neg hdry, if_neg hdry, mutantRuns_append]
          simp [mutantRuns]

/-- When the loop over the mutation points ends without a failed assertion, it
has appended one result per entry of the list and reachable test of that entry,
in order, none of them `Invalid`, and (outside dry-run mode) made one mutant
run for each. -/
theorem runMutants_exact (cfg : Config) (env : Collaborators) :
    ∀ (points : List Nat) (round : Nat) (state : RunState),
      (runMutants cfg env points round state).aborted = false →
      (∃ added, (runMutants cfg env points round state).mutationResults =
          state.mutationResults ++ added ∧
        added.map (fun r => (r.mutationPoint, r.test)) =
          runsPerReachableTest env state.queries points ∧
        ∀ r ∈ added, r.result.status ≠ ExecutionStatus.Invalid) ∧
      mutantRuns (runMutants cfg env points round state).trace =
        mutantRuns state.trace ++
          (if cfg.dryRun = true then [] else runsPerReachableTest env state.queries points) := by
  intro points
  induction points with
  | nil =>
    intro round state _
    exact ⟨⟨[], by simp [runMutants], by simp [runsPerReachableTest], by simp⟩,
      by simp [runMutants, runsPerReachableTest]⟩
  | cons point rest ih =>
    intro round state
    unfold runMutants
    simp only []
    by_cases haborted1 : (runReachableTests cfg env point
        (state.driver.objectFilesWithMutant (env.getOriginalModule point)
          (env.compileMutant round point))
        (env.getReachableTests state.queries point) state).aborted = true
    · rw [if_pos haborted1]
      intro haborted
      rw [haborted1] at haborted
      cases haborted
    · rw [if_neg haborted1]
      intro haborted
      have hreturned1 : (runReachableTests cfg env point
          (state.driver.objectFilesWithMutant (env.getOriginalModule point)
            (env.compileMutant round point))
          (env.getReachableTests state.queries point) state).aborted = false := by
        simpa using haborted1
      obtain ⟨⟨added1, hadded1, hkeys1, hvalid1⟩, hruns1⟩ :=
        runReachableTests_exact cfg env point _ _ state hreturned1
      obtain ⟨⟨added, hadded, hkeys, hvalid⟩, hruns⟩ := ih (round + 1) _ haborted
      have hqueries := (runReachableTests_spec cfg env point
        (state.driver.objectFilesWithMutant (env.getOriginalModule point)
          (env.compileMutant round point))
        (env.getReachableTests state.queries point) state).2.1
      rw [hqueries] at hkeys hruns
      refine ⟨⟨added1 ++ added, ?_, ?_, ?_⟩, ?_⟩
      · rw [hadded, hadded1, List.append_assoc]
      · rw [List.map_append, hkeys1, hkeys]
        simp [runsPerReachableTest]
      · intro r hr
        rcases List.mem_append.mp hr with hr1 | hr1
        · exact hvalid1 r hr1
        · exact hvalid r hr1
      · rw [hruns, hruns1, List.append_assoc]
        by_cases hdry : cfg.dryRun = true
        · simp [hdry]
        · simp [hdry, runsPerReachableTest]

theorem mutantRuns_eq_nil (xs : List Event)
    (hnone : ∀ request, Event.sandboxRun request ∈ xs → request.mutant = none) :
    mutantRuns xs = [] := by
  induction xs with
  | nil => rfl
  | cons e rest ih =>
    have hrest := ih (fun request h => hnone request (List.mem_cons_of_mem _ h))
    cases e with
    | sandboxRun request =>
      have := hnone request (List.mem_cons_self _ _)
      simp [mutantRuns, this, hrest]
    | injectCallbacks m f i => simp [mutantRuns, hrest]
    | createTestees test => simp [mutantRuns, hrest]
    | getMutationPoints test testee => simp [mutantRuns, hrest]

/-- A run of `Driver::Run` that returns has one mutation result per entry of
`allMutationPoints` and reachable test of that entry, in order, none of them
`Invalid`; outside dry-run mode the mutant runs are exactly these, and in
dry-run mode there is none. -/
theorem Run_exact (cfg : Config) (env : Collaborators)
    (hreturned : (Driver.Run cfg env).aborted = false) :
    (Driver.Run cfg env).mutationResults.map (fun r => (r.mutationPoint, r.test)) =
        runsPerReachableTest env (Driver.Run cfg env).queries
          (Driver.Run cfg env).allMutationPoints ∧
      (∀ r ∈ (Driver.Run cfg env).mutationResults,
        r.result.status ≠ ExecutionStatus.Invalid) ∧
      mutantRuns (Driver.Run cfg env).trace =
        (if cfg.dryRun = true then []
         else runsPerReachableTest env (Driver.Run cfg env).queries
          (Driver.Run cfg env).allMutationPoints) := by
  by_cases hready : 2 ≤ (loadPhase env).driver.functions.length ∧
      cfg.getDynamicLibrariesPaths env.files ≠ none
  swap
  · rw [(Run_early cfg env hready).2.1] at hreturned
    cases hreturned
  · obtain ⟨hmany, hlibs⟩ := hready
    obtain ⟨o1, _, _, _, _, _, o7, o8⟩ := originalPhase_spec cfg env hmany hlibs
    have hrun : Driver.Run cfg env =
        runMutants cfg env (originalPhase cfg env).allMutationPoints 0 (originalPhase cfg env) := by
      unfold Driver.Run
      simp [o8]
    rw [hrun] at hreturned ⊢
    obtain ⟨⟨added, hadded, hkeys, hvalid⟩, hruns⟩ :=
      runMutants_exact cfg env (originalPhase cfg env).allMutationPoints 0
        (originalPhase cfg env) hreturned
    obtain ⟨_, hqueries, hpoints, _⟩ :=
      runMutants_spec cfg env (originalPhase cfg env).allMutationPoints 0 (originalPhase cfg env)
    have hnone : mutantRuns (originalPhase cfg env).trace = [] := by
      apply mutantRuns_eq_nil
      intro request hmem
      rw [o1] at hmem
      rcases List.mem_append.mp hmem with h1 | h1
      · exact absurd h1 (no_sandboxRun_in_loadPhase env request)
      · obtain ⟨test, _, htest⟩ := List.mem_flatMap.mp h1
        rcases mem_originalEvents cfg env _ _ test _ htest with h2 | ⟨_, h2 | ⟨testee, _, h2⟩⟩
        · cases h2
          rfl
        · cases h2
        · cases h2
    rw [hqueries, hpoints]
    rw [o7, List.nil_append] at hadded
    rw [hnone, List.nil_append] at hruns
    refine ⟨?_, ?_, hruns⟩
    · rw [hadded, hkeys]
    · rw [hadded]
      exact hvalid

/-- Among the runs listed for a list of mutation points, those of a point that
occurs once in the list are one per reachable test of the point, in order. -/
theorem runsPerReachableTest_filter (env : Collaborators) (queries : List Testee) (point : Nat) :
    ∀ points : List Nat,
      (point ∉ points →
        (runsPerReachableTest env queries points).filter (fun r => decide (r.1 = point)) = []) ∧
      (points.count point = 1 →
        (runsPerReachableTest env queries points).filter (fun r => decide (r.1 = point)) =
          (env.getReachableTests queries point).map (fun r => (point, r.1))) := by
  intro points
  induction points with
  | nil =>
    exact ⟨fun _ => rfl, fun h => by simp at h⟩
  | cons head rest ih =>
    have hcons : runsPerReachableTest env queries (head :: rest) =
        (env.getReachableTests queries head).map (fun r => (head, r.1)) ++
          runsPerReachableTest env queries rest := by
      simp [runsPerReachableTest]
    rw [hcons, List.filter_append]
    by_cases hhead : head = point
    · subst hhead
      have hall : ((env.getReachableTests queries head).map (fun r => (head, r.1))).filter
          (fun r => decide (r.1 = head)) =
          (env.getReachableTests queries head).map (fun r => (head, r.1)) := by
        apply List.filter_eq_self.mpr
        intro r hr
        obtain ⟨_, _, hr1⟩ := List.mem_map.mp hr
        simp [← hr1]
      refine ⟨fun hnot => absurd (List.mem_cons_self _ _) hnot, fun hcount => ?_⟩
      have hrest : head ∉ rest := by
        rw [List.count_cons_self] at hcount
        exact List.count_eq_zero.mp (by omega)
      rw [hall, ih.1 hrest, List.append_nil]
    · have hnone : ((env.getReachableTests queries head).map (fun r => (head, r.1))).filter
          (fun r => decide (r.1 = point)) = [] := by
        apply List.filter_eq_nil_iff.mpr
        intro r hr
        obtain ⟨_, _, hr1⟩ := List.mem_map.mp hr
        simp [← hr1, hhead]
      rw [hnone, List.nil_append]
      refine ⟨fun hnot => ih.1 (fun h => hnot (List.mem_cons_of_mem _ h)), fun hcount => ?_⟩
      apply ih.2
      rw [List.count_cons_of_ne (fun h => hhead h.symm)] at hcount
      exact hcount

/-! ## The order of the mutation results -/

theorem runReachableTests_records (cfg : Config) (env : Collaborators) (mutationPoint : Nat)
    (objects : List Nat) :
    ∀ (reachable : List (Nat × Int)) (state : RunState),
      (runReachableTests cfg env mutationPoint objects reachable state).aborted = false →
      (runReachableTests cfg env mutationPoint objects reachable state).mutationResults.map
          MutationResult.record =
        state.mutationResults.map MutationResult.record ++
          reachable.map (fun r => (mutationPoint, r.1, r.2)) := by
  intro reachable
  induction reachable with
  | nil =>
    intro state _
    simp [runReachableTests]
  | cons reachableTest rest ih =>
    intro state
    unfold runReachableTests
    simp only []
    by_cases hdry : cfg.dryRun = true
    · rw [if_pos hdry]
      intro haborted
      rw [ih _ haborted]
      simp [MutationResult.record]
    · rw [if_neg hdry]
      by_cases hinvalid : (env.sandbox state.runs
          { mutant := some mutationPoint, test := reachableTest.1, objectFiles := objects,
            timeout := max 30 (wrapInt64 ((state.tests reachableTest.1).runningTime * 10)),
            callTreeMapping := state.driver.callTreeMapping.getD [],
            callstack := state.driver.callstack }).result.status = ExecutionStatus.Invalid
      · rw [if_pos hinvalid]
        intro haborted
        cases haborted
      · rw [if_neg hinvalid]
        intro haborted
        rw [ih _ haborted]
        simp [MutationResult.record]

theorem runMutants_records (cfg : Config) (env : Collaborators) :
    ∀ (points : List Nat) (round : Nat) (state : RunState),
      (runMutants cfg env points round state).aborted = false →
      (runMutants cfg env points round state).mutationResults.map MutationResult.record =
        state.mutationResults.map MutationResult.record ++
          recordsPerReachableTest env state.queries points := by
  intro points
  induction points with
  | nil =>
    intro round state _
    simp [runMutants, recordsPerReachableTest]
  | cons point rest ih =>
    intro round state
    unfold runMutants
    simp only []
    by_cases haborted1 : (runReachableTests cfg env point
        (state.driver.objectFilesWithMutant (env.getOriginalModule point)
          (env.compileMutant round point))
        (env.getReachableTests state.queries point) state).aborted = true
    · rw [if_pos haborted1]
      intro haborted
      rw [haborted1] at haborted
      cases haborted
    · rw [if_neg haborted1]
      intro haborted
      have hreturned1 : (runReachableTests cfg env point
          (state.driver.objectFilesWithMutant (env.getOriginalModule point)
            (env.compileMutant round point))
          (env.getReachableTests state.queries point) state).aborted = false := by
        simpa using haborted1
      have hqueries := (runReachableTests_spec cfg env point
        (state.driver.objectFilesWithMutant (env.getOriginalModule point)
          (env.compileMutant round point))
        (env.getReachableTests state.queries point) state).2.1
      rw [ih (round + 1) _ haborted, hqueries,
        runReachableTests_records cfg env point _ _ state hreturned1]
      simp [recordsPerReachableTest]

/-- In a run of `Driver::Run` that returns, the mutation results record, in
order, one triple per entry of `allMutationPoints` and entry of that point's
reachable tests. -/
theorem Run_records (cfg : Config) (env : Collaborators)
    (hreturned : (Driver.Run cfg env).aborted = false) :
    (Driver.Run cfg env).mutationResults.map MutationResult.record =
      recordsPerReachableTest env (Driver.Run cfg env).queries
        (Driver.Run cfg env).allMutationPoints := by
  by_cases hready : 2 ≤ (loadPhase env).driver.functions.length ∧
      cfg.getDynamicLibrariesPaths env.files ≠ none
  swap
  · rw [(Run_early cfg env hready).2.1] at hreturned
    cases hreturned
  · obtain ⟨hmany, hlibs⟩ := hready
    obtain ⟨_, _, _, _, _, _, o7, o8⟩ := originalPhase_spec cfg env hmany hlibs
    have hrun : Driver.Run cfg env =
        runMutants cfg env (originalPhase cfg env).allMutationPoints 0 (originalPhase cfg env) := by
      unfold Driver.Run
      simp [o8]
    rw [hrun] at hreturned ⊢
    obtain ⟨_, hqueries, hpoints, _⟩ :=
      runMutants_spec cfg env (originalPhase cfg env).allMutationPoints 0 (originalPhase cfg env)
    rw [runMutants_records cfg env _ 0 _ hreturned, hqueries, hpoints, o7]
    simp

/-! ## Instrumentation: what is left alone -/

theorem withoutLeave_withLeave (leave : Instruction) (block : BasicBlock) :
    withoutLeave (withLeave leave block) = block := by
  cases hterm : block.getTerminator with
  | none =>
    have h1 : withLeave leave block = block := by
      unfold withLeave
      rw [hterm]
    rw [h1]
    unfold withoutLeave
    rw [hterm]
  | some terminator =>
    by_cases hret : terminator.isReturn = true
    · have h1 := withLeave_of_return leave block terminator hterm hret
      have h2 : (withLeave leave block).getTerminator = some terminator := by
        rw [getTerminator_withLeave, hterm]
      have h3 := (getTerminator_eq_some block terminator hterm).2
      unfold withoutLeave
      rw [h2]
      simp only [hret, if_true]
      rw [h1]
      have h4 : (block.instructions.dropLast ++ [leave, terminator]).dropLast.dropLast =
          block.instructions.dropLast := by
        have : block.instructions.dropLast ++ [leave, terminator] =
            (block.instructions.dropLast ++ [leave]) ++ [terminator] := by simp
        rw [this, List.dropLast_concat, List.dropLast_concat]
      rw [h4, ← h3]
    · have h1 : withLeave leave block = block := by
        unfold withLeave
        rw [hterm]
        simp [hret]
      rw [h1]
      unfold withoutLeave
      rw [hterm]
      simp [hret]

theorem sublist_withLeave (leave : Instruction) (block : BasicBlock) :
    block.instructions.Sublist (withLeave leave block).instructions := by
  cases hterm : block.getTerminator with
  | none =>
    unfold withLeave
    rw [hterm]
  | some terminator =>
    by_cases hret : terminator.isReturn = true
    · rw [withLeave_of_return leave block terminator hterm hret]
      have h3 := (getTerminator_eq_some block terminator hterm).2
      nth_rewrite 1 [h3]
      exact List.Sublist.append_left (List.sublist_cons_self _ _) _
    · unfold withLeave
      rw [hterm]
      simp [hret]

theorem injectIntoFunction_frame (parameters : List Value) (function function1 : LFunction)
    (h : injectIntoFunction parameters function = some function1) :
    function1 = { function with blocks := function1.blocks } := by
  unfold injectIntoFunction at h
  split at h
  · cases h
  · split at h
    · cases h
    · simp only [] at h
      split at h
      · cases h
      · cases h
        rfl

theorem countP_set_same {α : Type} (p : α → Bool) :
    ∀ (l : List α) (i : Nat) (a b : α), l.get? i = some a → p b = p a →
      (l.set i b).countP p = l.countP p := by
  intro l
  induction l with
  | nil => intro i a b h _; cases h
  | cons head rest ih =>
    intro i a b hget hp
    cases i with
    | zero =>
      simp only [List.get?_cons_zero, Option.some.injEq] at hget
      subst hget
      simp [List.countP_cons, hp]
    | succ j =>
      simp only [List.get?_cons_succ] at hget
      simp [List.countP_cons, ih j a b hget hp]

theorem find?_set_same {α β : Type} (p : α → Bool) (g : α → β) :
    ∀ (l : List α) (i : Nat) (a b : α), l.get? i = some a → p b = p a → g b = g a →
      ((l.set i b).find? p).map g = (l.find? p).map g := by
  intro l
  induction l with
  | nil => intro i a b h _ _; cases h
  | cons head rest ih =>
    intro i a b hget hp hg
    cases i with
    | zero =>
      simp only [List.get?_cons_zero, Option.some.injEq] at hget
      subst hget
      simp only [List.set_cons_zero, List.find?_cons, hp]
      cases p head <;> simp [hg]
    | succ j =>
      simp only [List.get?_cons_succ] at hget
      simp only [List.set_cons_succ, List.find?_cons]
      cases p head
      · exact ih j a b hget hp hg
      · rfl

/-- The three cases of `injectCallbacks`: the module declares neither callback
and both are created; it declares both and they are used as they are; it
declares exactly one and an assertion fails. -/
theorem injectCallbacks_cases (driverAddress pointerWidth : Nat) (module : LModule)
    (position index : Nat) :
    (module.getFunction "mull_enterFunction" = none →
        module.getFunction "mull_leaveFunction" = none →
        injectCallbacks driverAddress pointerWidth module position index =
          match (module.functions ++ [callbackDeclaration "mull_enterFunction",
              callbackDeclaration "mull_leaveFunction"]).get? position with
          | none => none
          | some function =>
            match injectIntoFunction
                (callbackParameters driverAddress pointerWidth index) function with
            | none => none
            | some function1 =>
              some { functions := (module.functions ++
                [callbackDeclaration "mull_enterFunction",
                  callbackDeclaration "mull_leaveFunction"]).set position function1 }) ∧
      ((module.getFunction "mull_enterFunction").isSome = true →
        (module.getFunction "mull_leaveFunction").isSome = true →
        injectCallbacks driverAddress pointerWidth module position index =
          match module.functions.get? position with
          | none => none
          | some function =>
            match injectIntoFunction
                (callbackParameters driverAddress pointerWidth index) function with
            | none => none
            | some function1 =>
              some { functions := module.functions.set position function1 }) ∧
      ((module.getFunction "mull_enterFunction").isSome ≠
          (module.getFunction "mull_leaveFunction").isSome →
        injectCallbacks driverAddress pointerWidth module position index = none) := by
  refine ⟨fun henter hleave => ?_, fun henter hleave => ?_, fun hmixed => ?_⟩
  · have h1 : ∀ function ∈ module.functions, (function.name == "mull_enterFunction") = false := by
      intro function hmem
      have := List.find?_eq_none.mp henter function hmem
      simpa using this
    have h2 : ∀ function ∈ module.functions, (function.name == "mull_leaveFunction") = false := by
      intro function hmem
      have := List.find?_eq_none.mp hleave function hmem
      simpa using this
    have hnone1 : module.functions.find? (fun function => function.name == "mull_enterFunction") =
        none := henter
    have hnone2 : module.functions.find? (fun function => function.name == "mull_leaveFunction") =
        none := hleave
    unfold injectCallbacks
    simp only [henter, hleave, Option.isNone_none, Bool.and_self, if_true]
    have hcreated : (createCallback (createCallback module "mull_enterFunction")
        "mull_leaveFunction").functions = module.functions ++
          [callbackDeclaration "mull_enterFunction", callbackDeclaration "mull_leaveFunction"] := by
      simp [createCallback, callbackDeclaration]
    have hfound1 : ((createCallback (createCallback module "mull_enterFunction")
        "mull_leaveFunction").getFunction "mull_enterFunction").isNone = false := by
      unfold LModule.getFunction
      rw [hcreated, List.find?_append, hnone1]
      simp [callbackDeclaration]
    have hfound2 : ((createCallback (createCallback module "mull_enterFunction")
        "mull_leaveFunction").getFunction "mull_leaveFunction").isNone = false := by
      unfold LModule.getFunction
      rw [hcreated, List.find?_append, hnone2]
      simp [callbackDeclaration]
    rw [hfound1, hfound2, hcreated]
    simp
  · unfold injectCallbacks
    cases h1 : module.getFunction "mull_enterFunction" with
    | none => rw [h1] at henter; cases henter
    | some enter =>
      cases h2 : module.getFunction "mull_leaveFunction" with
      | none => rw [h2] at hleave; cases hleave
      | some leave => simp [h1, h2]
  · unfold injectCallbacks
    cases h1 : module.getFunction "mull_enterFunction" with
    | none =>
      cases h2 : module.getFunction "mull_leaveFunction" with
      | none => rw [h1, h2] at hmixed; exact absurd rfl hmixed
      | some leave => simp [h1, h2]
    | some enter =>
      cases h2 : module.getFunction "mull_leaveFunction" with
      | none => simp [h1, h2]
      | some leave => rw [h1, h2] at hmixed; exact absurd rfl hmixed

/-! ## The destructor table -/

theorem destructorCalls_append (xs ys : List TableEvent) :
    destructorCalls (xs ++ ys) = destructorCalls xs ++ destructorCalls ys := by
  induction xs with
  | nil => rfl
  | cons e rest ih => cases e <;> simp [destructorCalls, ih]

theorem accessedIndices_append (xs ys : List TableEvent) :
    accessedIndices (xs ++ ys) = accessedIndices xs ++ accessedIndices ys := by
  induction xs with
  | nil => rfl
  | cons e rest ih => cases e <;> simp [accessedIndices, ih]

/-- The search loop finds the argument exactly when an entry it looks at has it,
and it only reads, at the indices it walks. -/
theorem findArg_spec (table : DtorTable) (arg : Nat) :
    ∀ (remaining i : Nat) (events : List TableEvent),
      ((findArg table arg remaining i events).1 = true ↔
          ∃ j, i ≤ j ∧ j < i + remaining ∧ (table.entry j).arg = arg) ∧
        ∃ reads, (findArg table arg remaining i events).2 = events ++ reads ∧
          destructorCalls reads = [] ∧
          ∀ index ∈ accessedIndices reads, i ≤ index ∧ index < i + remaining := by
  intro remaining
  induction remaining with
  | zero =>
    intro i events
    refine ⟨⟨fun h => by simp [findArg] at h, fun ⟨j, h1, h2, _⟩ => by omega⟩,
      ⟨[], by simp [findArg], rfl, by simp [accessedIndices]⟩⟩
  | succ remaining ih =>
    intro i events
    unfold findArg
    by_cases hfound : arg = (table.entry i).arg
    · rw [if_pos hfound]
      refine ⟨⟨fun _ => ⟨i, Nat.le_refl _, by omega, hfound.symm⟩, fun _ => rfl⟩,
        ⟨[TableEvent.read i], rfl, rfl, ?_⟩⟩
      intro index hindex
      simp only [accessedIndices, List.mem_singleton] at hindex
      omega
    · rw [if_neg hfound]
      obtain ⟨hiff, reads, hreads, hcalls, hbound⟩ := ih (i + 1) (events ++ [TableEvent.read i])
      refine ⟨hiff.trans ⟨fun ⟨j, h1, h2, h3⟩ => ⟨j, by omega, by omega, h3⟩,
        fun ⟨j, h1, h2, h3⟩ => ⟨j, ?_, by omega, h3⟩⟩,
        ⟨TableEvent.read i :: reads, ?_, ?_, ?_⟩⟩
      · by_contra hlt
        have hj : j = i := by omega
        subst hj
        exact hfound h3.symm
      · rw [hreads, List.append_assoc, List.singleton_append]
      · simp [destructorCalls, hcalls]
      · intro index hindex
        simp only [accessedIndices, List.mem_cons] at hindex
        rcases hindex with hindex | hindex
        · omega
        · have := hbound index hindex
          omega

theorem cxa_atexit_full (table : DtorTable) (destructor arg dso_handle : Nat)
    (hfull : dtors_count ≤ table.current_dtor) :
    mull_cppunit_cxa_atexit table destructor arg dso_handle = none := by
  unfold mull_cppunit_cxa_atexit
  rw [if_pos (by omega)]

theorem cxa_atexit_present (table : DtorTable) (destructor arg dso_handle : Nat)
    (hassert : table.current_dtor < dtors_count)
    (hpresent : ∃ j, j < table.current_dtor ∧ (table.entry j).arg = arg) :
    ∃ events, mull_cppunit_cxa_atexit table destructor arg dso_handle =
        some ⟨table, 0, events⟩ ∧
      destructorCalls events = [] ∧
      ∀ index ∈ accessedIndices events, index < table.current_dtor := by
  obtain ⟨hiff, reads, hreads, hcalls, hbound⟩ := findArg_spec table arg table.current_dtor 0 []
  have hfound : (findArg table arg table.current_dtor 0 []).1 = true := by
    obtain ⟨j, hj, harg⟩ := hpresent
    exact hiff.mpr ⟨j, Nat.zero_le _, by omega, harg⟩
  unfold mull_cppunit_cxa_atexit
  rw [if_neg (by omega)]
  generalize findArg table arg table.current_dtor 0 [] = found at hfound hreads
  rcases found with ⟨flag, events⟩
  simp only at hfound hreads
  subst hfound
  refine ⟨events, rfl, ?_, ?_⟩
  · rw [hreads, List.nil_append]
    exact hcalls
  · intro index hindex
    rw [hreads, List.nil_append] at hindex
    have := hbound index hindex
    omega

theorem cxa_atexit_absent (table : DtorTable) (destructor arg dso_handle : Nat)
    (hassert : table.current_dtor < dtors_count)
    (habsent : ∀ j, j < table.current_dtor → (table.entry j).arg ≠ arg) :
    ∃ events, mull_cppunit_cxa_atexit table destructor arg dso_handle =
        some ⟨{ current_dtor := table.current_dtor + 1
                dtors := table.dtors.set table.current_dtor ⟨destructor, arg, dso_handle⟩ },
          0, events⟩ ∧
      destructorCalls events = [] ∧
      ∀ index ∈ accessedIndices events, index ≤ table.current_dtor := by
  obtain ⟨hiff, reads, hreads, hcalls, hbound⟩ := findArg_spec table arg table.current_dtor 0 []
  have hfound : (findArg table arg table.current_dtor 0 []).1 = false := by
    cases hflag : (findArg table arg table.current_dtor 0 []).1 with
    | false => rfl
    | true =>
      obtain ⟨j, _, hj, harg⟩ := hiff.mp hflag
      exact absurd harg (habsent j (by omega))
  unfold mull_cppunit_cxa_atexit
  rw [if_neg (by omega)]
  generalize findArg table arg table.current_dtor 0 [] = found at hfound hreads
  rcases found with ⟨flag, events⟩
  simp only at hfound hreads
  subst hfound
  refine ⟨_, rfl, ?_, ?_⟩
  · rw [hreads, List.nil_append, destructorCalls_append, hcalls]
    rfl
  · intro index hindex
    rw [hreads, List.nil_append, accessedIndices_append] at hindex
    rcases List.mem_append.mp hindex with hindex | hindex
    · have := hbound index hindex
      omega
    · simp only [accessedIndices, List.mem_cons, List.mem_singleton, List.not_mem_nil,
        or_false, or_self] at hindex
      omega

/-- The drain loop, given fuel for every entry, ends with `current_dtor = 0`; it
reads only below the old `current_dtor` and calls the destructors of the entries
from the last one registered down to the first. -/
theorem runDestructorsLoop_spec :
    ∀ (fuel : Nat) (table : DtorTable) (events : List TableEvent),
      table.current_dtor ≤ fuel →
      (runDestructorsLoop fuel table events).1 = { table with current_dtor := 0 } ∧
        ∃ added, (runDestructorsLoop fuel table events).2 = events ++ added ∧
          (∀ index ∈ accessedIndices added, index < table.current_dtor) ∧
          destructorCalls added =
            (List.range table.current_dtor).reverse.map
              (fun i => ((table.entry i).destructor, (table.entry i).arg)) := by
  intro fuel
  induction fuel with
  | zero =>
    intro table events hfuel
    have hzero : table.current_dtor = 0 := by omega
    refine ⟨?_, [], by simp [runDestructorsLoop], by simp [accessedIndices], ?_⟩
    · simp only [runDestructorsLoop]
      rw [← hzero]
    · rw [hzero]
      rfl
  | succ fuel ih =>
    intro table events hfuel
    unfold runDestructorsLoop
    by_cases hpositive : table.current_dtor > 0
    · rw [if_pos hpositive]
      simp only []
      obtain ⟨n, hn⟩ : ∃ n, table.current_dtor = n + 1 := ⟨table.current_dtor - 1, by omega⟩
      obtain ⟨htable, added, hadded, hbound, hcalls⟩ :=
        ih { table with current_dtor := table.current_dtor - 1 }
          (events ++ [TableEvent.read (table.current_dtor - 1),
            TableEvent.read (table.current_dtor - 1),
            TableEvent.call
              (DtorTable.entry { table with current_dtor := table.current_dtor - 1 }
                (table.current_dtor - 1)).destructor
              (DtorTable.entry { table with current_dtor := table.current_dtor - 1 }
                (table.current_dtor - 1)).arg])
          (by simp only []; omega)
      have hentry : ∀ i, DtorTable.entry { table with current_dtor := table.current_dtor - 1 } i =
          table.entry i := fun _ => rfl
      refine ⟨htable, TableEvent.read (table.current_dtor - 1) ::
        TableEvent.read (table.current_dtor - 1) ::
        TableEvent.call (table.entry (table.current_dtor - 1)).destructor
          (table.entry (table.current_dtor - 1)).arg :: added, ?_, ?_, ?_⟩
      · rw [hadded]
        simp [hentry]
      · intro index hindex
        simp only [accessedIndices, List.mem_cons] at hindex
        rcases hindex with hindex | hindex | hindex
        · omega
        · omega
        · have := hbound index hindex
          simp only [] at this
          omega
      · simp only [destructorCalls]
        rw [hcalls]
        have hentry2 : ∀ c i,
            DtorTable.entry { current_dtor := c, dtors := table.dtors } i = table.entry i :=
          fun _ _ => rfl
        simp only [hentry2, hn, Nat.add_sub_cancel, List.range_succ, List.reverse_append,
          List.reverse_cons, List.reverse_nil, List.nil_append, List.singleton_append,
          List.map_cons]
    · rw [if_neg hpositive]
      have hzero : table.current_dtor = 0 := by omega
      refine ⟨?_, [], by simp, by simp [accessedIndices], ?_⟩
      · simp only []
        rw [← hzero]
      · rw [hzero]
        rfl

theorem runDestructors_spec (table : DtorTable) :
    (runDestructors table).1 = { table with current_dtor := 0 } ∧
      (∀ index ∈ accessedIndices (runDestructors table).2, index < table.current_dtor) ∧
      destructorCalls (runDestructors table).2 =
        (List.range table.current_dtor).reverse.map
          (fun i => ((table.entry i).destructor, (table.entry i).arg)) := by
  obtain ⟨htable, added, hadded, hbound, hcalls⟩ :=
    runDestructorsLoop_spec table.current_dtor table [] (Nat.le_refl _)
  unfold runDestructors
  rw [hadded, List.nil_append]
  exact ⟨htable, hbound, hcalls⟩

theorem getD_append_left {α : Type} (xs ys : List α) (d : α) (i : Nat) (h : i < xs.length) :
    (xs ++ ys).getD i d = xs.getD i d := by
  simp [List.getD_eq_getElem?_getD, List.getElem?_append_left h]

theorem set_append_length {α : Type} (e f : α) :
    ∀ (xs ys : List α), (xs ++ f :: ys).set xs.length e = xs ++ e :: ys := by
  intro xs
  induction xs with
  | nil => intro ys; rfl
  | cons x rest ih =>
    intro ys
    simp only [List.cons_append, List.length_cons, List.set_cons_succ, ih]

theorem getD_append_length {α : Type} (d last : α) (ys : List α) :
    ∀ init : List α, (init ++ last :: ys).getD init.length d = last := by
  intro init
  induction init with
  | nil => rfl
  | cons head rest ih => simpa using ih

theorem map_range_getD {α β : Type} (g : α → β) (d : α) :
    ∀ (xs ys : List α), (List.range xs.length).map (fun i => g ((xs ++ ys).getD i d)) =
      xs.map g := by
  intro xs
  induction xs using List.reverseRecOn with
  | nil => intro ys; rfl
  | append_singleton init last ih =>
    intro ys
    rw [List.length_append, List.length_singleton, List.range_succ, List.map_append,
      List.map_append, List.append_assoc, ih]
    simp only [List.singleton_append, List.map_cons, List.map_nil, getD_append_length]

/-- Registrations with pairwise distinct arguments that fit into the array fill
it in order: after them the array starts with the registered entries and
`current_dtor` is their number. -/
theorem registerAll_spec :
    ∀ (rest done : List atexit_entry) (table : DtorTable) (filler : List atexit_entry),
      table.dtors = done ++ filler → table.current_dtor = done.length →
      done.length + filler.length = dtors_count →
      ((done ++ rest).map atexit_entry.arg).Nodup →
      (done ++ rest).length ≤ dtors_count →
      ∃ table1 filler1, registerAll table rest = some table1 ∧
        table1.dtors = (done ++ rest) ++ filler1 ∧
        table1.current_dtor = (done ++ rest).length ∧
        (done ++ rest).length + filler1.length = dtors_count := by
  intro rest
  induction rest with
  | nil =>
    intro done table filler hdtors hcurrent hfiller _ _
    exact ⟨table, filler, rfl, by simpa using hdtors, by simpa using hcurrent,
      by simpa using hfiller⟩
  | cons registration rest ih =>
    intro done table filler hdtors hcurrent hfiller hnodup hlength
    have hroom : done.length < dtors_count := by
      simp only [List.length_append, List.length_cons] at hlength
      omega
    have hfresh : registration.arg ∉ done.map atexit_entry.arg := by
      rw [List.map_append] at hnodup
      intro hmem
      exact (List.nodup_append.mp hnodup).2.2 hmem (by simp)
    have habsent : ∀ j, j < table.current_dtor → (table.entry j).arg ≠ registration.arg := by
      intro j hj harg
      rw [hcurrent] at hj
      apply hfresh
      unfold DtorTable.entry at harg
      rw [hdtors, getD_append_left _ _ _ _ hj] at harg
      have hget : done.getD j ⟨0, 0, 0⟩ = done.get ⟨j, hj⟩ := by
        simp [List.getD_eq_getElem?_getD, List.getElem?_eq_getElem hj]
      rw [hget] at harg
      rw [← harg]
      exact List.mem_map_of_mem _ (List.get_mem _ _ _)
    obtain ⟨events, hcall, _, _⟩ :=
      cxa_atexit_absent table registration.destructor registration.arg registration.dso_handle
        (by rw [hcurrent]; exact hroom) habsent
    cases filler with
    | nil =>
      simp only [List.length_nil] at hfiller
      omega
    | cons first others =>
      have hstep := ih (done ++ [registration])
        { current_dtor := table.current_dtor + 1
          dtors := table.dtors.set table.current_dtor
            ⟨registration.destructor, registration.arg, registration.dso_handle⟩ }
        others
        (by
          simp only []
          rw [hdtors, hcurrent, set_append_length]
          simp)
        (by simp [hcurrent])
        (by
          simp only [List.length_append, List.length_cons, List.length_nil] at hfiller ⊢
          omega)
        (by simpa using hnodup)
        (by simpa using hlength)
      obtain ⟨table1, filler1, h1, h2, h3, h4⟩ := hstep
      refine ⟨table1, filler1, ?_, by simpa using h2, by simpa using h3, by simpa using h4⟩
      simp only [registerAll]
      rw [hcall]
      exact h1

/-- A registration that returns left `current_dtor` at most at `dtors_count`,
read and wrote only inside the array, called no destructor and returned 0. -/
theorem cxa_atexit_bounds (table : DtorTable) (destructor arg dso_handle : Nat)
    (returned : AtexitReturn)
    (h : mull_cppunit_cxa_atexit table destructor arg dso_handle = some returned) :
    table.current_dtor < dtors_count ∧
      returned.table.current_dtor ≤ dtors_count ∧
      table.current_dtor ≤ returned.table.current_dtor ∧
      (∀ index ∈ accessedIndices returned.events, index < dtors_count) ∧
      destructorCalls returned.events = [] ∧
      returned.value = 0 := by
  by_cases hassert : table.current_dtor < dtors_count
  · by_cases hpresent : ∃ j, j < table.current_dtor ∧ (table.entry j).arg = arg
    · obtain ⟨events, hcall, hcalls, hbound⟩ :=
        cxa_atexit_present table destructor arg dso_handle hassert hpresent
      rw [hcall] at h
      cases h
      exact ⟨hassert, Nat.le_of_lt hassert, Nat.le_refl _,
        fun index hindex => Nat.lt_trans (hbound index hindex) hassert, hcalls, rfl⟩
    · have habsent : ∀ j, j < table.current_dtor → (table.entry j).arg ≠ arg :=
        fun j hj harg => hpresent ⟨j, hj, harg⟩
      obtain ⟨events, hcall, hcalls, hbound⟩ :=
        cxa_atexit_absent table destructor arg dso_handle hassert habsent
      rw [hcall] at h
      cases h
      exact ⟨hassert, hassert, Nat.le_succ _,
        fun index hindex => Nat.lt_of_le_of_lt (hbound index hindex) hassert, hcalls, rfl⟩
  · rw [cxa_atexit_full table destructor arg dso_handle (by omega)] at h
    cases h

/-- In a sequence of calls none of which fails the assertion, `current_dtor` is at
most `dtors_count` after every call and every access is inside the array. -/
theorem runTableCalls_bounds :
    ∀ (calls : List TableCall) (table final : DtorTable) (counts : List Nat)
      (events : List TableEvent),
      table.current_dtor ≤ dtors_count →
      runTableCalls table calls = some (final, counts, events) →
      final.current_dtor ≤ dtors_count ∧ (∀ count ∈ counts, count ≤ dtors_count) ∧
        ∀ index ∈ accessedIndices events, index < dtors_count := by
  intro calls
  induction calls with
  | nil =>
    intro table final counts events hstart h
    simp only [runTableCalls, Option.some.injEq, Prod.mk.injEq] at h
    obtain ⟨h1, h2, h3⟩ := h
    subst h1 h2 h3
    exact ⟨hstart, by simp, by simp [accessedIndices]⟩
  | cons call rest ih =>
    intro table final counts events hstart h
    cases call with
    | register destructor arg dso_handle =>
      simp only [runTableCalls] at h
      cases hcall : mull_cppunit_cxa_atexit table destructor arg dso_handle with
      | none => rw [hcall] at h; cases h
      | some returned =>
        rw [hcall] at h
        simp only [] at h
        obtain ⟨_, hcount, _, hbound, _, _⟩ :=
          cxa_atexit_bounds table destructor arg dso_handle returned hcall
        cases hrest : runTableCalls returned.table rest with
        | none => rw [hrest] at h; cases h
        | some result =>
          rcases result with ⟨final1, counts1, events1⟩
          rw [hrest] at h
          simp only [Option.some.injEq, Prod.mk.injEq] at h
          obtain ⟨h1, h2, h3⟩ := h
          subst h1 h2 h3
          obtain ⟨g1, g2, g3⟩ := ih returned.table final1 counts1 events1 hcount hrest
          refine ⟨g1, ?_, ?_⟩
          · intro count hmem
            rcases List.mem_cons.mp hmem with hmem | hmem
            · rw [hmem]
              exact hcount
            · exact g2 count hmem
          · intro index hmem
            rw [accessedIndices_append] at hmem
            rcases List.mem_append.mp hmem with hmem | hmem
            · exact hbound index hmem
            · exact g3 index hmem
    | drain =>
      simp only [runTableCalls] at h
      obtain ⟨htable, hbound, _⟩ := runDestructors_spec table
      have hcount : (runDestructors table).1.current_dtor ≤ dtors_count := by
        rw [htable]
        exact Nat.zero_le _
      cases hrest : runTableCalls (runDestructors table).1 rest with
      | none => rw [hrest] at h; cases h
      | some result =>
        rcases result with ⟨final1, counts1, events1⟩
        rw [hrest] at h
        simp only [Option.some.injEq, Prod.mk.injEq] at h
        obtain ⟨h1, h2, h3⟩ := h
        subst h1 h2 h3
        obtain ⟨g1, g2, g3⟩ := ih (runDestructors table).1 final1 counts1 events1 hcount hrest
        refine ⟨g1, ?_, ?_⟩
        · intro count hmem
          rcases List.mem_cons.mp hmem with hmem | hmem
          · rw [hmem]
            exact hcount
          · exact g2 count hmem
        · intro index hmem
          rw [accessedIndices_append] at hmem
          rcases List.mem_append.mp hmem with hmem | hmem
          · exact Nat.lt_of_lt_of_le (hbound index hmem) hstart
          · exact g3 index hmem

/-! ## The custom runner: the arguments of `main` -/

/-- A call of `main` among the events of `CustomTestRunner::runTest` has the
`argc` and the `argv` the method builds. -/
theorem CustomTest_runTest_callMain_arguments (jit : Jit) (test : CustomTest_Test)
    (objectFiles : List Nat) (argc : Int) (argv : List (Option String))
    (hcall : RunnerEvent.callMain argc argv ∈
      (CustomTestRunner.runTest jit test objectFiles).events) :
    argc = ((test.programName :: test.arguments).length : Nat) ∧
      argv = (test.programName :: test.arguments).map (fun argument => some (strcpy argument)) ++
        [none] := by
  have hctor := runStaticCtors_events jit test.constructors
    [RunnerEvent.addObjectSet objectFiles] (RunnerEvent.callMain argc argv)
  simp only [CustomTestRunner.runTest] at hcall
  generalize runStaticCtors jit test.constructors [RunnerEvent.addObjectSet objectFiles] = r
    at hcall hctor
  rcases r with ⟨events, ok⟩
  have hnot : RunnerEvent.callMain argc argv ∉ events := by
    intro h
    rcases hctor h with h1 | ⟨c, h1⟩
    · simp at h1
    · cases h1
  cases ok
  · exact absurd hcall hnot
  · simp only at hcall
    cases h1 : getFunctionPointer jit (jit.getNameWithPrefix "main")
    · simp only [h1] at hcall
      exact absurd hcall hnot
    · simp only [h1] at hcall
      have hmem : RunnerEvent.callMain argc argv ∈ events ++
          [RunnerEvent.callMain ((test.programName :: test.arguments).length : Nat)
            ((test.programName :: test.arguments).map (fun argument => some (strcpy argument)) ++
              [none]),
           RunnerEvent.runDestructors, RunnerEvent.removeObjectSet] := by
        by_cases hz : jit.returnValue = 0 <;> simpa [hz] using hcall
      rcases List.mem_append.mp hmem with h2 | h2
      · exact absurd h2 hnot
      · simp only [List.mem_cons, RunnerEvent.callMain.injEq, List.mem_singleton,
          List.not_mem_nil, or_false] at h2
        rcases h2 with ⟨h3, h4⟩ | h2 | h2
        · exact ⟨h3, h4⟩
        · cases h2
        · cases h2

theorem strcpy_of_no_null (argument : String)
    (hnull : Char.ofNat 0 ∉ argument.toList) : strcpy argument = argument := by
  unfold strcpy
  have hall : argument.toList.takeWhile (fun c => decide (c ≠ Char.ofNat 0)) =
      argument.toList := by
    apply List.takeWhile_eq_self_iff.mpr
    intro c hc
    simp only [ne_eq, decide_not, Bool.not_eq_true', decide_eq_false_iff_not]
    intro heq
    exact hnull (heq ▸ hc)
  rw [hall]
  cases argument
  rfl

/-! ## The replace-assignment operator -/

theorem get?_set_of_get? {α : Type} (new : α) :
    ∀ (xs : List α) (i : Nat) (old : α), xs.get? i = some old →
      (xs.set i new).get? i = some new := by
  intro xs
  induction xs with
  | nil => intro i old h; cases i <;> cases h
  | cons head rest ih =>
    intro i old h
    cases i with
    | zero => rfl
    | succ j => exact ih j old h

theorem findInstruction_setInstruction (M : LModule) (address : MutationPointAddress)
    (old new : Instruction) (hfind : address.findInstruction M = some old) :
    address.findInstruction (M.setInstruction address new) = some new := by
  unfold MutationPointAddress.findInstruction at hfind
  unfold LModule.setInstruction
  cases hfunction : M.functions.get? address.functionIndex with
  | none => rw [hfunction] at hfind; cases hfind
  | some function =>
    rw [hfunction] at hfind
    simp only [] at hfind ⊢
    cases hblock : function.blocks.get? address.blockIndex with
    | none => rw [hblock] at hfind; cases hfind
    | some block =>
      rw [hblock] at hfind
      simp only [] at hfind ⊢
      unfold MutationPointAddress.findInstruction
      simp only []
      rw [get?_set_of_get? _ _ _ _ hfunction]
      simp only []
      rw [get?_set_of_get? _ _ _ _ hblock]
      simp only []
      exact get?_set_of_get? _ _ _ _ hfind

theorem findInstruction_replaceAllUsesWith (M : LModule) (address : MutationPointAddress)
    (old new : Value) :
    address.findInstruction (M.replaceAllUsesWith old new) =
      (address.findInstruction M).map (Instruction.replaceUsesWith old new) := by
  unfold MutationPointAddress.findInstruction LModule.replaceAllUsesWith
  simp only [List.get?_eq_getElem?, List.getElem?_map]
  cases M.functions[address.functionIndex]? with
  | none => rfl
  | some function =>
    simp only [Option.map_some', List.getElem?_map]
    cases function.blocks[address.blockIndex]? with
    | none => rfl
    | some block =>
      simp only [Option.map_some', List.getElem?_map]

/-- Whether the operator applies: exactly to the stores of a value of integer,
float or double type. -/
theorem canBeApplied_iff (instruction : Instruction) :
    ReplaceAssignmentMutationOperator.canBeApplied instruction = true ↔
      ∃ storedValue pointer, instruction = Instruction.store storedValue pointer ∧
        ((∃ width, storedValue.getType = LType.integer width) ∨
          storedValue.getType = LType.float ∨ storedValue.getType = LType.double) := by
  unfold ReplaceAssignmentMutationOperator.canBeApplied findPossibleApplication
  cases instruction with
  | store storedValue pointer =>
    cases htype : storedValue.getType <;>
      simp [htype, LType.isIntegerTy, LType.isFloatTy, LType.isDoubleTy]
  | call callee arguments => simp
  | ret operand => simp
  | terminator id => simp
  | other id => simp

/-- The replacement for a type the operator applies to: the constant 42 of that
type. -/
theorem getReplacement_of_applicable (type : LType)
    (happlicable : (∃ width, type = LType.integer width) ∨ type = LType.float ∨
      type = LType.double) :
    ∃ replacement, getReplacement type = some replacement ∧ replacement.getType = type ∧
      (∀ width, type = LType.integer width →
        replacement = Value.constantInt width (42 % 2 ^ width)) ∧
      (type = LType.float → replacement = Value.constantFP LType.float 42) ∧
      (type = LType.double → replacement = Value.constantFP LType.double 42) ∧
      ∀ old, Value.replaceUsesWith old replacement replacement = replacement := by
  rcases happlicable with ⟨width, rfl⟩ | rfl | rfl
  · refine ⟨Value.constantInt width (42 % 2 ^ width), rfl, rfl, ?_, ?_, ?_, ?_⟩
    · intro w hw
      cases hw
      rfl
    · intro h; cases h
    · intro h; cases h
    · intro old
      unfold Value.replaceUsesWith
      split <;> rfl
  · refine ⟨Value.constantFP LType.float 42, rfl, rfl, ?_, ?_, ?_, ?_⟩
    · intro w hw; cases hw
    · intro _; rfl
    · intro h; cases h
    · intro old
      unfold Value.replaceUsesWith
      split <;> rfl
  · refine ⟨Value.constantFP LType.double 42, rfl, rfl, ?_, ?_, ?_, ?_⟩
    · intro w hw; cases hw
    · intro h; cases h
    · intro _; rfl
    · intro old
      unfold Value.replaceUsesWith
      split <;> rfl

/-! ## The claims -/

/-- C4.  For each of the three adapters and every `int` value `v` that the
framework's run entry point returns (`UnitTest::Run` for the GoogleTest and
CPPUnit adapters, `main` for the custom adapter): when every name `runTest`
looks up is found, the entry point is called and `runTest` returns the status
`Passed` when `v = 0` and `Failed` for every other value, negative ones
included; whenever the entry point is called, `runTest` returns that status;
and whenever `runTest` returns a status at all, the entry point has been called
and the status is `Passed` exactly when `v = 0` and `Failed` exactly when
`v ≠ 0`, never another one. -/
theorem C4_runTest_passed_iff_zero (jit : Jit) (gtest cppunit : GoogleTest_Test)
    (custom : CustomTest_Test) (objectFiles : List Nat) (argc : Int)
    (argv : List (Option String))
    (hlo : -2 ^ 31 ≤ jit.returnValue) (hhi : jit.returnValue < 2 ^ 31) :
    ((RunnerEvent.callRun ∈ (GoogleTestRunner.runTest jit gtest objectFiles).events →
        (GoogleTestRunner.runTest jit gtest objectFiles).outcome =
          RunnerOutcome.returned
            (if jit.returnValue = 0 then ExecutionStatus.Passed else ExecutionStatus.Failed)) ∧
      (RunnerEvent.callRun ∈ (CPPUnitRunner.runTest jit cppunit objectFiles).events →
        (CPPUnitRunner.runTest jit cppunit objectFiles).outcome =
          RunnerOutcome.returned
            (if jit.returnValue = 0 then ExecutionStatus.Passed else ExecutionStatus.Failed)) ∧
      (RunnerEvent.callMain argc argv ∈ (CustomTestRunner.runTest jit custom objectFiles).events →
        (CustomTestRunner.runTest jit custom objectFiles).outcome =
          RunnerOutcome.returned
            (if jit.returnValue = 0 then ExecutionStatus.Passed else ExecutionStatus.Failed))) ∧
      (((∀ name ∈ GoogleTestRunner.lookups jit gtest, jit.findSymbol name ≠ 0) →
          RunnerEvent.callRun ∈ (GoogleTestRunner.runTest jit gtest objectFiles).events ∧
          (GoogleTestRunner.runTest jit gtest objectFiles).outcome =
            RunnerOutcome.returned
              (if jit.returnValue = 0 then ExecutionStatus.Passed
               else ExecutionStatus.Failed)) ∧
        ((∀ name ∈ CPPUnitRunner.lookups jit cppunit, jit.findSymbol name ≠ 0) →
          RunnerEvent.callRun ∈ (CPPUnitRunner.runTest jit cppunit objectFiles).events ∧
          (CPPUnitRunner.runTest jit cppunit objectFiles).outcome =
            RunnerOutcome.returned
              (if jit.returnValue = 0 then ExecutionStatus.Passed
               else ExecutionStatus.Failed)) ∧
        ((∀ name ∈ CustomTestRunner.lookups jit custom, jit.findSymbol name ≠ 0) →
          (∃ argc1 argv1, RunnerEvent.callMain argc1 argv1 ∈
            (CustomTestRunner.runTest jit custom objectFiles).events) ∧
          (CustomTestRunner.runTest jit custom objectFiles).outcome =
            RunnerOutcome.returned
              (if jit.returnValue = 0 then ExecutionStatus.Passed
               else ExecutionStatus.Failed))) ∧
      ((∀ status, (GoogleTestRunner.runTest jit gtest objectFiles).outcome =
            RunnerOutcome.returned status →
          RunnerEvent.callRun ∈ (GoogleTestRunner.runTest jit gtest objectFiles).events ∧
          (status = ExecutionStatus.Passed ↔ jit.returnValue = 0) ∧
          (status = ExecutionStatus.Failed ↔ jit.returnValue ≠ 0)) ∧
        (∀ status, (CPPUnitRunner.runTest jit cppunit objectFiles).outcome =
            RunnerOutcome.returned status →
          RunnerEvent.callRun ∈ (CPPUnitRunner.runTest jit cppunit objectFiles).events ∧
          (status = ExecutionStatus.Passed ↔ jit.returnValue = 0) ∧
          (status = ExecutionStatus.Failed ↔ jit.returnValue ≠ 0)) ∧
        (∀ status, (CustomTestRunner.runTest jit custom objectFiles).outcome =
            RunnerOutcome.returned status →
          (∃ argc1 argv1, RunnerEvent.callMain argc1 argv1 ∈
            (CustomTestRunner.runTest jit custom objectFiles).events) ∧
          (status = ExecutionStatus.Passed ↔ jit.returnValue = 0) ∧
          (status = ExecutionStatus.Failed ↔ jit.returnValue ≠ 0))) := by
  have hz : (toUInt64 jit.returnValue = 0) = (jit.returnValue = 0) :=
    propext (toUInt64_eq_zero_iff jit.returnValue hlo hhi)
  have hstatus : ∀ status : ExecutionStatus,
      status = (if jit.returnValue = 0 then ExecutionStatus.Passed
        else ExecutionStatus.Failed) →
      (status = ExecutionStatus.Passed ↔ jit.returnValue = 0) ∧
        (status = ExecutionStatus.Failed ↔ jit.returnValue ≠ 0) := by
    intro status heq
    by_cases hv : jit.returnValue = 0
    · rw [if_pos hv] at heq
      subst heq
      simp [hv]
    · rw [if_neg hv] at heq
      subst heq
      simp [hv]
  have hgoogle : (∀ name ∈ GoogleTestRunner.lookups jit gtest, jit.findSymbol name ≠ 0) →
      RunnerEvent.callRun ∈ (GoogleTestRunner.runTest jit gtest objectFiles).events ∧
      (GoogleTestRunner.runTest jit gtest objectFiles).outcome =
        RunnerOutcome.returned
          (if jit.returnValue = 0 then ExecutionStatus.Passed else ExecutionStatus.Failed) := by
    intro hall
    obtain ⟨called, hevents, houtcome⟩ := (GoogleTest_runTest_shape jit gtest objectFiles).2 hall
    rw [hevents, houtcome]
    simp only [hz]
    exact ⟨by simp, trivial⟩
  have hcppunit : (∀ name ∈ CPPUnitRunner.lookups jit cppunit, jit.findSymbol name ≠ 0) →
      RunnerEvent.callRun ∈ (CPPUnitRunner.runTest jit cppunit objectFiles).events ∧
      (CPPUnitRunner.runTest jit cppunit objectFiles).outcome =
        RunnerOutcome.returned
          (if jit.returnValue = 0 then ExecutionStatus.Passed else ExecutionStatus.Failed) := by
    intro hall
    obtain ⟨called, hevents, houtcome⟩ := (CPPUnit_runTest_shape jit cppunit objectFiles).2 hall
    rw [hevents, houtcome]
    simp only [hz]
    exact ⟨by simp, trivial⟩
  have hcustom : (∀ name ∈ CustomTestRunner.lookups jit custom, jit.findSymbol name ≠ 0) →
      (∃ argc1 argv1, RunnerEvent.callMain argc1 argv1 ∈
        (CustomTestRunner.runTest jit custom objectFiles).events) ∧
      (CustomTestRunner.runTest jit custom objectFiles).outcome =
        RunnerOutcome.returned
          (if jit.returnValue = 0 then ExecutionStatus.Passed else ExecutionStatus.Failed) := by
    intro hall
    obtain ⟨called, hevents, houtcome⟩ := (CustomTest_runTest_shape jit custom objectFiles).2 hall
    rw [hevents, houtcome]
    refine ⟨⟨((custom.programName :: custom.arguments).length : Nat),
      (custom.programName :: custom.arguments).map (fun argument => some (strcpy argument)) ++
        [none], ?_⟩, rfl⟩
    exact List.mem_cons_of_mem _ (List.mem_append_right _ (List.mem_cons_self _ _))
  refine ⟨⟨fun h => ?_, fun h => ?_, fun h => ?_⟩, ⟨hgoogle, hcppunit, hcustom⟩, ?_, ?_, ?_⟩
  · rw [GoogleTest_runTest_of_callRun jit gtest objectFiles h]
    simp only [hz]
  · rw [CPPUnit_runTest_of_callRun jit cppunit objectFiles h]
    simp only [hz]
  · exact CustomTest_runTest_of_callMain jit custom objectFiles argc argv h
  · intro status hreturned
    by_cases hall : ∀ name ∈ GoogleTestRunner.lookups jit gtest, jit.findSymbol name ≠ 0
    · obtain ⟨hcall, houtcome⟩ := hgoogle hall
      rw [houtcome] at hreturned
      exact ⟨hcall, hstatus status (RunnerOutcome.returned.inj hreturned).symm⟩
    · have hmissing : ∃ name ∈ GoogleTestRunner.lookups jit gtest, jit.findSymbol name = 0 := by
        by_contra hnone
        exact hall (fun name hname hzero => hnone ⟨name, hname, hzero⟩)
      rw [((GoogleTest_runTest_shape jit gtest objectFiles).1 hmissing).1] at hreturned
      cases hreturned
  · intro status hreturned
    by_cases hall : ∀ name ∈ CPPUnitRunner.lookups jit cppunit, jit.findSymbol name ≠ 0
    · obtain ⟨hcall, houtcome⟩ := hcppunit hall
      rw [houtcome] at hreturned
      exact ⟨hcall, hstatus status (RunnerOutcome.returned.inj hreturned).symm⟩
    · have hmissing : ∃ name ∈ CPPUnitRunner.lookups jit cppunit, jit.findSymbol name = 0 := by
        by_contra hnone
        exact hall (fun name hname hzero => hnone ⟨name, hname, hzero⟩)
      rw [(CPPUnit_runTest_shape jit cppunit objectFiles).1 hmissing] at hreturned
      cases hreturned
  · intro status hreturned
    by_cases hall : ∀ name ∈ CustomTestRunner.lookups jit custom, jit.findSymbol name ≠ 0
    · obtain ⟨hcall, houtcome⟩ := hcustom hall
      rw [houtcome] at hreturned
      exact ⟨hcall, hstatus status (RunnerOutcome.returned.inj hreturned).symm⟩
    · have hmissing : ∃ name ∈ CustomTestRunner.lookups jit custom, jit.findSymbol name = 0 := by
        by_contra hnone
        exact hall (fun name hname hzero => hnone ⟨name, hname, hzero⟩)
      rw [((CustomTest_runTest_shape jit custom objectFiles).1 hmissing).1] at hreturned
      cases hreturned

/-- C4, at two JITs that find every symbol.  When the entry point returns 0, the
three adapters report `Passed`; when it returns `-1`, the three adapters call
it and report `Failed`. -/
theorem C4_runTest_passed_iff_zero_witness :
    ((-2 ^ 31 ≤ passingJit.returnValue ∧ passingJit.returnValue < 2 ^ 31) ∧
        passingJit.returnValue = 0 ∧
        (GoogleTestRunner.runTest passingJit ⟨"T.a", ["c"]⟩ [500]).outcome =
          RunnerOutcome.returned ExecutionStatus.Passed ∧
        (CPPUnitRunner.runTest passingJit ⟨"T.a", ["c"]⟩ [500]).outcome =
          RunnerOutcome.returned ExecutionStatus.Passed ∧
        (CustomTestRunner.runTest passingJit ⟨"prog", ["x"], ["c"]⟩ [500]).outcome =
          RunnerOutcome.returned ExecutionStatus.Passed) ∧
      (-2 ^ 31 ≤ sampleJit.returnValue ∧ sampleJit.returnValue < 2 ^ 31) ∧
      sampleJit.returnValue = -1 ∧
      RunnerEvent.callRun ∈ (GoogleTestRunner.runTest sampleJit ⟨"T.a", ["c"]⟩ [500]).events ∧
      RunnerEvent.callRun ∈ (CPPUnitRunner.runTest sampleJit ⟨"T.a", ["c"]⟩ [500]).events ∧
      (GoogleTestRunner.runTest sampleJit ⟨"T.a", ["c"]⟩ [500]).outcome =
        RunnerOutcome.returned ExecutionStatus.Failed ∧
      (CPPUnitRunner.runTest sampleJit ⟨"T.a", ["c"]⟩ [500]).outcome =
        RunnerOutcome.returned ExecutionStatus.Failed ∧
      (CustomTestRunner.runTest sampleJit ⟨"prog", ["x"], ["c"]⟩ [500]).outcome =
        RunnerOutcome.returned ExecutionStatus.Failed :=
  ⟨⟨⟨by decide, by decide⟩, rfl,
      ((C4_runTest_passed_iff_zero passingJit ⟨"T.a", ["c"]⟩ ⟨"T.a", ["c"]⟩
        ⟨"prog", ["x"], ["c"]⟩ [500] 2 [some "prog", some "x", none] (by decide)
        (by decide)).2.1.1 (fun _ _ => Nat.one_ne_zero)).2,
      ((C4_runTest_passed_iff_zero passingJit ⟨"T.a", ["c"]⟩ ⟨"T.a", ["c"]⟩
        ⟨"prog", ["x"], ["c"]⟩ [500] 2 [some "prog", some "x", none] (by decide)
        (by decide)).2.1.2.1 (fun _ _ => Nat.one_ne_zero)).2,
      ((C4_runTest_passed_iff_zero passingJit ⟨"T.a", ["c"]⟩ ⟨"T.a", ["c"]⟩
        ⟨"prog", ["x"], ["c"]⟩ [500] 2 [some "prog", some "x", none] (by decide)
        (by decide)).2.1.2.2 (fun _ _ => Nat.one_ne_zero)).2⟩,
    ⟨by decide, by decide⟩, rfl,
    ((C4_runTest_passed_iff_zero sampleJit ⟨"T.a", ["c"]⟩ ⟨"T.a", ["c"]⟩
      ⟨"prog", ["x"], ["c"]⟩ [500] 2 [some "prog", some "x", none] (by decide)
      (by decide)).2.1.1 (fun _ _ => Nat.one_ne_zero)).1,
    ((C4_runTest_passed_iff_zero sampleJit ⟨"T.a", ["c"]⟩ ⟨"T.a", ["c"]⟩
      ⟨"prog", ["x"], ["c"]⟩ [500] 2 [some "prog", some "x", none] (by decide)
      (by decide)).2.1.2.1 (fun _ _ => Nat.one_ne_zero)).1,
    (C4_runTest_passed_iff_zero sampleJit ⟨"T.a", ["c"]⟩ ⟨"T.a", ["c"]⟩
      ⟨"prog", ["x"], ["c"]⟩ [500] 2 [some "prog", some "x", none] (by decide)
      (by decide)).1.1 (by decide),
    (C4_runTest_passed_iff_zero sampleJit ⟨"T.a", ["c"]⟩ ⟨"T.a", ["c"]⟩
      ⟨"prog", ["x"], ["c"]⟩ [500] 2 [some "prog", some "x", none] (by decide)
      (by decide)).1.2.1 (by decide),
    (C4_runTest_passed_iff_zero sampleJit ⟨"T.a", ["c"]⟩ ⟨"T.a", ["c"]⟩
      ⟨"prog", ["x"], ["c"]⟩ [500] 2 [some "prog", some "x", none] (by decide)
      (by decide)).1.2.2 (by decide)⟩

/-- C1.  Every sandboxed mutant run of `Driver::Run` (a run for a mutation point
and one of its reachable tests) whose test has the stored original running
time `r`, with `0 ≤ r` and `10 * r` below `2 ^ 63`, is given the timeout
`max 30 (10 * r)`, which is at least 30. -/
theorem C1_mutant_timeout (cfg : Config) (env : Collaborators) (request : SandboxRequest)
    (point : Nat) (r : Int)
    (hrun : Event.sandboxRun request ∈ (Driver.Run cfg env).trace)
    (hmutant : request.mutant = some point)
    (hr : ((Driver.Run cfg env).tests request.test).runningTime = r)
    (h0 : 0 ≤ r) (hrep : 10 * r < 2 ^ 63) :
    request.timeout = max 30 (10 * r) ∧ 30 ≤ request.timeout := by
  obtain ⟨_, hcases⟩ := sandboxRun_cases cfg env request hrun
  rcases hcases with ⟨test, _, heq⟩ | ⟨point1, k, _, _, _, htimeout, _⟩
  · rw [heq] at hmutant
    cases hmutant
  · rw [htimeout, hr, sandboxTimeout_eq r h0 hrep]
    exact ⟨rfl, le_max_left _ _⟩

/-- C1, at the sample input with dry run off: test 0 ran 2 ms, and the mutant
run of point 42 for it gets 30 ms. -/
theorem C1_mutant_timeout_witness :
    Event.sandboxRun ⟨some 42, 0, [900, 700], 30, [1, 0], []⟩ ∈
        (Driver.Run sampleConfig sampleEnv).trace ∧
      ((Driver.Run sampleConfig sampleEnv).tests 0).runningTime = 2 ∧
      (30 : Int) = max 30 (10 * 2) :=
  ⟨by decide, by decide,
    (C1_mutant_timeout sampleConfig sampleEnv ⟨some 42, 0, [900, 700], 30, [1, 0], []⟩ 42 2
      (by decide) rfl (by decide) (by decide) (by decide)).1⟩

/-- C2.  At the dry-run configuration whose dynamic-library list has an empty
line, with two found tests and a function table of two entries,
`Cfg.getDynamicLibrariesPaths()` throws between `findTests` and the loop over the
found tests: no test is run through the sandbox and `Run` returns no result.
With a list of two libraries and no empty line, the same input runs each of the
two tests once.  For every configuration with `dry_run` set, `Driver::Run` starts
no sandboxed run for a mutant and every mutation result it records has status
`DryRun`; and when the function table has the two entries `prepareForExecution`
asserts and the list of dynamic libraries is read without an exception, the
sandboxed runs are exactly one per found test, in order, each with the unmutated
object files and the configured timeout, and `Run` returns a result whose
mutation results all have status `DryRun`. -/
theorem C2_dry_run_tests_not_run_after_empty_line :
    (emptyLineConfig.dryRun = true ∧ sampleEnv.testsCount = 2 ∧
        2 ≤ (loadPhase sampleEnv).driver.functions.length ∧
        emptyLineConfig.getDynamicLibrariesPaths sampleEnv.files = none ∧
        sandboxRuns (Driver.Run emptyLineConfig sampleEnv).trace = [] ∧
        (Driver.Run emptyLineConfig sampleEnv).result sampleEnv = none) ∧
      (librariesConfig.dryRun = true ∧
        (Driver.Run librariesConfig sampleEnv).loadedLibraries =
          ["libz.dylib".toList, "libm.dylib".toList] ∧
        sandboxRuns (Driver.Run librariesConfig sampleEnv).trace =
          [⟨none, 0, [500, 900], 3000, [0, 0], []⟩, ⟨none, 1, [500, 900], 3000, [0, 0], []⟩] ∧
        (Driver.Run librariesConfig sampleEnv).mutationResults.map (fun r => r.result.status) =
          [ExecutionStatus.DryRun]) ∧
      ∀ (cfg : Config) (env : Collaborators), cfg.dryRun = true →
        (∀ request ∈ sandboxRuns (Driver.Run cfg env).trace, request.mutant = none) ∧
        (∀ r ∈ (Driver.Run cfg env).mutationResults,
          r.result.status = ExecutionStatus.DryRun) ∧
        (2 ≤ (loadPhase env).driver.functions.length →
          cfg.getDynamicLibrariesPaths env.files ≠ none →
          sandboxRuns (Driver.Run cfg env).trace =
              (List.range env.testsCount).map (fun test =>
                { mutant := none, test := test,
                  objectFiles := (loadPhase env).driver.AllObjectFiles,
                  timeout := cfg.timeout,
                  callTreeMapping := List.replicate (loadPhase env).driver.functions.length 0,
                  callstack := [] }) ∧
            ∃ result, (Driver.Run cfg env).result env = some result ∧
              ∀ r ∈ result.mutationResults, r.result.status = ExecutionStatus.DryRun) := by
  refine ⟨by decide, by decide, ?_⟩
  intro cfg env hdry
  have hresults : ∀ r ∈ (Driver.Run cfg env).mutationResults,
      r.result.status = ExecutionStatus.DryRun := by
    intro r hr
    by_cases hready : 2 ≤ (loadPhase env).driver.functions.length ∧
        cfg.getDynamicLibrariesPaths env.files ≠ none
    swap
    · rw [(Run_early cfg env hready).2.2.2.2.2.1] at hr
      cases hr
    · obtain ⟨_, _, _, _, hres, _⟩ := Run_spec cfg env hready.1 hready.2
      exact ((hres r hr).2 hdry).1
  refine ⟨?_, hresults, fun hmany hlibs => ⟨?_, ?_⟩⟩
  · intro request hmem
    obtain ⟨_, hcases⟩ :=
      sandboxRun_cases cfg env request ((mem_sandboxRuns request _).mp hmem)
    rcases hcases with ⟨test, _, heq⟩ | ⟨_, _, _, _, _, _, hoff⟩
    · rw [heq]
      rfl
    · rw [hdry] at hoff
      cases hoff
  · obtain ⟨_, _, _, ⟨added, htrace, hadded⟩, _, _⟩ := Run_spec cfg env hmany hlibs
    have hnone : sandboxRuns added = [] := by
      apply sandboxRuns_eq_nil
      intro request hmem
      obtain ⟨_, _, _, _, _, _, _, _, hoff⟩ := hadded _ hmem
      rw [hdry] at hoff
      cases hoff
    rw [htrace, sandboxRuns_append, sandboxRuns_append, hnone,
      sandboxRuns_flatMap_originalEvents,
      sandboxRuns_eq_nil _ (no_sandboxRun_in_loadPhase env)]
    simp only [List.nil_append, List.append_nil]
    rfl
  · obtain ⟨_, _, _, _, _, hok⟩ := Run_spec cfg env hmany hlibs
    refine ⟨{ tests := (List.range env.testsCount).map (Driver.Run cfg env).tests
              mutationResults := (Driver.Run cfg env).mutationResults
              allMutationPoints := (Driver.Run cfg env).allMutationPoints }, ?_, hresults⟩
    unfold RunState.result
    rw [hok hdry]
    rfl

/-- C3, refuted as stated.  At the sample input with dry run on, test 0 has the
stored running time 2 ms, and the result recorded for it carries the running
time 20, not `max 30 (10 * 2) = 30`. -/
theorem C3_dry_run_record_counterexample :
    ¬ (∀ r ∈ (Driver.Run dryRunConfig sampleEnv).mutationResults,
        r.result.runningTime =
          max 30 (10 * ((Driver.Run dryRunConfig sampleEnv).tests r.test).runningTime)) := by
  decide

/-- C3, amended.  In dry-run mode every result recorded for a mutation point and
a test has status `DryRun`, empty stdout and stderr, and as running time ten
times the stored original running time of the test as a `long long`, which is
`10 * t` whenever that fits 64 bits; the value is not raised to 30. -/
theorem C3_dry_run_record (cfg : Config) (env : Collaborators) (r : MutationResult)
    (hdry : cfg.dryRun = true) (hr : r ∈ (Driver.Run cfg env).mutationResults) :
    r.result.status = ExecutionStatus.DryRun ∧
      r.result.runningTime =
        wrapInt64 (((Driver.Run cfg env).tests r.test).runningTime * 10) ∧
      (∀ t, ((Driver.Run cfg env).tests r.test).runningTime = t →
        -2 ^ 63 ≤ 10 * t → 10 * t < 2 ^ 63 → r.result.runningTime = 10 * t) ∧
      r.result.stdoutOutput = "" ∧ r.result.stderrOutput = "" := by
  by_cases hready : 2 ≤ (loadPhase env).driver.functions.length ∧
      cfg.getDynamicLibrariesPaths env.files ≠ none
  swap
  · rw [(Run_early cfg env hready).2.2.2.2.2.1] at hr
    cases hr
  · obtain ⟨_, _, _, _, hres, _⟩ := Run_spec cfg env hready.1 hready.2
    obtain ⟨h1, h2, h3, h4⟩ := (hres r hr).2 hdry
    refine ⟨h1, h2, ?_, h3, h4⟩
    intro t ht hlo hhi
    rw [h2, ht]
    unfold wrapInt64
    omega

/-- C3 amended, at the sample input with dry run on: the result recorded for
point 42 and test 0 is `DryRun` with running time `10 * 2`. -/
theorem C3_dry_run_record_witness :
    dryRunConfig.dryRun = true ∧
      (⟨⟨ExecutionStatus.DryRun, 12345, 20, "", ""⟩, 42, 1, 0⟩ : MutationResult) ∈
        (Driver.Run dryRunConfig sampleEnv).mutationResults ∧
      ((Driver.Run dryRunConfig sampleEnv).tests 0).runningTime = 2 ∧
      (20 : Int) = 10 * 2 :=
  ⟨rfl, by decide, by decide,
    (C3_dry_run_record dryRunConfig sampleEnv ⟨⟨ExecutionStatus.DryRun, 12345, 20, "", ""⟩, 42, 1, 0⟩
      rfl (by decide)).2.2.1 2 (by decide) (by decide) (by decide)⟩

/-- C7, refuted as stated.  At the sample input with dry run off, the mutant
run of point 42 begins with the buffer the last original run left behind, in
which slot 0 holds 1. -/
theorem C7_buffer_reset_counterexample :
    ¬ (∀ request ∈ sandboxRuns (Driver.Run sampleConfig sampleEnv).trace,
        (∀ slot ∈ request.callTreeMapping, slot = 0) ∧ request.callstack = []) := by
  decide

/-- C7, amended.  At the moment the sandboxed run of an original test begins,
the shared buffer has one slot per entry of the function table, every slot is
zero, and the driver's call stack is empty. -/
theorem C7_buffer_reset_original_runs (cfg : Config) (env : Collaborators)
    (request : SandboxRequest)
    (hrun : Event.sandboxRun request ∈ (Driver.Run cfg env).trace)
    (horiginal : request.mutant = none) :
    (∀ slot ∈ request.callTreeMapping, slot = 0) ∧
      request.callTreeMapping.length = (Driver.Run cfg env).driver.functions.length ∧
      request.callstack = [] := by
  obtain ⟨⟨hmany, hlibs⟩, hcases⟩ := sandboxRun_cases cfg env request hrun
  rcases hcases with ⟨test, _, heq⟩ | ⟨point, _, _, hmutant, _⟩
  · obtain ⟨_, _, hfunctions, _⟩ := Run_spec cfg env hmany hlibs
    rw [heq, hfunctions]
    refine ⟨?_, ?_, rfl⟩
    · intro slot hslot
      exact List.eq_of_mem_replicate hslot
    · simp [originalRequest]
  · rw [horiginal] at hmutant
    cases hmutant

/-- C7 amended, at the sample input: the original run of test 1 begins with two
zeroed slots and an empty call stack, although test 0 ran before it. -/
theorem C7_buffer_reset_original_runs_witness :
    Event.sandboxRun ⟨none, 1, [500, 900], 3000, [0, 0], []⟩ ∈
        (Driver.Run sampleConfig sampleEnv).trace ∧
      (Driver.Run sampleConfig sampleEnv).driver.functions.length = 2 ∧
      ∀ slot ∈ [0, 0], slot = 0 :=
  ⟨by decide, by decide,
    (C7_buffer_reset_original_runs sampleConfig sampleEnv ⟨none, 1, [500, 900], 3000, [0, 0], []⟩
      (by decide) rfl).1⟩

/-- C5.  For a test whose stored original status is not `Passed`, `Driver::Run`
makes no call that derives testees for it and no call to the mutations finder
on its behalf.  Hence, when `createTestees` tags its testees with the test it
is called for and the finder puts into a point's reachable tests only tests of
testees it was queried with, the test is in no mutation point's reachable
tests. -/
theorem C5_only_passed_tests_select (cfg : Config) (env : Collaborators) (test : Nat)
    (hstatus : ((Driver.Run cfg env).tests test).status ≠ ExecutionStatus.Passed) :
    (∀ e ∈ (Driver.Run cfg env).trace, e.selectsFor test = false) ∧
      ((∀ t functions mapping maxDistance, ∀ testee ∈
            env.createTestees t functions mapping maxDistance, testee.test = t) →
        (∀ queries point t d, (t, d) ∈ env.getReachableTests queries point →
            ∃ q ∈ queries, q.test = t) →
        ∀ point d, (test, d) ∉ env.getReachableTests (Driver.Run cfg env).queries point) := by
  have hnone : ∀ e ∈ (Driver.Run cfg env).trace, e.selectsFor test = false := by
    intro e he
    cases hsel : e.selectsFor test with
    | false => rfl
    | true =>
      obtain ⟨⟨hmany, hlibs⟩, hlt, hpassed⟩ := selectsFor_in_trace cfg env test e he hsel
      obtain ⟨htests, _⟩ := Run_spec cfg env hmany hlibs
      rw [htests test, if_pos hlt] at hstatus
      exact absurd hpassed hstatus
  refine ⟨hnone, ?_⟩
  intro htestee hfinder point d hmem
  obtain ⟨q, hq, hqtest⟩ := hfinder _ _ _ _ hmem
  by_cases hready : 2 ≤ (loadPhase env).driver.functions.length ∧
      cfg.getDynamicLibrariesPaths env.files ≠ none
  swap
  · rw [(Run_early cfg env hready).2.2.2.1] at hq
    cases hq
  · obtain ⟨htests, hqueries, _⟩ := Run_spec cfg env hready.1 hready.2
    rw [hqueries] at hq
    obtain ⟨t, ht, hqt⟩ := List.mem_flatMap.mp hq
    unfold originalQueries at hqt
    split at hqt
    · rename_i hpassed
      have hqmem := List.mem_of_mem_tail hqt
      have : q.test = t := htestee _ _ _ _ q hqmem
      rw [hqtest] at this
      subst this
      rw [htests test, if_pos (List.mem_range.mp ht)] at hstatus
      exact hstatus hpassed
    · cases hqt

/-- C5, at the sample input: test 1 fails, nothing is selected on its behalf,
and it is in no reachable-tests list. -/
theorem C5_only_passed_tests_select_witness :
    ((Driver.Run sampleConfig sampleEnv).tests 1).status ≠ ExecutionStatus.Passed ∧
      (∀ e ∈ (Driver.Run sampleConfig sampleEnv).trace, e.selectsFor 1 = false) ∧
      ∀ point d, (1, d) ∉
        sampleEnv.getReachableTests (Driver.Run sampleConfig sampleEnv).queries point :=
  ⟨by decide,
    (C5_only_passed_tests_select sampleConfig sampleEnv 1 (by decide)).1,
    (C5_only_passed_tests_select sampleConfig sampleEnv 1 (by decide)).2
      (by
        intro t functions mapping maxDistance testee h
        simp only [sampleEnv, List.mem_cons, List.mem_singleton, List.not_mem_nil, or_false] at h
        rcases h with h | h <;> rw [h])
      (by
        intro queries point t d h
        obtain ⟨q, hq, heq⟩ := List.mem_map.mp h
        exact ⟨q, hq, congrArg Prod.fst heq⟩)⟩

/-- C6.  For a found test whose stored original status is `Passed` (the function
table having the two entries `prepareForExecution` asserts and the list of
dynamic libraries being read without an exception, so that the loop over the
found tests is reached), the testees put to the mutations finder on its behalf
are exactly the testee list returned for it without its first element, in list
order; an empty testee list gives no query; and when no testee after the first
has distance 0, as `createTestees` promises, no query is for a testee of
distance 0. -/
theorem C6_first_testee_skipped (cfg : Config) (env : Collaborators) (test : Nat)
    (hmany : 2 ≤ (loadPhase env).driver.functions.length)
    (hlibs : cfg.getDynamicLibrariesPaths env.files ≠ none)
    (htest : test < env.testsCount)
    (hstatus : ((Driver.Run cfg env).tests test).status = ExecutionStatus.Passed) :
    queriesFor test (Driver.Run cfg env).trace =
        (originalTestees cfg env (loadPhase env).driver.functions
          (loadPhase env).driver.AllObjectFiles test).tail ∧
      (originalTestees cfg env (loadPhase env).driver.functions
          (loadPhase env).driver.AllObjectFiles test = [] →
        queriesFor test (Driver.Run cfg env).trace = []) ∧
      ((∀ t functions mapping maxDistance, ∀ testee ∈
            (env.createTestees t functions mapping maxDistance).tail, testee.distance ≠ 0) →
        ∀ q ∈ queriesFor test (Driver.Run cfg env).trace, q.distance ≠ 0) := by
  obtain ⟨htests, _, _, ⟨added, htrace, hadded⟩, _, _⟩ := Run_spec cfg env hmany hlibs
  rw [htests test, if_pos htest] at hstatus
  have hqueries : queriesFor test (Driver.Run cfg env).trace =
      (originalTestees cfg env (loadPhase env).driver.functions
        (loadPhase env).driver.AllObjectFiles test).tail := by
    rw [htrace, queriesFor_append, queriesFor_append,
      queriesFor_flatMap_originalEvents cfg env _ _ test _ (List.nodup_range _),
      if_pos (List.mem_range.mpr htest)]
    have hload : queriesFor test (loadPhase env).trace = [] := by
      apply queriesFor_eq_nil
      intro e he
      obtain ⟨m, f, i, heq⟩ := (loadPhase_spec env).2.2.2.2.2.2.2.2 e he
      rw [heq]
      rfl
    have hadd : queriesFor test added = [] := by
      apply queriesFor_eq_nil
      intro e he
      obtain ⟨request, _, _, heq, _⟩ := hadded e he
      rw [heq]
      rfl
    rw [hload, hadd]
    unfold originalQueries
    rw [if_pos hstatus]
    simp
  refine ⟨hqueries, ?_, ?_⟩
  · intro hempty
    rw [hqueries, hempty]
    rfl
  · intro hdistance q hq
    rw [hqueries] at hq
    exact hdistance _ _ _ _ q hq

/-- C6, at the sample input: test 0 passes, its testee list is the test itself
followed by `sum` at distance 1, and the finder is asked about `sum` only. -/
theorem C6_first_testee_skipped_witness :
    (2 ≤ (loadPhase sampleEnv).driver.functions.length ∧
        sampleConfig.getDynamicLibrariesPaths sampleEnv.files ≠ none ∧
        0 < sampleEnv.testsCount ∧
        ((Driver.Run sampleConfig sampleEnv).tests 0).status = ExecutionStatus.Passed) ∧
      originalTestees sampleConfig sampleEnv (loadPhase sampleEnv).driver.functions
        (loadPhase sampleEnv).driver.AllObjectFiles 0 = [⟨⟨0, 0⟩, 0, 0⟩, ⟨⟨0, 2⟩, 0, 1⟩] ∧
      queriesFor 0 (Driver.Run sampleConfig sampleEnv).trace =
        (originalTestees sampleConfig sampleEnv (loadPhase sampleEnv).driver.functions
          (loadPhase sampleEnv).driver.AllObjectFiles 0).tail ∧
      ∀ q ∈ queriesFor 0 (Driver.Run sampleConfig sampleEnv).trace, q.distance ≠ 0 :=
  ⟨⟨by decide, by decide, by decide, by decide⟩, by decide,
    (C6_first_testee_skipped sampleConfig sampleEnv 0 (by decide) (by decide) (by decide)
      (by decide)).1,
    (C6_first_testee_skipped sampleConfig sampleEnv 0 (by decide) (by decide) (by decide)
      (by decide)).2.2
      (by
        intro t functions mapping maxDistance testee h
        simp only [sampleEnv, List.tail_cons, List.mem_singleton] at h
        subst h
        simp)⟩

/-- C8, at the failing input.  Two modules are loaded and the object cache
already holds an object file for the first one.  Its two defined functions
(positions 0 and 2) get no entry in the function table, hence no ID; the table
holds the two functions of the second module only, with IDs 0 and 1. -/
theorem C8_cached_module_gets_no_ids :
    (sampleFunction "test_sum").isDeclaration = false ∧
      cachedEnv.getObject 0 = some 400 ∧
      (loadPhase cachedEnv).driver.functions = [⟨1, 0⟩, ⟨1, 1⟩] ∧
      (⟨0, 0⟩ : CallTreeFunction) ∉ (loadPhase cachedEnv).driver.functions ∧
      (⟨0, 2⟩ : CallTreeFunction) ∉ (loadPhase cachedEnv).driver.functions := by
  decide

/-- C10.  The object files of every mutant run of `Driver::Run` are
`objectFilesWithMutant` for the point's original module `One` and the object
compiled for the mutant.  When `InnerCache` maps `One` to `object`, that list is
`AllObjectFiles()` with the entry of `One` taken out and the mutant put last, so
both lists have the same length; and when the object files of
`AllObjectFiles()` are pairwise distinct and the mutant is a new object, the
list holds every other object file exactly once, the mutant exactly once, and
never `object`. -/
theorem C10_object_files_with_mutant (cfg : Config) (env : Collaborators) (One mutant : Nat) :
    (∀ request point, Event.sandboxRun request ∈ (Driver.Run cfg env).trace →
        request.mutant = some point →
        ∃ k, request.objectFiles =
          (loadPhase env).driver.objectFilesWithMutant (env.getOriginalModule point)
            (env.compileMutant k point)) ∧
      (∀ object, (One, object) ∈ (loadPhase env).driver.InnerCache →
        (∃ before after,
          (loadPhase env).driver.AllObjectFiles = before ++ object :: after ∧
          (loadPhase env).driver.objectFilesWithMutant One mutant =
            before ++ after ++ [mutant]) ∧
        ((loadPhase env).driver.objectFilesWithMutant One mutant).length =
          (loadPhase env).driver.AllObjectFiles.length ∧
        ((loadPhase env).driver.AllObjectFiles.Nodup →
          mutant ∉ (loadPhase env).driver.AllObjectFiles →
          object ∉ (loadPhase env).driver.objectFilesWithMutant One mutant ∧
          ((loadPhase env).driver.objectFilesWithMutant One mutant).count mutant = 1 ∧
          ∀ other ∈ (loadPhase env).driver.AllObjectFiles, other ≠ object →
            ((loadPhase env).driver.objectFilesWithMutant One mutant).count other = 1)) := by
  refine ⟨?_, ?_⟩
  · intro request point hrun hmutant
    obtain ⟨_, hcases⟩ := sandboxRun_cases cfg env request hrun
    rcases hcases with ⟨test, _, heq⟩ | ⟨point1, k, _, hpoint, hobjects, _, _⟩
    · rw [heq] at hmutant
      cases hmutant
    · rw [hmutant] at hpoint
      cases hpoint
      exact ⟨k, hobjects⟩
  · intro object hcached
    obtain ⟨before, after, hsplit, hfilter⟩ :=
      filter_key_of_nodup One object _ (loadPhase_keys_nodup env) hcached
    have hall : (loadPhase env).driver.AllObjectFiles =
        before.map Prod.snd ++
          object :: (after.map Prod.snd ++ (loadPhase env).driver.precompiledObjectFiles) := by
      unfold Driver.AllObjectFiles
      rw [hsplit]
      simp
    have hwith : (loadPhase env).driver.objectFilesWithMutant One mutant =
        before.map Prod.snd ++
          (after.map Prod.snd ++ (loadPhase env).driver.precompiledObjectFiles) ++ [mutant] := by
      unfold Driver.objectFilesWithMutant Driver.AllButOne
      rw [hfilter]
      simp
    refine ⟨⟨_, _, hall, hwith⟩, ?_, ?_⟩
    · rw [hall, hwith]
      simp only [List.length_append, List.length_cons, List.length_map, List.length_nil]
      omega
    · intro hnodup hfresh
      rw [hall] at hnodup hfresh
      have hparts := List.nodup_append.mp hnodup
      have hcons := List.nodup_cons.mp hparts.2.1
      have hrest : (before.map Prod.snd ++
          (after.map Prod.snd ++ (loadPhase env).driver.precompiledObjectFiles)).Nodup := by
        refine List.nodup_append.mpr ⟨hparts.1, hcons.2, ?_⟩
        intro a ha hb
        exact hparts.2.2 ha (List.mem_cons_of_mem _ hb)
      have hnotin : object ∉ before.map Prod.snd ++
          (after.map Prod.snd ++ (loadPhase env).driver.precompiledObjectFiles) := by
        intro h
        rcases List.mem_append.mp h with h1 | h1
        · exact hparts.2.2 h1 (List.mem_cons_self _ _)
        · exact hcons.1 h1
      have hne : object ≠ mutant := by
        intro heq
        apply hfresh
        rw [← heq]
        exact List.mem_append_right _ (List.mem_cons_self _ _)
      have hmutant : mutant ∉ before.map Prod.snd ++
          (after.map Prod.snd ++ (loadPhase env).driver.precompiledObjectFiles) := by
        intro h
        apply hfresh
        rcases List.mem_append.mp h with h1 | h1
        · exact List.mem_append_left _ h1
        · exact List.mem_append_right _ (List.mem_cons_of_mem _ h1)
      have hall2 : (before.map Prod.snd ++
          (after.map Prod.snd ++ (loadPhase env).driver.precompiledObjectFiles) ++
            [mutant]).Nodup := by
        refine List.nodup_append.mpr ⟨hrest, List.nodup_singleton _, ?_⟩
        intro a ha hb
        rw [List.mem_singleton] at hb
        rw [hb] at ha
        exact hmutant ha
      rw [hwith]
      refine ⟨?_, ?_, ?_⟩
      · intro h
        rcases List.mem_append.mp h with h1 | h1
        · exact hnotin h1
        · exact hne (List.mem_singleton.mp h1)
      · exact List.count_eq_one_of_mem hall2
          (List.mem_append_right _ (List.mem_singleton_self _))
      · intro other hother hdiff
        rw [hall] at hother
        apply List.count_eq_one_of_mem hall2
        apply List.mem_append_left
        rcases List.mem_append.mp hother with h1 | h1
        · exact List.mem_append_left _ h1
        · rcases List.mem_cons.mp h1 with h2 | h2
          · exact absurd h2 hdiff
          · exact List.mem_append_right _ h2

/-- C10, at the sample input: the cache maps module 100 to object 500, the
unmutated list is `[500, 900]`, and the list with mutant 700 is `[900, 700]`. -/
theorem C10_object_files_with_mutant_witness :
    ((100, 500) ∈ (loadPhase sampleEnv).driver.InnerCache ∧
        (loadPhase sampleEnv).driver.AllObjectFiles.Nodup ∧
        700 ∉ (loadPhase sampleEnv).driver.AllObjectFiles) ∧
      (loadPhase sampleEnv).driver.AllObjectFiles = [500, 900] ∧
      (loadPhase sampleEnv).driver.objectFilesWithMutant 100 700 = [900, 700] ∧
      500 ∉ (loadPhase sampleEnv).driver.objectFilesWithMutant 100 700 ∧
      ((loadPhase sampleEnv).driver.objectFilesWithMutant 100 700).length =
        (loadPhase sampleEnv).driver.AllObjectFiles.length :=
  ⟨⟨by decide, by decide, by decide⟩, by decide, by decide,
    (((C10_object_files_with_mutant sampleConfig sampleEnv 100 700).2 500 (by decide)).2.2
      (by decide) (by decide)).1,
    ((C10_object_files_with_mutant sampleConfig sampleEnv 100 700).2 500 (by decide)).2.1⟩

/-- C9, refuted as stated.  Instrumenting the module `sampleIR` with index 7 and
instrumenting the result again with index 7 does not give the module
instrumented once: the single block goes from `enter, leave, ret` to
`enter, enter, leave, leave, ret`. -/
theorem C9_not_idempotent_counterexample :
    (injectCallbacks 4096 8 sampleIR 0 7).bind (fun once => injectCallbacks 4096 8 once 0 7) ≠
        injectCallbacks 4096 8 sampleIR 0 7 ∧
      ((injectCallbacks 4096 8 sampleIR 0 7).bind (fun once => once.functions.get? 0)).map
          (fun function => function.blocks) =
        some [⟨[sampleEnter, sampleLeave, Instruction.ret none]⟩] ∧
      (((injectCallbacks 4096 8 sampleIR 0 7).bind
          (fun once => injectCallbacks 4096 8 once 0 7)).bind
            (fun twice => twice.functions.get? 0)).map (fun function => function.blocks) =
        some [⟨[sampleEnter, sampleEnter, sampleLeave, sampleLeave, Instruction.ret none]⟩] := by
  decide

/-- C9, amended.  `injectCallbacks` is not idempotent: applied with index `i` to
a function it has already instrumented with index `i`, it succeeds again,
reuses the two callback declarations, and inserts one more call of
`mull_enterFunction` and one more call of `mull_leaveFunction` for every block
that ends in a return, so the module changes. -/
theorem C9_second_instrumentation_inserts_again (driverAddress pointerWidth : Nat)
    (module once : LModule) (position index : Nat)
    (h : injectCallbacks driverAddress pointerWidth module position index = some once) :
    ∃ (twice : LModule) (function1 function2 : LFunction),
      injectCallbacks driverAddress pointerWidth once position index = some twice ∧
      once.functions.get? position = some function1 ∧
      twice.functions.get? position = some function2 ∧
      function2.countCalls "mull_enterFunction" =
        function1.countCalls "mull_enterFunction" + 1 ∧
      function2.countCalls "mull_leaveFunction" =
        function1.countCalls "mull_leaveFunction" + function1.returnBlocks ∧
      twice.functions.length = once.functions.length ∧
      twice ≠ once := by
  obtain ⟨base, function, function1, henter, hleave, hget, hinject, honce⟩ :=
    injectCallbacks_spec driverAddress pointerWidth module once position index h
  obtain ⟨_, _, _, hname, function2, hinject2⟩ :=
    injectIntoFunction_effect _ function function1 hinject
  obtain ⟨c1, c2, _, _, _⟩ := injectIntoFunction_effect _ function1 function2 hinject2
  have hget1 : once.functions.get? position = some function1 := by
    rw [honce]
    exact get?_set_self function function1 base.functions position hget
  have henter1 : (once.getFunction "mull_enterFunction").isSome = true := by
    rw [honce, getFunction_set_isSome _ function function1 hname base.functions position hget]
    exact henter
  have hleave1 : (once.getFunction "mull_leaveFunction").isSome = true := by
    rw [honce, getFunction_set_isSome _ function function1 hname base.functions position hget]
    exact hleave
  have htwice : injectCallbacks driverAddress pointerWidth once position index =
      some { functions := once.functions.set position function2 } := by
    unfold injectCallbacks
    simp only []
    have hnone1 : (once.getFunction "mull_enterFunction").isNone = false := by
      rw [Option.isNone_eq_false_iff]; exact henter1
    have hnone2 : (once.getFunction "mull_leaveFunction").isNone = false := by
      rw [Option.isNone_eq_false_iff]; exact hleave1
    simp only [hnone1, hnone2, Bool.and_self, Bool.false_eq_true, if_false, hget1, hinject2]
  have hget2 : (once.functions.set position function2).get? position = some function2 :=
    get?_set_self function1 function2 once.functions position hget1
  refine ⟨_, function1, function2, htwice, hget1, hget2, c1, c2, by simp, ?_⟩
  intro heq
  have hsame : (once.functions.set position function2).get? position =
      once.functions.get? position :=
    congrArg (fun m : LModule => m.functions.get? position) heq
  rw [hget2, hget1, Option.some.injEq] at hsame
  rw [hsame] at c1
  omega

/-- C9 amended, at the module `sampleIR`: the first instrumentation succeeds, and
the second one adds a second enter call to the function at position 0. -/
theorem C9_second_instrumentation_inserts_again_witness :
    ∃ once, injectCallbacks 4096 8 sampleIR 0 7 = some once ∧
      ∃ (twice : LModule) (function1 function2 : LFunction),
        injectCallbacks 4096 8 once 0 7 = some twice ∧
        once.functions.get? 0 = some function1 ∧
        twice.functions.get? 0 = some function2 ∧
        function2.countCalls "mull_enterFunction" =
          function1.countCalls "mull_enterFunction" + 1 ∧
        function2.countCalls "mull_leaveFunction" =
          function1.countCalls "mull_leaveFunction" + function1.returnBlocks ∧
        twice.functions.length = once.functions.length ∧
        twice ≠ once :=
  match hrun : injectCallbacks 4096 8 sampleIR 0 7 with
  | some once =>
    ⟨once, rfl, C9_second_instrumentation_inserts_again 4096 8 sampleIR once 0 7 hrun⟩
  | none => absurd hrun (by decide)

/-- C11 (counterexample).  Two tests pass and share the testee `sum`, whose one
mutation point 42 the finder returns for the testee of either test.  The run
returns; the point's reachable tests are the tests 0 and 1; the list of
mutation points the driver processes contains the point twice, once per test
that reached it, and the driver performs four mutant runs for it, not two. -/
theorem C11_shared_mutation_counterexample :
    (Driver.Run sampleConfig sharedEnv).aborted = false ∧
      ((Driver.Run sampleConfig sharedEnv).tests 0).status = ExecutionStatus.Passed ∧
      ((Driver.Run sampleConfig sharedEnv).tests 1).status = ExecutionStatus.Passed ∧
      (Driver.Run sampleConfig sharedEnv).queries = [⟨⟨0, 2⟩, 0, 1⟩, ⟨⟨0, 2⟩, 1, 1⟩] ∧
      sharedEnv.getReachableTests (Driver.Run sampleConfig sharedEnv).queries 42 =
        [(0, 1), (1, 1)] ∧
      (Driver.Run sampleConfig sharedEnv).allMutationPoints = [42, 42] ∧
      (mutantRuns (Driver.Run sampleConfig sharedEnv).trace).filter
        (fun r => decide (r.1 = 42)) = [(42, 0), (42, 1), (42, 0), (42, 1)] := by
  decide

/-- C11 (amended).  `Driver::Run` does not deduplicate.  In a run that returns,
the list of mutation points it processes is the concatenation, in query order,
of the finder's answers; there is one mutation result per entry of that list
and reachable test of the entry, and outside dry-run mode one mutant run for
each.  So when the finder returns a mutation in exactly one of its answers and
the mutation has two reachable tests, the list contains the mutation once and
the driver performs exactly two mutant runs for it, one per test. -/
theorem C11_points_processed_as_answered (cfg : Config) (env : Collaborators)
    (hreturned : (Driver.Run cfg env).aborted = false) :
    (Driver.Run cfg env).allMutationPoints =
        answersFrom env [] (Driver.Run cfg env).queries ∧
      (Driver.Run cfg env).mutationResults.map (fun r => (r.mutationPoint, r.test)) =
        runsPerReachableTest env (Driver.Run cfg env).queries
          (Driver.Run cfg env).allMutationPoints ∧
      (cfg.dryRun = false →
        mutantRuns (Driver.Run cfg env).trace =
          runsPerReachableTest env (Driver.Run cfg env).queries
            (Driver.Run cfg env).allMutationPoints) ∧
      ∀ (point test1 test2 : Nat) (distance1 distance2 : Int),
        (answersFrom env [] (Driver.Run cfg env).queries).count point = 1 →
        env.getReachableTests (Driver.Run cfg env).queries point =
          [(test1, distance1), (test2, distance2)] →
        cfg.dryRun = false →
        (Driver.Run cfg env).allMutationPoints.count point = 1 ∧
          (mutantRuns (Driver.Run cfg env).trace).filter (fun r => decide (r.1 = point)) =
            [(point, test1), (point, test2)] := by
  obtain ⟨hresults, _, hruns⟩ := Run_exact cfg env hreturned
  have hpoints := Run_points cfg env
  refine ⟨hpoints, hresults, fun hdry => ?_, ?_⟩
  · rw [hruns]
    simp [hdry]
  · intro point test1 test2 distance1 distance2 honce hreachable hdry
    rw [← hpoints] at honce
    refine ⟨honce, ?_⟩
    rw [hruns]
    simp only [hdry, Bool.false_eq_true, if_false]
    rw [(runsPerReachableTest_filter env _ point _).2 honce, hreachable]
    rfl

/-- C11 (amended), at a concrete input: the two passing tests share the testee
`sum`, and the finder hands its mutation point 42 out for the first query
only.  The list of mutation points is `[42]` and the mutant runs for the point
are one for test 0 and one for test 1. -/
theorem C11_points_processed_as_answered_witness :
    (Driver.Run sampleConfig dedupEnv).aborted = false ∧
      (Driver.Run sampleConfig dedupEnv).allMutationPoints.count 42 = 1 ∧
      (mutantRuns (Driver.Run sampleConfig dedupEnv).trace).filter
        (fun r => decide (r.1 = 42)) = [(42, 0), (42, 1)] :=
  have hreturned : (Driver.Run sampleConfig dedupEnv).aborted = false := by decide
  ⟨hreturned,
    (C11_points_processed_as_answered sampleConfig dedupEnv hreturned).2.2.2 42 0 1 1 1
      (by decide) (by decide) (by decide)⟩

/-- C13 (counterexample).  With a JIT that finds no symbol, the GoogleTest
runner looks up the constructor `c`, gets the null address and leaves through
`exit(1)`: the child ends with the exit code 1, the value of `Failed`, and the
status decoded from its low byte is `Failed`, not `Crashed`. -/
theorem C13_missing_symbol_counterexample :
    (∃ name ∈ GoogleTestRunner.lookups emptyJit ⟨"T.a", ["c"]⟩, emptyJit.findSymbol name = 0) ∧
      (GoogleTestRunner.runTest emptyJit ⟨"T.a", ["c"]⟩ [500]).outcome = RunnerOutcome.exited 1 ∧
      parentDecode (childTermination
        (GoogleTestRunner.runTest emptyJit ⟨"T.a", ["c"]⟩ [500]).outcome) ≠
          ExecutionStatus.Crashed := by
  refine ⟨⟨_, List.mem_cons_self _ _, rfl⟩, ?_, ?_⟩ <;> decide

/-- C13 (amended).  When the GoogleTest runner or the custom runner cannot find
a symbol (a constructor, the framework functions or `main` has the null
address), `runTest` leaves through `exit(1)`; the child therefore ends with the
exit code 1, which is the value of `Failed`, and the status the parent decodes
from the low byte of the exit code is `Failed`. -/
theorem C13_missing_symbol_decodes_failed (jit : Jit) (objectFiles : List Nat)
    (gtest : GoogleTest_Test) (custom : CustomTest_Test) :
    ((∃ name ∈ GoogleTestRunner.lookups jit gtest, jit.findSymbol name = 0) →
        (GoogleTestRunner.runTest jit gtest objectFiles).outcome = RunnerOutcome.exited 1 ∧
        childTermination (GoogleTestRunner.runTest jit gtest objectFiles).outcome =
          ChildTermination.exitedWith ExecutionStatus.Failed.toNat ∧
        parentDecode (childTermination (GoogleTestRunner.runTest jit gtest objectFiles).outcome) =
          ExecutionStatus.Failed) ∧
      ((∃ name ∈ CustomTestRunner.lookups jit custom, jit.findSymbol name = 0) →
        (CustomTestRunner.runTest jit custom objectFiles).outcome = RunnerOutcome.exited 1 ∧
        childTermination (CustomTestRunner.runTest jit custom objectFiles).outcome =
          ChildTermination.exitedWith ExecutionStatus.Failed.toNat ∧
        parentDecode (childTermination (CustomTestRunner.runTest jit custom objectFiles).outcome) =
          ExecutionStatus.Failed) := by
  refine ⟨fun h => ?_, fun h => ?_⟩
  · rw [((GoogleTest_runTest_shape jit gtest objectFiles).1 h).1]
    exact ⟨rfl, rfl, rfl⟩
  · rw [((CustomTest_runTest_shape jit custom objectFiles).1 h).1]
    exact ⟨rfl, rfl, rfl⟩

/-- C13 (amended), at a concrete input: the custom runner with a JIT that finds
the constructor `ctor` but not `main`. -/
theorem C13_missing_symbol_decodes_failed_witness :
    (∃ name ∈ CustomTestRunner.lookups missingMainJit ⟨"prog", ["--fast"], ["ctor"]⟩,
        missingMainJit.findSymbol name = 0) ∧
      parentDecode (childTermination
        (CustomTestRunner.runTest missingMainJit ⟨"prog", ["--fast"], ["ctor"]⟩ [500]).outcome) =
          ExecutionStatus.Failed :=
  have hmissing : ∃ name ∈ CustomTestRunner.lookups missingMainJit ⟨"prog", ["--fast"], ["ctor"]⟩,
      missingMainJit.findSymbol name = 0 := ⟨"_main", by decide, by decide⟩
  ⟨hmissing,
    ((C13_missing_symbol_decodes_failed missingMainJit [500] ⟨"T.a", []⟩
      ⟨"prog", ["--fast"], ["ctor"]⟩).2 hmissing).2.2⟩

/-- C14 (counterexample).  With a JIT that finds no symbol, the GoogleTest
runner adds the object set, then leaves through `exit(1)` at the first lookup:
neither the destructor drain nor `removeObjectSet` happens. -/
theorem C14_no_drain_on_missing_symbol_counterexample :
    RunnerEvent.addObjectSet [500] ∈
        (GoogleTestRunner.runTest emptyJit ⟨"T.a", ["c"]⟩ [500]).events ∧
      (GoogleTestRunner.runTest emptyJit ⟨"T.a", ["c"]⟩ [500]).events.count
        RunnerEvent.runDestructors = 0 ∧
      (GoogleTestRunner.runTest emptyJit ⟨"T.a", ["c"]⟩ [500]).events.count
        RunnerEvent.removeObjectSet = 0 := by
  decide

/-- C14 (amended).  For `runTest` of the GoogleTest and of the custom adapter:
when every looked-up symbol is found, the run adds the object set first, ends
with the destructor drain followed by `removeObjectSet`, each of which happens
exactly once, and returns a status (whatever the entry point returns); when a
constructor or entry-point symbol is not found, the run leaves through
`exit(1)` and neither the drain nor `removeObjectSet` happens. -/
theorem C14_drain_and_remove_once_when_found (jit : Jit) (objectFiles : List Nat)
    (gtest : GoogleTest_Test) (custom : CustomTest_Test) :
    ((∀ name ∈ GoogleTestRunner.lookups jit gtest, jit.findSymbol name ≠ 0) →
        (∃ before : List RunnerEvent,
          (GoogleTestRunner.runTest jit gtest objectFiles).events =
            RunnerEvent.addObjectSet objectFiles ::
              (before ++ [RunnerEvent.runDestructors, RunnerEvent.removeObjectSet]) ∧
          RunnerEvent.runDestructors ∉ before ∧ RunnerEvent.removeObjectSet ∉ before) ∧
        (GoogleTestRunner.runTest jit gtest objectFiles).events.count
          RunnerEvent.runDestructors = 1 ∧
        (GoogleTestRunner.runTest jit gtest objectFiles).events.count
          RunnerEvent.removeObjectSet = 1 ∧
        ∃ status, (GoogleTestRunner.runTest jit gtest objectFiles).outcome =
          RunnerOutcome.returned status) ∧
      ((∃ name ∈ GoogleTestRunner.lookups jit gtest, jit.findSymbol name = 0) →
        (GoogleTestRunner.runTest jit gtest objectFiles).events.count
          RunnerEvent.runDestructors = 0 ∧
        (GoogleTestRunner.runTest jit gtest objectFiles).events.count
          RunnerEvent.removeObjectSet = 0 ∧
        (GoogleTestRunner.runTest jit gtest objectFiles).outcome = RunnerOutcome.exited 1) ∧
      ((∀ name ∈ CustomTestRunner.lookups jit custom, jit.findSymbol name ≠ 0) →
        (∃ before : List RunnerEvent,
          (CustomTestRunner.runTest jit custom objectFiles).events =
            RunnerEvent.addObjectSet objectFiles ::
              (before ++ [RunnerEvent.runDestructors, RunnerEvent.removeObjectSet]) ∧
          RunnerEvent.runDestructors ∉ before ∧ RunnerEvent.removeObjectSet ∉ before) ∧
        (CustomTestRunner.runTest jit custom objectFiles).events.count
          RunnerEvent.runDestructors = 1 ∧
        (CustomTestRunner.runTest jit custom objectFiles).events.count
          RunnerEvent.removeObjectSet = 1 ∧
        ∃ status, (CustomTestRunner.runTest jit custom objectFiles).outcome =
          RunnerOutcome.returned status) ∧
      ((∃ name ∈ CustomTestRunner.lookups jit custom, jit.findSymbol name = 0) →
        (CustomTestRunner.runTest jit custom objectFiles).events.count
          RunnerEvent.runDestructors = 0 ∧
        (CustomTestRunner.runTest jit custom objectFiles).events.count
          RunnerEvent.removeObjectSet = 0 ∧
        (CustomTestRunner.runTest jit custom objectFiles).outcome = RunnerOutcome.exited 1) := by
  refine ⟨fun h => ?_, fun h => ?_, fun h => ?_, fun h => ?_⟩
  · obtain ⟨called, hevents, houtcome⟩ := (GoogleTest_runTest_shape jit gtest objectFiles).2 h
    have hc1 : (called.map RunnerEvent.callCtor).count RunnerEvent.runDestructors = 0 :=
      List.count_eq_zero_of_not_mem (by simp)
    have hc2 : (called.map RunnerEvent.callCtor).count RunnerEvent.removeObjectSet = 0 :=
      List.count_eq_zero_of_not_mem (by simp)
    rw [hevents, houtcome]
    refine ⟨⟨called.map RunnerEvent.callCtor ++
        [RunnerEvent.callInit 2 ["mull", "--gtest_filter=" ++ gtest.testName],
          RunnerEvent.callGetInstance, RunnerEvent.callRun], by simp, by simp, by simp⟩,
      ?_, ?_, ⟨_, rfl⟩⟩
    · simp [List.count_cons, List.count_append, hc1]
    · simp [List.count_cons, List.count_append, hc2]
  · obtain ⟨houtcome, hno1, hno2, _⟩ := (GoogleTest_runTest_shape jit gtest objectFiles).1 h
    exact ⟨List.count_eq_zero_of_not_mem hno1, List.count_eq_zero_of_not_mem hno2, houtcome⟩
  · obtain ⟨called, hevents, houtcome⟩ := (CustomTest_runTest_shape jit custom objectFiles).2 h
    have hc1 : (called.map RunnerEvent.callCtor).count RunnerEvent.runDestructors = 0 :=
      List.count_eq_zero_of_not_mem (by simp)
    have hc2 : (called.map RunnerEvent.callCtor).count RunnerEvent.removeObjectSet = 0 :=
      List.count_eq_zero_of_not_mem (by simp)
    rw [hevents, houtcome]
    refine ⟨⟨called.map RunnerEvent.callCtor ++
        [RunnerEvent.callMain ((custom.programName :: custom.arguments).length : Nat)
          ((custom.programName :: custom.arguments).map (fun argument => some (strcpy argument)) ++
            [none])],
        by simp, by simp, by simp⟩, ?_, ?_, ⟨_, rfl⟩⟩
    · simp [List.count_cons, List.count_append, hc1]
    · simp [List.count_cons, List.count_append, hc2]
  · obtain ⟨houtcome, hno1, hno2, _⟩ := (CustomTest_runTest_shape jit custom objectFiles).1 h
    exact ⟨List.count_eq_zero_of_not_mem hno1, List.count_eq_zero_of_not_mem hno2, houtcome⟩

/-- C14 (amended), at a concrete input: the custom runner with a JIT that finds
every symbol and whose `main` returns 0; the drain and the removal each happen
once. -/
theorem C14_drain_and_remove_once_when_found_witness :
    (∀ name ∈ CustomTestRunner.lookups passingJit ⟨"prog", ["--fast"], ["ctor"]⟩,
        passingJit.findSymbol name ≠ 0) ∧
      (CustomTestRunner.runTest passingJit ⟨"prog", ["--fast"], ["ctor"]⟩ [500]).events.count
        RunnerEvent.runDestructors = 1 ∧
      (CustomTestRunner.runTest passingJit ⟨"prog", ["--fast"], ["ctor"]⟩ [500]).events.count
        RunnerEvent.removeObjectSet = 1 :=
  have hfound : ∀ name ∈ CustomTestRunner.lookups passingJit ⟨"prog", ["--fast"], ["ctor"]⟩,
      passingJit.findSymbol name ≠ 0 := fun _ _ => Nat.one_ne_zero
  have h := (C14_drain_and_remove_once_when_found passingJit [500] ⟨"T.a", []⟩
    ⟨"prog", ["--fast"], ["ctor"]⟩).2.2.1 hfound
  ⟨hfound, h.2.1, h.2.2.1⟩

/-- C15.  For every content of the bitcode list file, `getBitcodePaths` returns
exactly the lines of the content that do not begin with `#`, in file order and
unchanged: no returned line begins with `#`, and an empty line of the file is
returned as an empty path.  The same holds for the method on a configuration
whose list file has that content. -/
theorem C15_getBitcodePaths_lines (content : List Char) :
    getBitcodePathsOf content =
        (fileLines content).filter (fun line => !beginsWithHash line) ∧
      (∀ line ∈ getBitcodePathsOf content, beginsWithHash line = false) ∧
      (∀ line ∈ fileLines content, beginsWithHash line = false →
        line ∈ getBitcodePathsOf content) ∧
      ([] ∈ fileLines content → [] ∈ getBitcodePathsOf content) ∧
      (∀ (config : Config) (files : FileSystem),
        files.read config.bitcodeFileList = some content →
        config.getBitcodePaths files =
          (fileLines content).filter (fun line => !beginsWithHash line)) := by
  have hmain : getBitcodePathsOf content =
      (fileLines content).filter (fun line => !beginsWithHash line) := by
    unfold getBitcodePathsOf
    rw [getBitcodePathsLoop_eq _ _ _ (Nat.lt_succ_self _)]
    rfl
  refine ⟨hmain, ?_, ?_, ?_, ?_⟩
  · intro line hline
    rw [hmain] at hline
    simpa using (List.mem_filter.mp hline).2
  · intro line hline hkeep
    rw [hmain]
    exact List.mem_filter.mpr ⟨hline, by simp [hkeep]⟩
  · intro hempty
    rw [hmain]
    exact List.mem_filter.mpr ⟨hempty, by simp [beginsWithHash]⟩
  · intro config files hread
    unfold Config.getBitcodePaths
    rw [hread]
    exact hmain

/-- C15, at a list file with a comment line: the two module paths are returned,
the comment is not. -/
theorem C15_getBitcodePaths_lines_witness :
    sampleFiles.read "/tmp/bitcode_file_list.txt" = some commentedListFile ∧
      fileLines commentedListFile =
        ["# modules".toList, "tester.bc".toList, "testee.bc".toList] ∧
      ({ Config.defaultConstructed with
          bitcodeFileList := "/tmp/bitcode_file_list.txt" } : Config).getBitcodePaths
            sampleFiles =
        (fileLines commentedListFile).filter (fun line => !beginsWithHash line) ∧
      getBitcodePathsOf commentedListFile = ["tester.bc".toList, "testee.bc".toList] :=
  ⟨by decide, by decide,
    (C15_getBitcodePaths_lines commentedListFile).2.2.2.2
      { Config.defaultConstructed with bitcodeFileList := "/tmp/bitcode_file_list.txt" }
      sampleFiles (by decide),
    by decide⟩

/-- C16, at the failing input.  For a dynamic-library list file with an empty
line between two entries, `getDynamicLibrariesPaths` does not return: `path.at(0)`
throws on the empty line.  `getBitcodePaths` returns the three lines of the same
content, and in general the two agree exactly on the contents without an empty
line. -/
theorem C16_empty_line_throws :
    fileLines sampleListFile = ["sqlite3.dylib".toList, [], "libz.dylib".toList] ∧
      getDynamicLibrariesPathsOf sampleListFile = none ∧
      ({ Config.defaultConstructed with
          dynamicLibraryFileList := "/tmp/dynamic_library_file_list.txt" } :
            Config).getDynamicLibrariesPaths sampleFiles = none ∧
      getBitcodePathsOf sampleListFile = ["sqlite3.dylib".toList, [], "libz.dylib".toList] ∧
      (∀ content : List Char, getDynamicLibrariesPathsOf content =
        if [] ∈ fileLines content then none else some (getBitcodePathsOf content)) := by
  refine ⟨by decide, by decide, by decide, by decide, ?_⟩
  intro content
  unfold getDynamicLibrariesPathsOf getBitcodePathsOf
  rw [getDynamicLibrariesPathsLoop_eq _ _ _ (Nat.lt_succ_self _),
    getBitcodePathsLoop_eq _ _ _ (Nat.lt_succ_self _)]

/-- C17.  `Config::validate` returns no error if and only if `bitcode_file_list`
is not empty and names a file that can be read, and `dynamic_library_file_list`
is empty or names a file that can be read; and when `bitcode_file_list` is
empty it returns the single error "bitcode_file_list parameter is not
specified.", whatever the other fields hold. -/
theorem C17_validate (config : Config) (files : FileSystem) :
    (config.validate files = [] ↔
        config.bitcodeFileList.length ≠ 0 ∧
        (files.read config.bitcodeFileList).isSome = true ∧
        (config.dynamicLibraryFileList.isEmpty = true ∨
          (files.read config.dynamicLibraryFileList).isSome = true)) ∧
      (config.bitcodeFileList.length = 0 →
        config.validate files = ["bitcode_file_list parameter is not specified."]) := by
  unfold Config.validate
  by_cases hlist : config.bitcodeFileList.length = 0
  · simp [hlist]
  · simp only [hlist, if_false, ne_eq, not_false_eq_true, true_and, false_implies, and_true]
    cases hbitcode : (files.read config.bitcodeFileList).isSome <;>
      cases hempty : config.dynamicLibraryFileList.isEmpty <;>
      cases hdynamic : (files.read config.dynamicLibraryFileList).isSome <;>
      simp

/-- C17, at three configurations: both list files readable, the bitcode list
missing, and no bitcode list given although the other fields are set. -/
theorem C17_validate_witness :
    ({ Config.defaultConstructed with
        bitcodeFileList := "/tmp/bitcode_file_list.txt"
        dynamicLibraryFileList := "/tmp/dynamic_library_file_list.txt" } : Config).validate
          sampleFiles = [] ∧
      ({ Config.defaultConstructed with bitcodeFileList := "/nowhere" } : Config).validate
          sampleFiles =
        ["bitcode_file_list parameter points to a non-existing file: /nowhere"] ∧
      ({ Config.defaultConstructed with
          dynamicLibraryFileList := "/nowhere", dryRun := true } : Config).validate
            sampleFiles =
        ["bitcode_file_list parameter is not specified."] :=
  ⟨(C17_validate
      { Config.defaultConstructed with
        bitcodeFileList := "/tmp/bitcode_file_list.txt"
        dynamicLibraryFileList := "/tmp/dynamic_library_file_list.txt" } sampleFiles).1.mpr
      ⟨by decide, by decide, Or.inr (by decide)⟩,
    by decide,
    (C17_validate { Config.defaultConstructed with
        dynamicLibraryFileList := "/nowhere", dryRun := true } sampleFiles).2 (by decide)⟩

/-- C18.  A default-constructed `Config` has timeout 3000, max_distance 128, fork
true, dry_run false, use_cache true and emit_debug_info false; and every key of
the YAML mapping is optional: a key that is absent from the document leaves its
field of the configuration as it was, so starting from the default-constructed
configuration the field keeps the default. -/
theorem C18_defaults_and_optional_keys (io : YamlInput) (config : Config) :
    (Config.defaultConstructed.timeout = 3000 ∧
        Config.defaultConstructed.maxDistance = 128 ∧
        Config.defaultConstructed.fork = true ∧
        Config.defaultConstructed.dryRun = false ∧
        Config.defaultConstructed.useCache = true ∧
        Config.defaultConstructed.emitDebugInfo = false) ∧
      (io.lookup "bitcode_file_list" = none →
        (mapping io config).bitcodeFileList = config.bitcodeFileList) ∧
      (io.lookup "project_name" = none →
        (mapping io config).projectName = config.projectName) ∧
      (io.lookup "test_framework" = none →
        (mapping io config).testFramework = config.testFramework) ∧
      (io.lookup "dynamic_library_file_list" = none →
        (mapping io config).dynamicLibraryFileList = config.dynamicLibraryFileList) ∧
      (io.lookup "mutation_operators" = none →
        (mapping io config).mutationOperators = config.mutationOperators) ∧
      (io.lookup "tests" = none → (mapping io config).tests = config.tests) ∧
      (io.lookup "exclude_locations" = none →
        (mapping io config).excludeLocations = config.excludeLocations) ∧
      (io.lookup "custom_tests" = none →
        (mapping io config).customTests = config.customTests) ∧
      (io.lookup "fork" = none → (mapping io config).fork = config.fork) ∧
      (io.lookup "dry_run" = none → (mapping io config).dryRun = config.dryRun) ∧
      (io.lookup "use_cache" = none → (mapping io config).useCache = config.useCache) ∧
      (io.lookup "emit_debug_info" = none →
        (mapping io config).emitDebugInfo = config.emitDebugInfo) ∧
      (io.lookup "timeout" = none → (mapping io config).timeout = config.timeout) ∧
      (io.lookup "max_distance" = none →
        (mapping io config).maxDistance = config.maxDistance) ∧
      (io.lookup "cache_directory" = none →
        (mapping io config).cacheDirectory = config.cacheDirectory) ∧
      ((∀ key, io.lookup key = none) → mapping io config = config) := by
  refine ⟨⟨rfl, rfl, rfl, rfl, rfl, rfl⟩, ?_, ?_, ?_, ?_, ?_, ?_, ?_, ?_, ?_, ?_, ?_, ?_, ?_,
    ?_, ?_, ?_⟩
  all_goals intro h
  all_goals
    simp only [mapping, mapOptionalString, mapOptionalStrings, mapOptionalCustomTests,
      mapOptionalBool, mapOptionalInt, h]

/-- C18, at a document that gives only `timeout: 42`, read into a
default-constructed configuration: the timeout becomes 42, and `max_distance`,
`fork` and `dry_run`, whose keys are absent, keep 128, true and false. -/
theorem C18_defaults_and_optional_keys_witness :
    (timeoutOnlyYaml.lookup "max_distance" = none ∧ timeoutOnlyYaml.lookup "fork" = none ∧
        timeoutOnlyYaml.lookup "dry_run" = none) ∧
      (mapping timeoutOnlyYaml Config.defaultConstructed).timeout = 42 ∧
      (mapping timeoutOnlyYaml Config.defaultConstructed).maxDistance = 128 ∧
      (mapping timeoutOnlyYaml Config.defaultConstructed).fork = true ∧
      (mapping timeoutOnlyYaml Config.defaultConstructed).dryRun = false :=
  ⟨⟨by decide, by decide, by decide⟩, by decide,
    (C18_defaults_and_optional_keys timeoutOnlyYaml
      Config.defaultConstructed).2.2.2.2.2.2.2.2.2.2.2.2.2.2.1 (by decide),
    (C18_defaults_and_optional_keys timeoutOnlyYaml
      Config.defaultConstructed).2.2.2.2.2.2.2.2.2.1 (by decide),
    (C18_defaults_and_optional_keys timeoutOnlyYaml
      Config.defaultConstructed).2.2.2.2.2.2.2.2.2.2.1 (by decide)⟩

/-- C19.  Whenever `injectCallbacks(function, index)` completes, the function it
was applied to has at least one basic block, and afterwards the first instruction
of its entry block is a call of `mull_enterFunction` with two arguments: the
driver's address as an integer constant of pointer width cast to a pointer, and
the 64-bit constant `index`.  It completes for every function with at least one
block whose blocks all have a terminator, in a module that declares both
callbacks or neither. -/
theorem C19_enter_call_first (driverAddress pointerWidth : Nat) (module : LModule)
    (position index : Nat) :
    (∀ module1, injectCallbacks driverAddress pointerWidth module position index =
        some module1 →
      ∃ (function function1 : LFunction) (entryBlock : BasicBlock) (rest : List BasicBlock),
        module.functions.get? position = some function ∧
        function.blocks ≠ [] ∧
        module1.functions.get? position = some function1 ∧
        function1.blocks = entryBlock :: rest ∧
        entryBlock.instructions.head? =
          some (Instruction.call "mull_enterFunction"
            [Value.intToPtr
              (Value.constantInt (pointerWidth * 8) (driverAddress % 2 ^ (pointerWidth * 8)))
              (LType.pointer (LType.integer 64)),
             Value.constantInt 64 (index % 2 ^ 64)]) ∧
        (driverAddress < 2 ^ (pointerWidth * 8) → index < 2 ^ 64 →
          entryBlock.instructions.head? =
            some (Instruction.call "mull_enterFunction"
              [Value.intToPtr (Value.constantInt (pointerWidth * 8) driverAddress)
                (LType.pointer (LType.integer 64)),
               Value.constantInt 64 index]))) ∧
      (∀ function : LFunction,
        (module.getFunction "mull_enterFunction").isSome =
          (module.getFunction "mull_leaveFunction").isSome →
        module.functions.get? position = some function →
        function.blocks ≠ [] →
        (∀ block ∈ function.blocks, block.getTerminator ≠ none) →
        ∃ module1, injectCallbacks driverAddress pointerWidth module position index =
          some module1) := by
  refine ⟨?_, ?_⟩
  · intro module1 h
    obtain ⟨function, function1, hget, hget1, hinject⟩ :=
      injectCallbacks_original driverAddress pointerWidth module module1 position index h
    obtain ⟨entryBlock, rest, hblocks, hne, _, hshape⟩ :=
      injectIntoFunction_blocks _ function function1 hinject
    have hhead : (withLeave
        (Instruction.call "mull_leaveFunction"
          (callbackParameters driverAddress pointerWidth index))
        (BasicBlock.mk (Instruction.call "mull_enterFunction"
          (callbackParameters driverAddress pointerWidth index) ::
            entryBlock.instructions))).instructions.head? =
        some (Instruction.call "mull_enterFunction"
          (callbackParameters driverAddress pointerWidth index)) :=
      withLeave_head _ _ _ hne
    refine ⟨function, function1, _, _, hget, by rw [hblocks]; simp, hget1,
      by rw [hshape, List.map_cons], hhead, ?_⟩
    intro haddress hindex
    rw [hhead]
    simp only [callbackParameters, Nat.mod_eq_of_lt haddress, Nat.mod_eq_of_lt hindex]
  · intro function hstubs hget hblocks hterm
    exact injectCallbacks_succeeds driverAddress pointerWidth module position index function
      hstubs hget hblocks hterm

/-- C19, at the module `sampleIR` on a target with 8-byte pointers and a driver
at address 4096: instrumenting the function at position 0 with index 7
completes, and its entry block then begins with the enter call for
`(4096, 7)`. -/
theorem C19_enter_call_first_witness :
    ∃ module1, injectCallbacks 4096 8 sampleIR 0 7 = some module1 ∧
      ∃ (function function1 : LFunction) (entryBlock : BasicBlock) (rest : List BasicBlock),
        sampleIR.functions.get? 0 = some function ∧
        function.blocks ≠ [] ∧
        module1.functions.get? 0 = some function1 ∧
        function1.blocks = entryBlock :: rest ∧
        entryBlock.instructions.head? =
          some (Instruction.call "mull_enterFunction"
            [Value.intToPtr (Value.constantInt (8 * 8) (4096 % 2 ^ (8 * 8)))
              (LType.pointer (LType.integer 64)),
             Value.constantInt 64 (7 % 2 ^ 64)]) ∧
        ((4096 : Nat) < 2 ^ (8 * 8) → (7 : Nat) < 2 ^ 64 →
          entryBlock.instructions.head? =
            some (Instruction.call "mull_enterFunction"
              [Value.intToPtr (Value.constantInt (8 * 8) 4096)
                (LType.pointer (LType.integer 64)),
               Value.constantInt 64 7])) :=
  match hrun : injectCallbacks 4096 8 sampleIR 0 7 with
  | some module1 =>
    ⟨module1, rfl, (C19_enter_call_first 4096 8 sampleIR 0 7).1 module1 hrun⟩
  | none =>
    absurd hrun (by
      obtain ⟨module1, h⟩ := (C19_enter_call_first 4096 8 sampleIR 0 7).2
        (sampleFunction "sum") (by decide) (by decide) (by decide) (by decide)
      rw [h]
      exact Option.some_ne_none _)

/-- C20.  Whenever `injectCallbacks(function, index)` completes, the blocks of
the function are its old blocks, the entry block with the enter call put first,
each with a call of `mull_leaveFunction` put right before its terminator when
the terminator is a return.  So every block that ends in a return ends in the
leave call followed by that return, the leave call has the arguments of the
enter call, a block that ends in another terminator gets no leave call, and the
number of leave calls grows by the number of blocks that end in a return.  When
the old blocks have no terminator before their last instruction, every return
instruction of the new blocks is the last of its block and comes right after a
leave call. -/
theorem C20_leave_call_before_return (driverAddress pointerWidth : Nat)
    (module module1 : LModule) (position index : Nat)
    (h : injectCallbacks driverAddress pointerWidth module position index = some module1) :
    ∃ (function function1 : LFunction) (entryBlock : BasicBlock) (rest : List BasicBlock),
      module.functions.get? position = some function ∧
      module1.functions.get? position = some function1 ∧
      function.blocks = entryBlock :: rest ∧
      function1.blocks =
        ((BasicBlock.mk (enterCall driverAddress pointerWidth index ::
            entryBlock.instructions)) :: rest).map
          (withLeave (leaveCall driverAddress pointerWidth index)) ∧
      (∀ block1 ∈ function1.blocks, ∀ r, block1.getTerminator = some r → r.isReturn = true →
        ∃ init, block1.instructions =
          init ++ [Instruction.call "mull_leaveFunction"
            (callbackParameters driverAddress pointerWidth index), r]) ∧
      (∀ block : BasicBlock, block.endsInReturn = false →
        withLeave (leaveCall driverAddress pointerWidth index) block = block) ∧
      function1.countCalls "mull_leaveFunction" =
        function.countCalls "mull_leaveFunction" + function.returnBlocks ∧
      ((∀ block ∈ function.blocks, ∀ i ∈ block.instructions.dropLast,
          i.isTerminator = false) →
        ∀ block1 ∈ function1.blocks, ∀ pre r post,
          block1.instructions = pre ++ r :: post → r.isReturn = true →
          post = [] ∧ ∃ init, pre = init ++ [Instruction.call "mull_leaveFunction"
            (callbackParameters driverAddress pointerWidth index)]) := by
  obtain ⟨function, function1, hget, hget1, hinject⟩ :=
    injectCallbacks_original driverAddress pointerWidth module module1 position index h
  obtain ⟨entryBlock, rest, hblocks, hne, hterm, hshape⟩ :=
    injectIntoFunction_blocks _ function function1 hinject
  obtain ⟨_, hcount, _, _, _⟩ := injectIntoFunction_effect _ function function1 hinject
  refine ⟨function, function1, entryBlock, rest, hget, hget1, hblocks, hshape, ?_,
    fun block hends => withLeave_of_not_return _ block hends, hcount, ?_⟩
  · intro block1 hmem r hr hret
    obtain ⟨block, prepended, _, _, _, hsame, _, heq⟩ :=
      mem_instrumented_blocks _ function function1 hinject block1 hmem
    rw [heq, getTerminator_withLeave] at hr
    rw [heq, withLeave_of_return _ _ r hr hret]
    exact ⟨_, rfl⟩
  · intro hwell block1 hmem pre r post hsplit hret
    obtain ⟨block, prepended, hin, hpre, hne1, hsame, hsome, heq⟩ :=
      mem_instrumented_blocks _ function function1 hinject block1 hmem
    cases hterm1 : block.getTerminator with
    | none => exact absurd hterm1 hsome
    | some terminator =>
      obtain ⟨histerm, hlast⟩ := getTerminator_eq_some block terminator hterm1
      rw [hterm1] at hsame
      have hprelast : prepended = prepended.dropLast ++ [terminator] :=
        (getTerminator_eq_some (BasicBlock.mk prepended) terminator hsame).2
      have hnoret : ∀ i ∈ prepended.dropLast, i.isReturn = false := by
        intro i hi
        have hdrop : i ∈ block.instructions.dropLast ∨
            i = Instruction.call "mull_enterFunction"
              (callbackParameters driverAddress pointerWidth index) := by
          rcases hpre with hp | hp
          · rw [hp] at hi
            exact Or.inl hi
          · rw [hp] at hi
            cases hinstr : block.instructions with
            | nil => exact absurd hinstr hne1
            | cons first others =>
              rw [hinstr] at hi
              simp only [List.dropLast] at hi
              rcases List.mem_cons.mp hi with h1 | h1
              · exact Or.inr h1
              · exact Or.inl h1
        rcases hdrop with h1 | h1
        · cases hr : i.isReturn with
          | false => rfl
          | true =>
            have := hwell block hin i h1
            rw [isReturn_isTerminator i hr] at this
            cases this
        · rw [h1]
          rfl
      by_cases hret1 : terminator.isReturn = true
      · have hshape1 : block1.instructions =
            (prepended.dropLast ++ [Instruction.call "mull_leaveFunction"
              (callbackParameters driverAddress pointerWidth index)]) ++ [terminator] := by
          rw [heq, withLeave_of_return _ _ terminator hsame hret1]
          simp
        rw [hshape1] at hsplit
        have hnoret2 : ∀ i ∈ prepended.dropLast ++ [Instruction.call "mull_leaveFunction"
            (callbackParameters driverAddress pointerWidth index)], i.isReturn = false := by
          intro i hi
          rcases List.mem_append.mp hi with h1 | h1
          · exact hnoret i h1
          · rw [List.mem_singleton.mp h1]
            rfl
        obtain ⟨hpost, hpreq, _⟩ :=
          return_is_last _ pre post terminator r hnoret2 hret hsplit.symm
        exact ⟨hpost, prepended.dropLast, hpreq⟩
      · exfalso
        have hends : (BasicBlock.mk prepended).endsInReturn = false := by
          unfold BasicBlock.endsInReturn
          rw [hsame]
          simpa using hret1
        have hshape1 : block1.instructions = prepended.dropLast ++ [terminator] := by
          rw [heq, withLeave_of_not_return _ _ hends]
          exact hprelast
        rw [hshape1] at hsplit
        obtain ⟨_, _, hr⟩ := return_is_last _ pre post terminator r hnoret hret hsplit.symm
        rw [hr] at hret
        exact hret1 hret

/-- C20, at the module `sampleIR`: after instrumenting the function at position 0
with index 7, its one block, which ends in a return, ends in the leave call for
`(4096, 7)` followed by the return, and one leave call was added. -/
theorem C20_leave_call_before_return_witness :
    ∃ module1, injectCallbacks 4096 8 sampleIR 0 7 = some module1 ∧
      ∃ (function function1 : LFunction) (entryBlock : BasicBlock) (rest : List BasicBlock),
        sampleIR.functions.get? 0 = some function ∧
        module1.functions.get? 0 = some function1 ∧
        function.blocks = entryBlock :: rest ∧
        function1.blocks =
          ((BasicBlock.mk (enterCall 4096 8 7 :: entryBlock.instructions)) :: rest).map
            (withLeave (leaveCall 4096 8 7)) ∧
        (∀ block1 ∈ function1.blocks, ∀ r, block1.getTerminator = some r →
          r.isReturn = true →
          ∃ init, block1.instructions =
            init ++ [Instruction.call "mull_leaveFunction" (callbackParameters 4096 8 7), r]) ∧
        (∀ block : BasicBlock, block.endsInReturn = false →
          withLeave (leaveCall 4096 8 7) block = block) ∧
        function1.countCalls "mull_leaveFunction" =
          function.countCalls "mull_leaveFunction" + function.returnBlocks ∧
        ((∀ block ∈ function.blocks, ∀ i ∈ block.instructions.dropLast,
            i.isTerminator = false) →
          ∀ block1 ∈ function1.blocks, ∀ pre r post,
            block1.instructions = pre ++ r :: post → r.isReturn = true →
            post = [] ∧ ∃ init, pre = init ++ [Instruction.call "mull_leaveFunction"
              (callbackParameters 4096 8 7)]) :=
  match hrun : injectCallbacks 4096 8 sampleIR 0 7 with
  | some module1 =>
    ⟨module1, rfl, C20_leave_call_before_return 4096 8 sampleIR module1 0 7 hrun⟩
  | none => absurd hrun (by decide)

/-- C21.  Whenever `injectCallbacks(function, index)` completes, it has only
inserted: deleting from the instrumented function the instructions at the
places of insertion (the one right before every return terminator and the first
one of the entry block) gives back the original function, so the blocks are the
same in number and order, and the name, linkage and types are unchanged; and
the instructions of every block are, in their order, a sublist of the
instructions of the block at the same position afterwards, so no instruction
was removed, replaced or reordered. -/
theorem C21_injectCallbacks_only_inserts (driverAddress pointerWidth : Nat)
    (module module1 : LModule) (position index : Nat)
    (h : injectCallbacks driverAddress pointerWidth module position index = some module1) :
    ∃ (function function1 : LFunction),
      module.functions.get? position = some function ∧
      module1.functions.get? position = some function1 ∧
      withoutCallbacks function1 = function ∧
      function1.blocks.length = function.blocks.length ∧
      (∀ (i : Nat) (block block1 : BasicBlock), function.blocks.get? i = some block →
        function1.blocks.get? i = some block1 →
        block.instructions.Sublist block1.instructions) := by
  obtain ⟨function, function1, hget, hget1, hinject⟩ :=
    injectCallbacks_original driverAddress pointerWidth module module1 position index h
  obtain ⟨entryBlock, rest, hblocks, _, _, hshape⟩ :=
    injectIntoFunction_blocks _ function function1 hinject
  have hframe := injectIntoFunction_frame _ function function1 hinject
  have hmap : function1.blocks.map withoutLeave =
      (BasicBlock.mk (Instruction.call "mull_enterFunction"
        (callbackParameters driverAddress pointerWidth index) :: entryBlock.instructions)) ::
          rest := by
    rw [hshape, List.map_map]
    have hid : (withoutLeave ∘ withLeave (Instruction.call "mull_leaveFunction"
        (callbackParameters driverAddress pointerWidth index))) = id := by
      funext block
      exact withoutLeave_withLeave _ block
    rw [hid, List.map_id]
  refine ⟨function, function1, hget, hget1, ?_, ?_, ?_⟩
  · unfold withoutCallbacks
    rw [hmap]
    simp only [List.tail_cons]
    rw [hframe]
    cases function
    simp only [] at hblocks
    simp [hblocks]
  · rw [hshape, hblocks]
    simp
  · intro i block block1 hblock hblock1
    rw [hblocks] at hblock
    rw [hshape] at hblock1
    cases i with
    | zero =>
      simp only [List.map_cons, List.get?_cons_zero, Option.some.injEq] at hblock hblock1
      subst hblock hblock1
      exact (List.sublist_cons_self _ _).trans (sublist_withLeave _ _)
    | succ j =>
      simp only [List.map_cons, List.get?_eq_getElem?, List.getElem?_cons_succ,
        List.getElem?_map] at hblock hblock1
      rw [hblock] at hblock1
      simp only [Option.map_some', Option.some.injEq] at hblock1
      subst hblock1
      exact sublist_withLeave _ _

/-- C21, at a concrete input: the function `sum` of the sample module, whose one
block is `ret void`, instrumented with index 7. -/
theorem C21_injectCallbacks_only_inserts_witness :
    ∃ module1, injectCallbacks 4096 8 sampleIR 0 7 = some module1 ∧
      ∃ (function function1 : LFunction),
        sampleIR.functions.get? 0 = some function ∧
        module1.functions.get? 0 = some function1 ∧
        withoutCallbacks function1 = function ∧
        function1.blocks.length = function.blocks.length ∧
        (∀ (i : Nat) (block block1 : BasicBlock), function.blocks.get? i = some block →
          function1.blocks.get? i = some block1 →
          block.instructions.Sublist block1.instructions) :=
  match hrun : injectCallbacks 4096 8 sampleIR 0 7 with
  | some module1 =>
    ⟨module1, rfl, C21_injectCallbacks_only_inserts 4096 8 sampleIR module1 0 7 hrun⟩
  | none => absurd hrun (by decide)

/-- C22 (counterexample).  A module that declares `mull_enterFunction` but not
`mull_leaveFunction`: `injectCallbacks` on its function `sum` does not create
the missing declaration; `assert(leaveFunction)` fails. -/
theorem C22_one_stub_declared_counterexample :
    (enterOnlyIR.getFunction "mull_enterFunction").isSome = true ∧
      enterOnlyIR.getFunction "mull_leaveFunction" = none ∧
      (enterOnlyIR.functions.get? 1).map LFunction.name = some "sum" ∧
      injectCallbacks 4096 8 enterOnlyIR 1 7 = none := by
  decide

/-- C22 (amended).  `injectCallbacks` creates the two callbacks together or not
at all.  When the module declares exactly one of them nothing is created and an
assertion fails.  When `injectCallbacks` completes on a module that declared
neither, both declarations have been added at the end of the function list with
external linkage, and the module then has exactly one function of either name;
when it completes on a module that declared both, no function has been added,
the number of functions of any name is what it was, and the function found
under any name has the linkage it had. -/
theorem C22_callbacks_created_together (driverAddress pointerWidth : Nat) (module : LModule)
    (position index : Nat) :
    ((module.getFunction "mull_enterFunction").isSome ≠
          (module.getFunction "mull_leaveFunction").isSome →
        injectCallbacks driverAddress pointerWidth module position index = none) ∧
      (∀ module1, injectCallbacks driverAddress pointerWidth module position index =
          some module1 →
        (module.getFunction "mull_enterFunction" = none →
          module.getFunction "mull_leaveFunction" = none ∧
          (∃ function1, module1.functions = (module.functions ++
            [callbackDeclaration "mull_enterFunction",
              callbackDeclaration "mull_leaveFunction"]).set position function1) ∧
          module1.functions.length = module.functions.length + 2 ∧
          module1.countNamed "mull_enterFunction" = 1 ∧
          module1.countNamed "mull_leaveFunction" = 1 ∧
          (module1.getFunction "mull_enterFunction").map LFunction.linkage =
            some Linkage.ExternalLinkage ∧
          (module1.getFunction "mull_leaveFunction").map LFunction.linkage =
            some Linkage.ExternalLinkage) ∧
        ((module.getFunction "mull_enterFunction").isSome = true →
          (module.getFunction "mull_leaveFunction").isSome = true ∧
          module1.functions.length = module.functions.length ∧
          (∀ name, module1.countNamed name = module.countNamed name) ∧
          (∀ name, (module1.getFunction name).map LFunction.linkage =
            (module.getFunction name).map LFunction.linkage))) := by
  obtain ⟨hneither, hboth, hmixed⟩ :=
    injectCallbacks_cases driverAddress pointerWidth module position index
  refine ⟨hmixed, fun module1 h => ?_⟩
  have hsame : (module.getFunction "mull_enterFunction").isSome =
      (module.getFunction "mull_leaveFunction").isSome := by
    by_contra hne
    rw [hmixed hne] at h
    cases h
  refine ⟨fun henter => ?_, fun henter => ?_⟩
  · have hleave : module.getFunction "mull_leaveFunction" = none := by
      rw [henter] at hsame
      cases hl : module.getFunction "mull_leaveFunction" with
      | none => rfl
      | some leave => rw [hl] at hsame; cases hsame
    rw [hneither henter hleave] at h
    cases hget : (module.functions ++ [callbackDeclaration "mull_enterFunction",
        callbackDeclaration "mull_leaveFunction"]).get? position with
    | none => rw [hget] at h; cases h
    | some function =>
      rw [hget] at h
      simp only [] at h
      cases hinject : injectIntoFunction
          (callbackParameters driverAddress pointerWidth index) function with
      | none => rw [hinject] at h; cases h
      | some function1 =>
        rw [hinject] at h
        simp only [Option.some.injEq] at h
        subst h
        have hname : function1.name = function.name :=
          (injectIntoFunction_effect _ function function1 hinject).2.2.2.1
        have hlinkage : function1.linkage = function.linkage := by
          have hframe := congrArg LFunction.linkage
            (injectIntoFunction_frame _ function function1 hinject)
          exact hframe
        have hnone1 : module.functions.find?
            (fun function => function.name == "mull_enterFunction") = none := henter
        have hnone2 : module.functions.find?
            (fun function => function.name == "mull_leaveFunction") = none := hleave
        have hcount1 : module.functions.countP
            (fun function => function.name == "mull_enterFunction") = 0 := by
          apply List.countP_eq_zero.mpr
          intro function hmem
          exact List.find?_eq_none.mp hnone1 function hmem
        have hcount2 : module.functions.countP
            (fun function => function.name == "mull_leaveFunction") = 0 := by
          apply List.countP_eq_zero.mpr
          intro function hmem
          exact List.find?_eq_none.mp hnone2 function hmem
        refine ⟨hleave, ⟨function1, rfl⟩, by simp, ?_, ?_, ?_, ?_⟩
        · unfold LModule.countNamed
          simp only []
          rw [countP_set_same _ _ position function function1 hget (by rw [hname]),
            List.countP_append, hcount1]
          decide
        · unfold LModule.countNamed
          simp only []
          rw [countP_set_same _ _ position function function1 hget (by rw [hname]),
            List.countP_append, hcount2]
          decide
        · unfold LModule.getFunction
          simp only []
          rw [find?_set_same _ LFunction.linkage _ position function function1 hget
            (by rw [hname]) hlinkage, List.find?_append, hnone1]
          decide
        · unfold LModule.getFunction
          simp only []
          rw [find?_set_same _ LFunction.linkage _ position function function1 hget
            (by rw [hname]) hlinkage, List.find?_append, hnone2]
          decide
  · have hleave : (module.getFunction "mull_leaveFunction").isSome = true := by
      rw [← hsame]
      exact henter
    rw [hboth henter hleave] at h
    cases hget : module.functions.get? position with
    | none => rw [hget] at h; cases h
    | some function =>
      rw [hget] at h
      simp only [] at h
      cases hinject : injectIntoFunction
          (callbackParameters driverAddress pointerWidth index) function with
      | none => rw [hinject] at h; cases h
      | some function1 =>
        rw [hinject] at h
        simp only [Option.some.injEq] at h
        subst h
        have hname : function1.name = function.name :=
          (injectIntoFunction_effect _ function function1 hinject).2.2.2.1
        have hlinkage : function1.linkage = function.linkage := by
          have hframe := congrArg LFunction.linkage
            (injectIntoFunction_frame _ function function1 hinject)
          exact hframe
        refine ⟨hleave, by simp, fun name => ?_, fun name => ?_⟩
        · unfold LModule.countNamed
          exact countP_set_same _ _ position function function1 hget (by rw [hname])
        · unfold LModule.getFunction
          exact find?_set_same _ LFunction.linkage _ position function function1 hget
            (by rw [hname]) hlinkage

/-- C22 (amended), at two concrete inputs: the sample module, which declares
neither callback, and a module that declares both. -/
theorem C22_callbacks_created_together_witness :
    (∃ module1, injectCallbacks 4096 8 sampleIR 0 7 = some module1 ∧
        module1.functions.length = sampleIR.functions.length + 2 ∧
        module1.countNamed "mull_enterFunction" = 1 ∧
        module1.countNamed "mull_leaveFunction" = 1) ∧
      (∃ module1, injectCallbacks 4096 8 declaredIR 1 7 = some module1 ∧
        module1.functions.length = declaredIR.functions.length) :=
  ⟨match hrun : injectCallbacks 4096 8 sampleIR 0 7 with
    | some module1 =>
      have hclaim := ((C22_callbacks_created_together 4096 8 sampleIR 0 7).2 module1 hrun).1
        (by decide)
      ⟨module1, rfl, hclaim.2.2.1, hclaim.2.2.2.1, hclaim.2.2.2.2.1⟩
    | none => absurd hrun (by decide),
   match hrun : injectCallbacks 4096 8 declaredIR 1 7 with
    | some module1 =>
      ⟨module1, rfl, (((C22_callbacks_created_together 4096 8 declaredIR 1 7).2 module1 hrun).2
        (by decide)).2.1⟩
    | none => absurd hrun (by decide)⟩

/-- C23.  When `Driver::Run` returns its `Result`, the mutation results in it are
ordered by discovery: mapped to (mutation point, test, distance), the list is
the concatenation, over the mutation points of the result in the order they
were collected, of one triple per entry of that point's reachable tests, in the
order of that list, carrying the point, the entry's test and the entry's
distance.  In particular there are as many results as such entries. -/
theorem C23_mutation_results_in_discovery_order (cfg : Config) (env : Collaborators)
    (result : Result) (hresult : (Driver.Run cfg env).result env = some result) :
    result.mutationResults.map (fun r => (r.mutationPoint, r.test, r.distance)) =
        result.allMutationPoints.flatMap (fun point =>
          (env.getReachableTests (Driver.Run cfg env).queries point).map
            (fun reachableTest => (point, reachableTest.1, reachableTest.2))) ∧
      result.mutationResults.length =
        ((result.allMutationPoints.map (fun point =>
          (env.getReachableTests (Driver.Run cfg env).queries point).length))).sum := by
  unfold RunState.result at hresult
  by_cases haborted : (Driver.Run cfg env).aborted = true
  · rw [if_pos haborted] at hresult
    cases hresult
  · rw [if_neg haborted] at hresult
    have hreturned : (Driver.Run cfg env).aborted = false := by simpa using haborted
    cases hresult
    simp only []
    have hrecords := Run_records cfg env hreturned
    refine ⟨hrecords, ?_⟩
    have hlength := congrArg List.length hrecords
    rw [List.length_map] at hlength
    rw [hlength]
    simp only [recordsPerReachableTest, List.length_flatMap]
    congr 1
    apply List.map_congr_left
    intro point _
    simp

/-- C23, at a concrete input: two passing tests share the testee `sum`, whose
mutation point 42 is collected once and has the reachable tests 0 and 1, both
at distance 1; the results are for (42, test 0, 1) and (42, test 1, 1), in that
order. -/
theorem C23_mutation_results_in_discovery_order_witness :
    ∃ result, (Driver.Run sampleConfig dedupEnv).result dedupEnv = some result ∧
      result.allMutationPoints = [42] ∧
      dedupEnv.getReachableTests (Driver.Run sampleConfig dedupEnv).queries 42 =
        [(0, 1), (1, 1)] ∧
      result.mutationResults.map (fun r => (r.mutationPoint, r.test, r.distance)) =
        result.allMutationPoints.flatMap (fun point =>
          (dedupEnv.getReachableTests (Driver.Run sampleConfig dedupEnv).queries point).map
            (fun reachableTest => (point, reachableTest.1, reachableTest.2))) :=
  match hresult : (Driver.Run sampleConfig dedupEnv).result dedupEnv with
  | some result =>
    ⟨result, rfl,
      (Option.some.inj (hresult.symm.trans (by decide :
        (Driver.Run sampleConfig dedupEnv).result dedupEnv =
          some ⟨(List.range dedupEnv.testsCount).map (Driver.Run sampleConfig dedupEnv).tests,
            (Driver.Run sampleConfig dedupEnv).mutationResults, [42]⟩))) ▸ rfl,
      by decide,
      (C23_mutation_results_in_discovery_order sampleConfig dedupEnv result hresult).1⟩
  | none => absurd hresult (by decide)

/-- C24.  The destructor table is drained last in, first out: after the
registrations (d1, a1), ..., (dn, an) with pairwise distinct arguments and
n ≤ 64, made on the table as it is after static initialisation, all
registrations return, `current_dtor` is n, and `runDestructors` calls dn(an),
..., d1(a1) in exactly that order, each once, and leaves `current_dtor` at 0, so
that a second drain does nothing at all. -/
theorem C24_destructors_drained_lifo (registrations : List atexit_entry)
    (hdistinct : (registrations.map atexit_entry.arg).Nodup)
    (hcount : registrations.length ≤ dtors_count) :
    ∃ table, registerAll DtorTable.initial registrations = some table ∧
      table.current_dtor = registrations.length ∧
      destructorCalls (runDestructors table).2 =
        registrations.reverse.map (fun r => (r.destructor, r.arg)) ∧
      (runDestructors table).1.current_dtor = 0 ∧
      (runDestructors (runDestructors table).1).2 = [] := by
  obtain ⟨table, filler, hregister, hdtors, hcurrent, _⟩ :=
    registerAll_spec registrations [] DtorTable.initial (List.replicate dtors_count ⟨0, 0, 0⟩)
      rfl rfl (by simp) (by simpa using hdistinct) (by simpa using hcount)
  simp only [List.nil_append] at hdtors hcurrent
  obtain ⟨htable, _, hcalls⟩ := runDestructors_spec table
  refine ⟨table, hregister, hcurrent, ?_, ?_, ?_⟩
  · rw [hcalls, hcurrent]
    have hentries := map_range_getD (fun r : atexit_entry => (r.destructor, r.arg)) ⟨0, 0, 0⟩
      registrations filler
    rw [← hdtors] at hentries
    rw [List.map_reverse, List.map_reverse]
    exact congrArg List.reverse hentries
  · rw [htable]
  · rw [htable]
    rfl

/-- C24, at three registrations: the drain calls 30(3), 20(2), 10(1). -/
theorem C24_destructors_drained_lifo_witness :
    ∃ table, registerAll DtorTable.initial [⟨10, 1, 0⟩, ⟨20, 2, 0⟩, ⟨30, 3, 0⟩] = some table ∧
      table.current_dtor = 3 ∧
      destructorCalls (runDestructors table).2 = [(30, 3), (20, 2), (10, 1)] ∧
      (runDestructors table).1.current_dtor = 0 ∧
      (runDestructors (runDestructors table).1).2 = [] :=
  C24_destructors_drained_lifo [⟨10, 1, 0⟩, ⟨20, 2, 0⟩, ⟨30, 3, 0⟩] (by decide) (by decide)

/-- C25, at the failing input: a driver with two entries in its function table.
`prepareForExecution` maps and zeroes 16 bytes, and the destructor passes the
length 2 to `munmap`.  In general the destructor passes the number of entries,
while `prepareForExecution` maps and zeroes 8 bytes times that number, and the
two lengths differ for every driver `prepareForExecution` accepts. -/
theorem C25_munmap_length_is_entry_count :
    ((Driver.Run sampleConfig sampleEnv).driver.functions.length = 2 ∧
        (Driver.Run sampleConfig sampleEnv).driver.mmapLength = 16 ∧
        (Driver.Run sampleConfig sampleEnv).driver.memsetLength = 16 ∧
        (Driver.Run sampleConfig sampleEnv).driver.munmapLength = 2) ∧
      (∀ driver driver1 : Driver, driver.prepareForExecution = some driver1 →
        driver1.functions.length < 2 ^ 61 →
        driver1.mmapLength = 8 * driver1.functions.length ∧
        driver1.memsetLength = driver1.mmapLength ∧
        driver1.munmapLength = driver1.functions.length ∧
        driver1.munmapLength < driver1.mmapLength) := by
  refine ⟨by decide, ?_⟩
  intro driver driver1 hprepare hsize
  have hmany : 1 < driver1.functions.length := by
    unfold Driver.prepareForExecution at hprepare
    split at hprepare
    · cases hprepare
    · split at hprepare
      · cases hprepare
      · cases hprepare
        simp only []
        omega
  unfold Driver.mmapLength Driver.memsetLength Driver.munmapLength sizeofUInt64
  omega

/-- C26.  `getMutationPoint` of the replace-assignment operator returns a mutation
point if and only if `canBeApplied` holds for the instruction, which is if and
only if the instruction is a store whose stored operand has integer, float or
double type; otherwise it returns null.  A returned point carries the
diagnostics text "Replace Assignment: replaced rvalue with 42", and the
operator, address, instruction and module it was asked about. -/
theorem C26_mutation_point_iff_applicable (module : Nat) (address : MutationPointAddress)
    (instruction : Instruction) :
    ((ReplaceAssignmentMutationOperator.getMutationPoint module address instruction).isSome =
        ReplaceAssignmentMutationOperator.canBeApplied instruction) ∧
      (ReplaceAssignmentMutationOperator.canBeApplied instruction = true ↔
        ∃ storedValue pointer, instruction = Instruction.store storedValue pointer ∧
          ((∃ width, storedValue.getType = LType.integer width) ∨
            storedValue.getType = LType.float ∨ storedValue.getType = LType.double)) ∧
      (ReplaceAssignmentMutationOperator.canBeApplied instruction = false →
        ReplaceAssignmentMutationOperator.getMutationPoint module address instruction = none) ∧
      (∀ point, ReplaceAssignmentMutationOperator.getMutationPoint module address instruction =
          some point →
        point = ⟨ReplaceAssignmentMutationOperator.ID, address, instruction, module,
          "Replace Assignment: replaced rvalue with 42"⟩) := by
  refine ⟨?_, canBeApplied_iff instruction, ?_, ?_⟩
  · unfold ReplaceAssignmentMutationOperator.getMutationPoint
      ReplaceAssignmentMutationOperator.canBeApplied
    simp only []
    generalize findPossibleApplication instruction "" = found
    rcases found with ⟨flag, text⟩
    cases flag <;> rfl
  · unfold ReplaceAssignmentMutationOperator.getMutationPoint
      ReplaceAssignmentMutationOperator.canBeApplied
    simp only []
    generalize findPossibleApplication instruction "" = found
    rcases found with ⟨flag, text⟩
    intro hflag
    simp only [] at hflag
    subst hflag
    rfl
  · intro point hpoint
    unfold ReplaceAssignmentMutationOperator.getMutationPoint at hpoint
    simp only [] at hpoint
    have htext : (findPossibleApplication instruction "").1 = true →
        (findPossibleApplication instruction "").2 =
          "Replace Assignment: replaced rvalue with 42" := by
      unfold findPossibleApplication
      cases instruction with
      | store storedValue pointer =>
        simp only []
        split
        · intro h; cases h
        · intro _; rfl
      | call callee arguments => intro h; cases h
      | ret operand => intro h; cases h
      | terminator id => intro h; cases h
      | other id => intro h; cases h
    generalize findPossibleApplication instruction "" = found at hpoint htext
    rcases found with ⟨flag, text⟩
    cases flag with
    | false => cases hpoint
    | true =>
      simp only [Option.some.injEq] at hpoint
      have := htext rfl
      simp only [] at this
      rw [← hpoint, this]

/-- C26, at three instructions: a store of a 32-bit integer gives a point, a
store of a pointer and a call give null. -/
theorem C26_mutation_point_iff_applicable_witness :
    ReplaceAssignmentMutationOperator.getMutationPoint 100 ⟨0, 0, 0⟩
        (Instruction.store (Value.other (LType.integer 32) 7)
          (Value.other (LType.pointer (LType.integer 32)) 1)) =
        some ⟨"replace_assignment_mutation_operator", ⟨0, 0, 0⟩,
          Instruction.store (Value.other (LType.integer 32) 7)
            (Value.other (LType.pointer (LType.integer 32)) 1),
          100, "Replace Assignment: replaced rvalue with 42"⟩ ∧
      ReplaceAssignmentMutationOperator.getMutationPoint 100 ⟨0, 0, 1⟩
        (Instruction.store (Value.other (LType.pointer (LType.integer 8)) 3)
          (Value.other (LType.pointer (LType.pointer (LType.integer 8))) 4)) = none ∧
      ReplaceAssignmentMutationOperator.getMutationPoint 100 ⟨0, 0, 2⟩
        (Instruction.call "use" [Value.other (LType.integer 32) 7]) = none :=
  ⟨by decide,
    (C26_mutation_point_iff_applicable 100 ⟨0, 0, 1⟩ _).2.2.1 (by decide),
    (C26_mutation_point_iff_applicable 100 ⟨0, 0, 2⟩ _).2.2.1 (by decide)⟩

/-- C27 (counterexample).  A custom test whose one argument has a null character
in it: `main` is called with an `argv` whose entry 1 is the C string `a`, the
part before the null character, not a copy of the whole argument. -/
theorem C27_argument_with_null_counterexample :
    (CustomTestRunner.runTest passingJit ⟨"prog", ["a\x00b"], []⟩ [500]).events =
        [RunnerEvent.addObjectSet [500],
         RunnerEvent.callMain 2 [some "prog", some "a", none],
         RunnerEvent.runDestructors, RunnerEvent.removeObjectSet] ∧
      "a\x00b".length = 3 ∧ "a" ≠ "a\x00b" := by
  decide

/-- C27 (amended).  Whenever `CustomTestRunner::runTest` calls `main` for a custom
test with program name p and argument list [a1..an], it does so with
argc = n + 1 and an `argv` of n + 2 entries: the entries 0..n are the C strings
copied by `strcpy` from p, a1, ..., an in that order, that is their text up to
the first null character, which is all of it for a string without a null
character, and the entry at index argc is the null pointer.  It calls `main`
whenever every symbol it looks up is found. -/
theorem C27_main_called_with_copied_arguments (jit : Jit) (test : CustomTest_Test)
    (objectFiles : List Nat) :
    (∀ (argc : Int) (argv : List (Option String)),
        RunnerEvent.callMain argc argv ∈ (CustomTestRunner.runTest jit test objectFiles).events →
        argc = (test.arguments.length : Int) + 1 ∧
        argv.length = test.arguments.length + 2 ∧
        argv.get? 0 = some (some (strcpy test.programName)) ∧
        (∀ (i : Nat) (argument : String), test.arguments.get? i = some argument →
          argv.get? (i + 1) = some (some (strcpy argument))) ∧
        argv.get? argc.toNat = some none) ∧
      (∀ argument : String, Char.ofNat 0 ∉ argument.toList → strcpy argument = argument) ∧
      ((∀ name ∈ CustomTestRunner.lookups jit test, jit.findSymbol name ≠ 0) →
        ∃ (argc : Int) (argv : List (Option String)),
          RunnerEvent.callMain argc argv ∈
            (CustomTestRunner.runTest jit test objectFiles).events) := by
  refine ⟨fun argc argv hcall => ?_, strcpy_of_no_null, fun hfound => ?_⟩
  · obtain ⟨hargc, hargv⟩ :=
      CustomTest_runTest_callMain_arguments jit test objectFiles argc argv hcall
    subst hargc hargv
    refine ⟨by simp, by simp, by simp, ?_, ?_⟩
    · intro i argument hget
      rw [List.get?_eq_getElem?] at hget ⊢
      have hlt : i < test.arguments.length := by
        by_contra hge
        rw [List.getElem?_eq_none (by omega)] at hget
        cases hget
      rw [List.getElem?_append_left (by simp; omega)]
      simp [hget]
    · have hlength : ((test.programName :: test.arguments).map
          (fun argument => some (strcpy argument))).length =
          (((test.programName :: test.arguments).length : Nat) : Int).toNat := by
        simp
      rw [List.get?_eq_getElem?, ← hlength, List.getElem?_concat_length]
  · obtain ⟨called, hevents, _⟩ := (CustomTest_runTest_shape jit test objectFiles).2 hfound
    exact ⟨((test.programName :: test.arguments).length : Nat),
      (test.programName :: test.arguments).map (fun argument => some (strcpy argument)) ++
        [none],
      by rw [hevents]; simp⟩

/-- C27 (amended), at a concrete input: the program `prog` with the arguments
`--fast` and `x`, none with a null character. -/
theorem C27_main_called_with_copied_arguments_witness :
    RunnerEvent.callMain 3 [some "prog", some "--fast", some "x", none] ∈
        (CustomTestRunner.runTest passingJit ⟨"prog", ["--fast", "x"], ["ctor"]⟩ [500]).events ∧
      (3 : Int) = ((["--fast", "x"] : List String).length : Int) + 1 ∧
      [some "prog", some "--fast", some "x", none].get? (3 : Int).toNat =
        some (none : Option String) :=
  have hcall : RunnerEvent.callMain 3 [some "prog", some "--fast", some "x", none] ∈
      (CustomTestRunner.runTest passingJit ⟨"prog", ["--fast", "x"], ["ctor"]⟩ [500]).events := by
    decide
  have hclaim := (C27_main_called_with_copied_arguments passingJit
    ⟨"prog", ["--fast", "x"], ["ctor"]⟩ [500]).1 3
    [some "prog", some "--fast", some "x", none] hcall
  ⟨hcall, hclaim.1, hclaim.2.2.2.2⟩

/-- C28 (counterexample).  Sixty-four registrations with the distinct arguments
1 to 64 fill the table.  Registering the destructor 999 for the argument 1,
which the entry at index 0 has, then does not return 0: the assertion
`current_dtor < dtors_count` fails before the table is searched. -/
theorem C28_duplicate_on_full_table_counterexample :
    ∃ table, registerAll DtorTable.initial fullRegistrations = some table ∧
      table.current_dtor = 64 ∧
      (table.entry 0).arg = 1 ∧
      mull_cppunit_cxa_atexit table 999 1 0 = none := by
  obtain ⟨table, filler, hregister, hdtors, hcurrent, _⟩ :=
    registerAll_spec fullRegistrations [] DtorTable.initial
      (List.replicate dtors_count ⟨0, 0, 0⟩) rfl rfl (by simp) (by decide) (by decide)
  simp only [List.nil_append] at hdtors hcurrent
  refine ⟨table, hregister, hcurrent, ?_, ?_⟩
  · unfold DtorTable.entry
    rw [hdtors]
    rfl
  · apply cxa_atexit_full
    rw [hcurrent]
    decide

/-- C28 (amended).  While the table has room (`current_dtor < dtors_count`, the
function's assertion), `mull_cppunit_cxa_atexit` keys the table by the argument
alone: registering (d2, a) when an entry below `current_dtor` has the argument
`a` returns 0, leaves the table and its count unchanged and calls nothing, also
when d2 is not the destructor registered for `a`; the drain that follows then
never calls d2 on `a`. -/
theorem C28_duplicate_argument_ignored (table : DtorTable) (destructor2 arg dso_handle : Nat)
    (hassert : table.current_dtor < dtors_count)
    (hpresent : ∃ j, j < table.current_dtor ∧ (table.entry j).arg = arg) :
    ∃ returned, mull_cppunit_cxa_atexit table destructor2 arg dso_handle = some returned ∧
      returned.table = table ∧ returned.value = 0 ∧
      destructorCalls returned.events = [] ∧
      ((∀ j, j < table.current_dtor → (table.entry j).arg = arg →
          (table.entry j).destructor ≠ destructor2) →
        (destructor2, arg) ∉ destructorCalls (runDestructors returned.table).2) := by
  obtain ⟨events, hcall, hcalls, _⟩ :=
    cxa_atexit_present table destructor2 arg dso_handle hassert hpresent
  refine ⟨⟨table, 0, events⟩, hcall, rfl, rfl, hcalls, ?_⟩
  intro hother hmem
  simp only [] at hmem
  rw [(runDestructors_spec table).2.2] at hmem
  obtain ⟨j, hj, hpair⟩ := List.mem_map.mp hmem
  rw [List.mem_reverse, List.mem_range] at hj
  simp only [Prod.mk.injEq] at hpair
  exact hother j hj hpair.2 hpair.1

/-- C28 (amended), at a concrete input: the table holds (10, 1) and (20, 2);
registering the destructor 99 for the argument 1 changes nothing, and the drain
calls 20(2) and 10(1) only. -/
theorem C28_duplicate_argument_ignored_witness :
    registerAll DtorTable.initial [⟨10, 1, 0⟩, ⟨20, 2, 0⟩] = some twoEntries ∧
      ∃ returned, mull_cppunit_cxa_atexit twoEntries 99 1 0 = some returned ∧
        returned.table = twoEntries ∧ returned.value = 0 ∧
        destructorCalls (runDestructors returned.table).2 = [(20, 2), (10, 1)] :=
  have hclaim := C28_duplicate_argument_ignored twoEntries 99 1 0 (by decide)
    ⟨0, by decide, by decide⟩
  ⟨by decide,
    match hclaim with
    | ⟨returned, hcall, htable, hvalue, _, _⟩ =>
      ⟨returned, hcall, htable, hvalue, by rw [htable]; decide⟩⟩

/-- C29.  In every sequence of calls of `mull_cppunit_cxa_atexit` and
`runDestructors`, made on the table as it is after static initialisation, in
which no call fails the capacity assertion, the entry count is at most 64 after
every call and every read or write of the array is at an index below 64.  The
assertion comes before the search for the argument: on a table with 64 entries
every registration fails it, also that of an argument that is registered, and
64 registrations with distinct arguments produce such a table. -/
theorem C29_table_accesses_in_bounds (calls : List TableCall) (final : DtorTable)
    (counts : List Nat) (events : List TableEvent)
    (hcalls : runTableCalls DtorTable.initial calls = some (final, counts, events)) :
    (final.current_dtor ≤ 64 ∧ (∀ count ∈ counts, count ≤ 64) ∧
        ∀ index ∈ accessedIndices events, index < 64) ∧
      (∀ (table : DtorTable) (destructor arg dso_handle : Nat), table.current_dtor = 64 →
        mull_cppunit_cxa_atexit table destructor arg dso_handle = none) ∧
      (∀ registrations : List atexit_entry, (registrations.map atexit_entry.arg).Nodup →
        registrations.length = 64 →
        ∃ table, registerAll DtorTable.initial registrations = some table ∧
          table.current_dtor = 64 ∧
          ∀ registered ∈ registrations, ∀ destructor,
            mull_cppunit_cxa_atexit table destructor registered.arg registered.dso_handle =
              none) := by
  refine ⟨runTableCalls_bounds calls DtorTable.initial final counts events (by decide) hcalls,
    fun table destructor arg dso_handle hfull =>
      cxa_atexit_full table destructor arg dso_handle (by rw [hfull]; decide), ?_⟩
  intro registrations hdistinct hlength
  obtain ⟨table, filler, hregister, _, hcurrent, _⟩ :=
    registerAll_spec registrations [] DtorTable.initial
      (List.replicate dtors_count ⟨0, 0, 0⟩) rfl rfl (by simp) (by simpa using hdistinct)
      (by simp only [List.nil_append]; rw [hlength]; decide)
  simp only [List.nil_append] at hcurrent
  refine ⟨table, hregister, by rw [hcurrent, hlength], fun registered _ destructor => ?_⟩
  apply cxa_atexit_full
  rw [hcurrent, hlength]
  decide

/-- C29, at a concrete sequence: two registrations, a registration of an argument
already there, a drain and one more registration. -/
theorem C29_table_accesses_in_bounds_witness :
    (runTableCalls DtorTable.initial sampleTableCalls).map
        (fun r => (r.1.current_dtor, r.2.1, accessedIndices r.2.2)) =
        some (1, [1, 2, 2, 0, 1], [0, 0, 0, 0, 1, 1, 1, 0, 1, 1, 0, 0, 0, 0, 0]) ∧
      ∃ final counts events,
        runTableCalls DtorTable.initial sampleTableCalls = some (final, counts, events) ∧
        final.current_dtor ≤ 64 ∧ (∀ count ∈ counts, count ≤ 64) ∧
        ∀ index ∈ accessedIndices events, index < 64 :=
  ⟨by decide,
    match hrun : runTableCalls DtorTable.initial sampleTableCalls with
    | some (final, counts, events) =>
      ⟨final, counts, events, rfl,
        (C29_table_accesses_in_bounds sampleTableCalls final counts events hrun).1⟩
    | none => absurd hrun (by decide)⟩

/-- C30.  At the module whose store at the address (0, 0, 0) stores the 32-bit
constant 42, `canBeApplied` holds, `getReplacement` returns that same constant,
and `applyMutation` does not complete: `storeOperand->replaceAllUsesWith` is
called with the stored operand itself.  The same happens for a store of the
`double` constant 42.0.  At the module that stores the 32-bit value `%7`,
`applyMutation` completes, and the store and the other uses of `%7` hold the
constant 42.  For every store instruction that satisfies `canBeApplied`, found
at an address of the module, `getReplacement` returns a constant (it does not
reach "Unsupported return type!") that has the stored operand's type and
denotes 42: for an integer type of width w the value 42 mod 2^w, for float and
double the value 42.  When the stored operand is another value than that
constant, `applyMutation` completes and afterwards the instruction at the
address is the store of that constant to the old pointer with the uses of the
old stored operand redirected; when it is that constant, `applyMutation` does
not complete. -/
theorem C30_applyMutation_fails_on_stored_42 :
    (MutationPointAddress.findInstruction ⟨0, 0, 0⟩ magicStoreIR =
          some (Instruction.store (Value.constantInt 32 42)
            (Value.other (LType.pointer (LType.integer 32)) 1)) ∧
        ReplaceAssignmentMutationOperator.canBeApplied
          (Instruction.store (Value.constantInt 32 42)
            (Value.other (LType.pointer (LType.integer 32)) 1)) = true ∧
        getReplacement (LType.integer 32) = some (Value.constantInt 32 42) ∧
        ReplaceAssignmentMutationOperator.applyMutation magicStoreIR ⟨0, 0, 0⟩ = none) ∧
      (ReplaceAssignmentMutationOperator.canBeApplied
          (Instruction.store (Value.constantFP LType.double 42)
            (Value.other (LType.pointer LType.double) 1)) = true ∧
        ReplaceAssignmentMutationOperator.applyMutation magicDoubleStoreIR ⟨0, 0, 0⟩ = none) ∧
      ReplaceAssignmentMutationOperator.applyMutation storeIR ⟨0, 0, 0⟩ =
        some { functions :=
          [{ name := "f", linkage := Linkage.ExternalLinkage, returnType := LType.integer 32,
             parameterTypes := [],
             blocks := [{ instructions :=
               [Instruction.store (Value.constantInt 32 42)
                  (Value.other (LType.pointer (LType.integer 32)) 1),
                Instruction.call "use" [Value.constantInt 32 42],
                Instruction.ret (some (Value.constantInt 32 42))] }] }] } ∧
      ∀ (M : LModule) (address : MutationPointAddress) (storedValue pointer : Value),
        address.findInstruction M = some (Instruction.store storedValue pointer) →
        ReplaceAssignmentMutationOperator.canBeApplied
          (Instruction.store storedValue pointer) = true →
        ∃ replacement,
          getReplacement storedValue.getType = some replacement ∧
          replacement.getType = storedValue.getType ∧
          (∀ width, storedValue.getType = LType.integer width →
            replacement = Value.constantInt width (42 % 2 ^ width)) ∧
          (storedValue.getType = LType.float →
            replacement = Value.constantFP LType.float 42) ∧
          (storedValue.getType = LType.double →
            replacement = Value.constantFP LType.double 42) ∧
          (storedValue = replacement →
            ReplaceAssignmentMutationOperator.applyMutation M address = none) ∧
          (storedValue ≠ replacement →
            ∃ M1, ReplaceAssignmentMutationOperator.applyMutation M address = some M1 ∧
              address.findInstruction M1 =
                some (Instruction.store replacement
                  (Value.replaceUsesWith storedValue replacement pointer))) := by
  refine ⟨by decide, by decide, by decide, ?_⟩
  intro M address storedValue pointer hfind happly
  obtain ⟨storedValue1, pointer1, heq, happlicable⟩ := (canBeApplied_iff _).mp happly
  cases heq
  obtain ⟨replacement, hreplacement, htype, hinteger, hfloat, hdouble, hself⟩ :=
    getReplacement_of_applicable storedValue.getType happlicable
  refine ⟨replacement, hreplacement, htype, hinteger, hfloat, hdouble, ?_, ?_⟩
  · intro hsame
    unfold ReplaceAssignmentMutationOperator.applyMutation
    rw [hfind]
    simp only []
    rw [hreplacement]
    simp only [hsame, if_true]
  · intro hother
    refine ⟨(M.setInstruction address (Instruction.store replacement pointer)).replaceAllUsesWith
      storedValue replacement, ?_, ?_⟩
    · unfold ReplaceAssignmentMutationOperator.applyMutation
      rw [hfind]
      simp only []
      rw [hreplacement]
      simp only [hother, if_false]
    · rw [findInstruction_replaceAllUsesWith,
        findInstruction_setInstruction M address _ _ hfind]
      simp only [Option.map_some', Instruction.replaceUsesWith, hself]

end mull
